import Mathlib

/-!
# CDSS common module

A shallow embedding of `src/cdss-module.js`: the recommendation extractor
(`extractRecommendations`), the rule input planner (`getListOfExpectedLibraries`,
`getListOfExpectedParameters`), `createBundle`, `getCurrentTimestamp`, the
engine invoker (`executeCql`), the resource types, `ReferenceMappings`,
`isFhirList` and `isURL`; and of the resource fetcher `getFhirResource` of `src/index.js` with
its reference resolution; followed by theorems about them.

JavaScript values are JSON-like trees (no aliasing); an object is its list of
own properties in creation order.  `JSValue.prop` reads own properties;
`JSValue.read` also follows the prototype chain and is the read of the library
and parameter names, which come from the rule.  Exceptions are the
`Except.error` alternative of the result; the calls made to the external
collaborators (terminology service, CQL engine, FHIR wrapper, endpoints and
transport) are recorded in a trace.
-/

namespace CDSS

/-! ## JavaScript values -/

/-- JSON-like JavaScript values.  Numbers that occur as values are integers. -/
inductive JSValue where
  | undefined
  | null
  | bool (b : Bool)
  | number (n : Int)
  | string (s : String)
  | array (items : List JSValue)
  | object (props : List (String × JSValue))

/-- Exceptions: `new Error(message)` thrown by the module itself, a `TypeError`
raised by the runtime (property read on null or undefined, call of a
non-function, iteration of a non-iterable), or a rejection that comes from an
external collaborator (the CQL engine, an endpoint, the transport). -/
inductive JSError where
  | error (message : String)
  | typeError
  | external (reason : String)
  deriving DecidableEq

/-- The test `v == null`: true for null and undefined only. -/
def JSValue.isNullish : JSValue → Bool
  | .undefined => true
  | .null => true
  | _ => false

/-- The operator `typeof`. -/
def JSValue.typeOf : JSValue → String
  | .undefined => "undefined"
  | .null => "object"
  | .bool _ => "boolean"
  | .number _ => "number"
  | .string _ => "string"
  | .array _ => "object"
  | .object _ => "object"

/-! ## Strings

Strings are handled as lists of characters.  `lastIndexOf` and `substring`
count UTF-16 code units in JavaScript; they are only combined here as "the text
after the last occurrence of a pattern", which does not depend on the unit. -/

/-- The method `s.startsWith(pattern)`. -/
def startsWith (s pattern : String) : Bool :=
  pattern.data.isPrefixOf s.data

/-- Scan for `lastIndexOf`: `i` is the position of the first character of the
remaining text, `found` the last match seen so far. -/
def lastIndexOfFrom (pattern : List Char) : List Char → Nat → Int → Int
  | [], i, found => if pattern.isEmpty then (i : Int) else found
  | c :: cs, i, found =>
    lastIndexOfFrom pattern cs (i + 1) (if pattern.isPrefixOf (c :: cs) then (i : Int) else found)

/-- The method `s.lastIndexOf(pattern)`: the greatest position at which
`pattern` occurs in `s`, or -1. -/
def lastIndexOf (s pattern : String) : Int :=
  lastIndexOfFrom pattern.data s.data 0 (-1)

/-- The method `s.substring(start)`; a negative start counts as 0. -/
def substring (s : String) (start : Int) : String :=
  ⟨s.data.drop start.toNat⟩

/-- UTF-16 code units of a string. -/
def utf16Units (s : String) : List Nat :=
  s.data.flatMap fun c =>
    if c.toNat < 0x10000 then [c.toNat]
    else [0xD800 + (c.toNat - 0x10000) / 0x400, 0xDC00 + (c.toNat - 0x10000) % 0x400]

/-- Lexicographic comparison of code-unit sequences. -/
def unitsLe : List Nat → List Nat → Bool
  | [], _ => true
  | _ :: _, [] => false
  | a :: as, b :: bs => a < b || (a == b && unitsLe as bs)

/-- The order of the default comparator of `Array.prototype.sort` on strings:
comparison by UTF-16 code units. -/
def jsStringLe (a b : String) : Prop :=
  unitsLe (utf16Units a) (utf16Units b) = true

instance : DecidableRel jsStringLe :=
  fun a b => inferInstanceAs (Decidable (unitsLe (utf16Units a) (utf16Units b) = true))

/-- The call `keys.sort()` on an array of strings. -/
def defaultSort (keys : List String) : List String :=
  keys.insertionSort jsStringLe

/-! ## Numbers: `Number(string)` and `Number.prototype.toString` -/

/-- The mathematical value of a numeric string before rounding to binary64:
`finite negative m e` stands for `±m·10^e`. -/
inductive NumericValue where
  | nan
  | infinity (negative : Bool)
  | finite (negative : Bool) (mantissa : Nat) (exponent : Int)
  deriving DecidableEq

/-- The characters `StrWhiteSpaceChar`: white space and line terminators. -/
def isStrWhiteSpaceChar (c : Char) : Bool :=
  let n := c.toNat
  n == 0x09 || n == 0x0A || n == 0x0B || n == 0x0C || n == 0x0D || n == 0x20 || n == 0xA0 ||
  n == 0x1680 || (0x2000 ≤ n && n ≤ 0x200A) || n == 0x2028 || n == 0x2029 || n == 0x202F ||
  n == 0x205F || n == 0x3000 || n == 0xFEFF

/-- Removal of leading and trailing `StrWhiteSpaceChar`. -/
def trimWhiteSpace (cs : List Char) : List Char :=
  ((cs.dropWhile isStrWhiteSpaceChar).reverse.dropWhile isStrWhiteSpaceChar).reverse

/-- The decimal digits `0` to `9`. -/
def isDecimalDigit (c : Char) : Bool :=
  48 ≤ c.toNat && c.toNat ≤ 57

/-- Value of a digit in the given radix, if it is one. -/
def digitValue (radix : Nat) (c : Char) : Option Nat :=
  let n := c.toNat
  let d : Option Nat :=
    if 48 ≤ n && n ≤ 57 then some (n - 48)
    else if 97 ≤ n && n ≤ 102 then some (n - 87)
    else if 65 ≤ n && n ≤ 70 then some (n - 55)
    else none
  d.filter (fun v => v < radix)

/-- Value of a digit sequence in the given radix, left to right from `acc`. -/
def digitsValue (radix : Nat) : List Char → Nat → Option Nat
  | [], acc => some acc
  | c :: cs, acc =>
    match digitValue radix c with
    | some d => digitsValue radix cs (acc * radix + d)
    | none => none

/-- Value of a sequence of decimal digits. -/
def decimalValue (cs : List Char) : Nat :=
  cs.foldl (fun acc c => 10 * acc + (c.toNat - 48)) 0

/-- The production `ExponentPart`, optional: `e` or `E`, an optional sign, and at
least one digit. -/
def parseExponent : List Char → Option Int
  | [] => some 0
  | c :: rest =>
    if c == 'e' || c == 'E' then
      match rest with
      | '+' :: ds => if !ds.isEmpty && ds.all isDecimalDigit then some (decimalValue ds) else none
      | '-' :: ds => if !ds.isEmpty && ds.all isDecimalDigit then some (-(decimalValue ds : Int)) else none
      | ds => if !ds.isEmpty && ds.all isDecimalDigit then some (decimalValue ds) else none
    else none

/-- The production `StrUnsignedDecimalLiteral` without `Infinity`: digits, an
optional fraction and an optional exponent; mantissa and decimal exponent. -/
def parseUnsignedDecimal (cs : List Char) : Option (Nat × Int) :=
  let intPart := cs.takeWhile isDecimalDigit
  let afterInt := cs.dropWhile isDecimalDigit
  let fracPart := match afterInt with
    | '.' :: r => r.takeWhile isDecimalDigit
    | _ => []
  let afterFrac := match afterInt with
    | '.' :: r => r.dropWhile isDecimalDigit
    | r => r
  if intPart.isEmpty && fracPart.isEmpty then none
  else match parseExponent afterFrac with
    | none => none
    | some e => some (decimalValue (intPart ++ fracPart), e - (fracPart.length : Int))

/-- An unsigned `StrDecimalLiteral`. -/
def parseUnsigned (negative : Bool) (cs : List Char) : NumericValue :=
  if cs = "Infinity".data then .infinity negative
  else match parseUnsignedDecimal cs with
    | some (m, e) => .finite negative m e
    | none => .nan

/-- A `NonDecimalIntegerLiteral` body: at least one digit of the radix. -/
def parseRadix (radix : Nat) (ds : List Char) : NumericValue :=
  if ds.isEmpty then .nan
  else match digitsValue radix ds 0 with
    | some n => .finite false n 0
    | none => .nan

/-- The radix a letter after a leading `0` announces: `x` 16, `o` 8, `b` 2. -/
def radixOf (c : Char) : Option Nat :=
  if c = 'x' ∨ c = 'X' then some 16
  else if c = 'o' ∨ c = 'O' then some 8
  else if c = 'b' ∨ c = 'B' then some 2
  else none

/-- The abstract operation `StringToNumber`, before rounding: the argument
is trimmed; the empty string is 0; `0x`, `0o` and `0b` literals are integers;
otherwise a signed decimal literal or `Infinity`; anything else is NaN. -/
def stringToNumber (s : String) : NumericValue :=
  match trimWhiteSpace s.data with
  | [] => .finite false 0 0
  | c :: cs =>
    if c = '+' then parseUnsigned false cs
    else if c = '-' then parseUnsigned true cs
    else
      match (if c = '0' then cs.head?.bind radixOf else none) with
      | some radix => parseRadix radix cs.tail
      | none => parseUnsigned false (c :: cs)

/-- Rounding of the positive rational `p/q` to the nearest binary64 value, ties
to even: the result as a fraction whose denominator is a power of two, or
`none` when the value overflows to Infinity. -/
def roundBinary64 (p q : Nat) : Option (Nat × Nat) :=
  let e0 : Int := (Nat.log2 p : Int) - (Nat.log2 q : Int)
  let atLeast : Bool := if 0 ≤ e0 then q * 2 ^ e0.toNat ≤ p else q ≤ p * 2 ^ (-e0).toNat
  let e : Int := if atLeast then e0 else e0 - 1
  let ulp : Int := max (e - 52) (-1074)
  let n := if ulp < 0 then p * 2 ^ (-ulp).toNat else p
  let d := if ulp < 0 then q else q * 2 ^ ulp.toNat
  let m0 := n / d
  let r := n % d
  let m := if d < 2 * r || (2 * r == d && m0 % 2 == 1) then m0 + 1 else m0
  if ulp < 0 then some (m, 2 ^ (-ulp).toNat)
  else if 2 ^ 1024 ≤ m * 2 ^ ulp.toNat then none
  else some (m * 2 ^ ulp.toNat, 1)

/-- The integer `n` with `10^(n-1) ≤ xn/xd < 10^n`, for a positive fraction. -/
def decimalExponent (xn xd : Nat) : Int :=
  if xd ≤ xn then (Nat.log 10 (xn / xd) : Int) + 1
  else
    let j0 := Nat.log 10 (xd / xn)
    if xd ≤ xn * 10 ^ j0 then 1 - (j0 : Int) else -(j0 : Int)

/-- Whether the decimal `s·10^t` rounds to the binary64 value `xn/xd`. -/
def roundsTo (s : Nat) (t : Int) (xn xd : Nat) : Bool :=
  let c := if 0 ≤ t then roundBinary64 (s * 10 ^ t.toNat) 1 else roundBinary64 s (10 ^ (-t).toNat)
  match c with
  | some (rn, rd) => rn * xd == xn * rd
  | none => false

/-- The candidate with `k` significant digits for the shortest decimal that
rounds to `xn/xd`: of the two neighbours of `x/10^(n-k)` the one that rounds to
`x`, the closer one if both do (the even one on a tie). -/
def shortestCandidate (xn xd : Nat) (n : Int) (k : Nat) : Option (Nat × Int) :=
  let t : Int := n - k
  let yn := if 0 ≤ t then xn else xn * 10 ^ (-t).toNat
  let yd := if 0 ≤ t then xd * 10 ^ t.toNat else xd
  let lo := yn / yd
  let r := yn % yd
  let okLo := roundsTo lo t xn xd
  let okHi := roundsTo (lo + 1) t xn xd
  if okLo && okHi then
    if 2 * r < yd || (2 * r == yd && lo % 2 == 0) then some (lo, t) else some (lo + 1, t)
  else if okLo then some (lo, t)
  else if okHi then some (lo + 1, t)
  else none

/-- Removal of trailing zeros of a digit sequence. -/
def stripTrailingZeros (ds : List Char) : List Char :=
  (ds.reverse.dropWhile (fun c => c == '0')).reverse

/-- The layout of `Number::toString` for the digits `ds` of `s` and the exponent
`n` of the value `s·10^(n-k)`, `k` the number of digits. -/
def layoutDigits (ds : List Char) (n : Int) : List Char :=
  let k : Int := ds.length
  if k ≤ n && n ≤ 21 then ds ++ List.replicate (n - k).toNat '0'
  else if 0 < n && n ≤ 21 then ds.take n.toNat ++ '.' :: ds.drop n.toNat
  else if -6 < n && n ≤ 0 then '0' :: '.' :: List.replicate (-n).toNat '0' ++ ds
  else
    let e := n - 1
    let sign := if 0 ≤ e then '+' else '-'
    let mant := match ds with
      | [] => []
      | [d] => [d]
      | d :: rest => d :: '.' :: rest
    mant ++ 'e' :: sign :: Nat.toDigits 10 e.natAbs

/-- The method `Number::toString` on a positive binary64 value `xn/xd`: the
shortest digit sequence that rounds to the value, laid out in decimal or
exponent form. -/
def positiveToString (xn xd : Nat) : List Char :=
  let n := decimalExponent xn xd
  match (List.range 17).findSome? (fun i => shortestCandidate xn xd n (i + 1)) with
  | some (s, t) =>
    let ds := Nat.toDigits 10 s
    layoutDigits (stripTrailingZeros ds) (t + (ds.length : Int))
  | none => []

/-- The integer `m·10^e` when it is one. -/
def exactInteger (m : Nat) (e : Int) : Option Nat :=
  if 0 ≤ e then some (m * 10 ^ e.toNat)
  else if m % 10 ^ (-e).toNat = 0 then some (m / 10 ^ (-e).toNat)
  else none

/-- The conversion of a numeric value to the string JavaScript prints for it
(`Number::toString` after rounding to binary64).  An integer below `2^53` is
exactly representable and prints as its decimal digits; other values go through
the rounding and the shortest-digits search. -/
def numberToString : NumericValue → String
  | .nan => "NaN"
  | .infinity negative => if negative then "-Infinity" else "Infinity"
  | .finite negative m e =>
    match exactInteger m e with
    | some n =>
      if n < 2 ^ 53 then
        if negative && n != 0 then ⟨'-' :: Nat.toDigits 10 n⟩ else ⟨Nat.toDigits 10 n⟩
      else
        match roundBinary64 n 1 with
        | some (xn, xd) => ⟨(if negative then ['-'] else []) ++ positiveToString xn xd⟩
        | none => if negative then "-Infinity" else "Infinity"
    | none =>
      match (if 0 ≤ e then roundBinary64 (m * 10 ^ e.toNat) 1 else roundBinary64 m (10 ^ (-e).toNat)) with
      | some (xn, xd) =>
        if xn = 0 then "0" else ⟨(if negative then ['-'] else []) ++ positiveToString xn xd⟩
      | none => if negative then "-Infinity" else "Infinity"

/-- The property key that `new Number(text)` denotes when used as `object[num]`:
the string form of the number the text converts to. -/
def numberKey (text : String) : String :=
  numberToString (stringToNumber text)

/-! ## Objects and property access -/

mutual
/-- The abstract operation `ToString` on JSON-like values. -/
def JSValue.toStr : JSValue → String
  | .undefined => "undefined"
  | .null => "null"
  | .bool b => if b then "true" else "false"
  | .number n => numberToString (.finite (decide (n < 0)) n.natAbs 0)
  | .string s => s
  | .array items => joinItems items
  | .object _ => "[object Object]"
/-- The method `Array.prototype.join` with the default separator. -/
def joinItems : List JSValue → String
  | [] => ""
  | [x] => itemToStr x
  | x :: y :: rest => itemToStr x ++ "," ++ joinItems (y :: rest)
/-- The string of one array element in `join`: empty for null and undefined. -/
def itemToStr : JSValue → String
  | .undefined => ""
  | .null => ""
  | .bool b => if b then "true" else "false"
  | .number n => numberToString (.finite (decide (n < 0)) n.natAbs 0)
  | .string s => s
  | .array items => joinItems items
  | .object _ => "[object Object]"
end

/-- Own property lookup in a property list. -/
def findProp (key : String) : List (String × JSValue) → Option JSValue
  | [] => none
  | (k, v) :: rest => if k = key then some v else findProp key rest

/-- The assignment `object[key] = value` on a property list: an existing
property keeps its place, a new one is added last. -/
def setProp (key : String) (value : JSValue) : List (String × JSValue) → List (String × JSValue)
  | [] => [(key, value)]
  | (k, v) :: rest => if k = key then (k, value) :: rest else (k, v) :: setProp key value rest

/-- An array index: the canonical decimal string of an integer below `2^32 - 1`. -/
def arrayIndex (key : String) : Option Nat :=
  if !key.data.isEmpty && key.data.all isDecimalDigit
      && decide (Nat.toDigits 10 (decimalValue key.data) = key.data)
      && decide (decimalValue key.data < 2 ^ 32 - 1) then
    some (decimalValue key.data)
  else none

/-- The string holding one UTF-16 code unit; half of a surrogate pair, which a
string of scalar values cannot hold, is shown as U+FFFD. -/
def unitString (u : Nat) : String :=
  if 0xD800 ≤ u && u < 0xE000 then ⟨[Char.ofNat 0xFFFD]⟩ else ⟨[Char.ofNat u]⟩

/-- The property read `v[key]` on a value that is not null or undefined: own
properties of objects, elements and `length` of arrays and strings. -/
def JSValue.prop (v : JSValue) (key : String) : JSValue :=
  match v with
  | .object props => (findProp key props).getD .undefined
  | .array items =>
    if key = "length" then .number items.length
    else match arrayIndex key with
      | some i => items.getD i .undefined
      | none => .undefined
  | .string s =>
    if key = "length" then .number (utf16Units s).length
    else match arrayIndex key with
      | some i =>
        match (utf16Units s).get? i with
        | some u => .string (unitString u)
        | none => .undefined
      | none => .undefined
  | _ => .undefined

/-- The property read `v.key`, which raises a TypeError on null and undefined. -/
def JSValue.get (v : JSValue) (key : String) : Except JSError JSValue :=
  if v.isNullish then .error .typeError else .ok (v.prop key)

/-- The property names of `Object.prototype` (with the additions of Annex B). -/
def objectPrototypeNames : List String :=
  ["constructor", "hasOwnProperty", "isPrototypeOf", "propertyIsEnumerable", "toLocaleString",
    "toString", "valueOf", "__proto__", "__defineGetter__", "__defineSetter__",
    "__lookupGetter__", "__lookupSetter__"]

/-- The property names of `Array.prototype` other than `length`, which every
array has as an own property (ECMAScript 2023). -/
def arrayPrototypeNames : List String :=
  ["constructor", "at", "concat", "copyWithin", "entries", "every", "fill", "filter", "find",
    "findIndex", "findLast", "findLastIndex", "flat", "flatMap", "forEach", "includes",
    "indexOf", "join", "keys", "lastIndexOf", "map", "pop", "push", "reduce", "reduceRight",
    "reverse", "shift", "slice", "some", "sort", "splice", "toLocaleString", "toReversed",
    "toSorted", "toSpliced", "toString", "unshift", "values", "with"]

/-- The property names of `String.prototype` other than `length`, which every
string has as an own property (ECMAScript 2024, with the additions of Annex B). -/
def stringPrototypeNames : List String :=
  ["constructor", "anchor", "at", "big", "blink", "bold", "charAt", "charCodeAt",
    "codePointAt", "concat", "endsWith", "fixed", "fontcolor", "fontsize", "includes",
    "indexOf", "isWellFormed", "italics", "lastIndexOf", "link", "localeCompare", "match",
    "matchAll", "normalize", "padEnd", "padStart", "repeat", "replace", "replaceAll", "search",
    "slice", "small", "split", "startsWith", "strike", "sub", "substr", "substring", "sup",
    "toLocaleLowerCase", "toLocaleUpperCase", "toLowerCase", "toString", "toUpperCase",
    "toWellFormed", "trim", "trimEnd", "trimLeft", "trimRight", "trimStart", "valueOf"]

/-- The property names of `Number.prototype`. -/
def numberPrototypeNames : List String :=
  ["constructor", "toExponential", "toFixed", "toLocaleString", "toPrecision", "toString",
    "valueOf"]

/-- The property names of `Boolean.prototype`. -/
def booleanPrototypeNames : List String :=
  ["constructor", "toString", "valueOf"]

/-- The names that a property read finds on the prototype chain of a value: those
of the prototype of its kind, then those of `Object.prototype`. -/
def JSValue.inheritedNames : JSValue → List String
  | .object _ => objectPrototypeNames
  | .array _ => arrayPrototypeNames ++ objectPrototypeNames
  | .string _ => stringPrototypeNames ++ objectPrototypeNames
  | .number _ => numberPrototypeNames ++ objectPrototypeNames
  | .bool _ => booleanPrototypeNames ++ objectPrototypeNames
  | _ => []

/-- Whether the value has an own property of that name. -/
def JSValue.hasOwn (v : JSValue) (key : String) : Bool :=
  match v with
  | .object props => (findProp key props).isSome
  | .array items =>
    key = "length" ||
      match arrayIndex key with
      | some i => i < items.length
      | none => false
  | .string s =>
    key = "length" ||
      match arrayIndex key with
      | some i => i < (utf16Units s).length
      | none => false
  | _ => false

/-- The value of a member of the prototype chain: a built-in function, or the
prototype object for `__proto__`.  It is not null or undefined, is not an array
with elements and has no property `entry`; the tree of values shows it as an
object without own enumerable properties. -/
def builtinMember : JSValue :=
  .object []

/-- The bracket read `v[key]` on a value that is not null or undefined, for a key
that comes from the data of the call: an own property is read first, then the
prototype chain, where the key finds a built-in member or nothing. -/
def JSValue.read (v : JSValue) (key : String) : JSValue :=
  if v.hasOwn key then v.prop key
  else if key ∈ v.inheritedNames then builtinMember
  else .undefined

/-- The order of `Object.keys` on a property list: array indices in ascending
numeric order, then the other keys in creation order. -/
def ownKeys (props : List (String × JSValue)) : List String :=
  let keys := props.map Prod.fst
  (keys.filter fun k => (arrayIndex k).isSome).insertionSort
      (fun a b => decimalValue a.data ≤ decimalValue b.data)
    ++ keys.filter fun k => (arrayIndex k).isNone

/-- The call `Object.keys(v)` on a value that is not null or undefined. -/
def objectKeys : JSValue → List String
  | .object props => ownKeys props
  | .array items => (List.range items.length).map fun i => ⟨Nat.toDigits 10 i⟩
  | .string s => (List.range (utf16Units s).length).map fun i => ⟨Nat.toDigits 10 i⟩
  | _ => []

/-! ## Error messages -/

/-- The message of the error for an expected library without a value. -/
def missingLibraryMessage (name : String) : String :=
  "Rule expects library \"" ++ name ++ "\", but it is undefined"

/-- The message of the error for an expected parameter without a value. -/
def missingParameterMessage (name : String) : String :=
  "Rule expects parameter \"" ++ name ++ "\", but it is undefined"

/-- The message of the error for a `Recommendation` field that is neither a
string nor an array, `type` being the `typeof` of its value. -/
def unrecognizedTypeMessage (type : String) : String :=
  "Recommendation function returned unrecognized type. Expect Array of strings of single string, got "
    ++ type ++ " instead"

/-! ## Recommendation extractor -/

/-- The text of a key after its last `Recommendation`:
`recommendationKey.substring(recommendationKey.lastIndexOf('Recommendation') + 14)`. -/
def numberSubstring (recommendationKey : String) : String :=
  substring recommendationKey (lastIndexOf recommendationKey "Recommendation" + 14)

/-- The loop of `extractRecommendations` over the keys that start with
`Recommendation`: `recommendationKeyOrder[num] = recommendationKey` for every
key whose value is not null, `num` being `new Number(numberSubstring)`. -/
def recordKeyOrder (patientResults : JSValue) :
    List String → List (String × JSValue) → List (String × JSValue)
  | [], recommendationKeyOrder => recommendationKeyOrder
  | recommendationKey :: rest, recommendationKeyOrder =>
    let num := numberKey (numberSubstring recommendationKey)
    if !(patientResults.prop recommendationKey).isNullish then
      recordKeyOrder patientResults rest (setProp num (.string recommendationKey) recommendationKeyOrder)
    else
      recordKeyOrder patientResults rest recommendationKeyOrder

/-- The function `extractRecommendations(patientResults)`. -/
def extractRecommendations (patientResults : JSValue) : Except JSError JSValue :=
  match patientResults with
  | .null => .ok .null
  | .undefined => .error .typeError
  | _ =>
    let recommendation := patientResults.prop "Recommendation"
    if !recommendation.isNullish then
      match recommendation with
      | .array items =>
        .ok (.array (items.map fun r =>
          .object [("recommendation", r), ("priority", .number 1)]))
      | .string s =>
        .ok (.array [.object [("recommendation", .string s), ("priority", .number 1)]])
      | other =>
        .error (.error (unrecognizedTypeMessage other.typeOf))
    else
      let recommendationKeys :=
        (objectKeys patientResults).filter fun key => startsWith key "Recommendation"
      let recommendationKeyOrder := recordKeyOrder patientResults recommendationKeys []
      .ok (.array ((defaultSort (ownKeys recommendationKeyOrder)).map fun priority =>
        let key := (JSValue.object recommendationKeyOrder).prop priority
        .object [("recommendation", patientResults.prop key.toStr), ("priority", .string priority)]))

/-- The distinct priority keys of a raw result: the keys `new Number(suffix)`
of its fields that start with `Recommendation` and hold a value that is not
null, without repetition. -/
def priorityKeys (props : List (String × JSValue)) : List String :=
  (((props.map Prod.fst).filter fun key =>
      startsWith key "Recommendation" && !((JSValue.object props).prop key).isNullish).map
    fun key => numberKey (numberSubstring key)).dedup

/-! ## Rule input planner and bundles -/

/-- The strict comparison `v === text` with a string. -/
def JSValue.isString (v : JSValue) (text : String) : Bool :=
  match v with
  | .string s => s == text
  | _ => false

/-- One step of an optional chain `v?.key`: undefined when `v` is null or
undefined. -/
def JSValue.optProp (v : JSValue) (key : String) : JSValue :=
  if v.isNullish then .undefined else v.prop key

/-- The body of the `forEach` of `getListOfExpectedLibraries`:
`{name: l.localIdentifier, path: l.path}` for every include. -/
def expectedLibraryRecords : List JSValue → Except JSError (List JSValue)
  | [] => .ok []
  | l :: rest =>
    match l.get "localIdentifier" with
    | .error e => .error e
    | .ok localIdentifier =>
      match expectedLibraryRecords rest with
      | .error e => .error e
      | .ok records =>
        .ok (.object [("name", localIdentifier), ("path", l.prop "path")] :: records)

/-- The function `getListOfExpectedLibraries(rule)`. -/
def getListOfExpectedLibraries (rule : JSValue) : Except JSError JSValue :=
  match ((rule.optProp "library").optProp "includes").optProp "def" with
  | .array defs =>
    match expectedLibraryRecords defs with
    | .error e => .error e
    | .ok records => .ok (.array records)
  | _ => .ok .undefined

/-- The type string of one parameter declaration: `parameterTypeSpecifier.name`
when it is not null or undefined, else
`parameterTypeSpecifier.type + '<' + parameterTypeSpecifier.elementType.name + '>'`. -/
def expectedParameterType (p : JSValue) : Except JSError JSValue :=
  match p.get "parameterTypeSpecifier" with
  | .error e => .error e
  | .ok specifier =>
    match specifier.get "name" with
    | .error e => .error e
    | .ok name =>
      if !name.isNullish then .ok name
      else
        match (specifier.prop "elementType").get "name" with
        | .error e => .error e
        | .ok elementName =>
          .ok (.string ((specifier.prop "type").toStr ++ "<" ++ elementName.toStr ++ ">"))

/-- The body of the `forEach` of `getListOfExpectedParameters`:
`{name: p.name, type: type}` for every declaration. -/
def expectedParameterRecords : List JSValue → Except JSError (List JSValue)
  | [] => .ok []
  | p :: rest =>
    match expectedParameterType p with
    | .error e => .error e
    | .ok type =>
      match expectedParameterRecords rest with
      | .error e => .error e
      | .ok records => .ok (.object [("name", p.prop "name"), ("type", type)] :: records)

/-- The function `getListOfExpectedParameters(rule)`. -/
def getListOfExpectedParameters (rule : JSValue) : Except JSError JSValue :=
  match ((rule.optProp "library").optProp "parameters").optProp "def" with
  | .array defs =>
    match expectedParameterRecords defs with
    | .error e => .error e
    | .ok records => .ok (.array records)
  | _ => .ok .undefined

/-- The function `createBundle(resource, url = null)`; an undefined `url` takes
the default. -/
def createBundle (resource url : JSValue) : Except JSError JSValue :=
  match resource with
  | .undefined => .ok .undefined
  | .null => .error .typeError
  | _ =>
    if !(resource.prop "resourceType").isString "Bundle" then
      if url.isNullish then
        .ok (.object [("resourceType", .string "Bundle"),
          ("entry", .array [.object [("resource", resource)]])])
      else
        .ok (.object [("resourceType", .string "Bundle"),
          ("entry", .array [.object [("resource", resource), ("fullUrl", url)]])])
    else .ok resource

/-! ## Engine invoker -/

/-- The terminology service handed to `executeCql`. -/
structure CodeService where
  /-- Whether `ensureValueSetsInLibraryWithAPIKey(library, true, apiKey)` resolves
  (`true`) or rejects (`false`), for the rule, its library repository and the
  key. -/
  ensureValueSetsInLibraryWithAPIKey : JSValue → Option JSValue → JSValue → Bool

/-- The CQL engine and its FHIR adapter.  The constructors of the engine
library (`new cql.Library`, `new cql.Repository`, `new cql.Executor`, the
patient source and the FHIR wrapper) are taken to return; those that receive
data of the call are recorded in the trace. -/
structure Engine where
  /-- The adapter call `fhirWrapper.wrap(resource)`. -/
  wrap : JSValue → JSValue
  /-- The outcome of `executor.exec(psource)` for the rule, its library
  repository, the parameter object and the loaded patient bundle: the result,
  or the reason of a rejection. -/
  exec : JSValue → Option JSValue → JSValue → JSValue → Except String JSValue

/-- Calls to the external collaborators, as recorded in the trace. -/
inductive Call where
  | loadBundles (bundle : JSValue)
  | newLibrary (rule : JSValue) (repository : Option JSValue)
  | ensureValueSets (apiKey : JSValue)
  | newExecutor
  | wrap (resource : JSValue)
  | withParameters (paramObject : JSValue)
  | exec

/-- A run of `executeCql`: how the promise settles and the calls made. -/
structure Run where
  outcome : Except JSError JSValue
  calls : List Call

/-- The callback chain `patient.entry.filter(f => f.resource.resourceType ===
'Patient').map(p => p.resource.id)` on the elements of the entry array. -/
def patientEntryIds : List JSValue → Except JSError (List JSValue)
  | [] => .ok []
  | f :: rest =>
    match f.get "resource" with
    | .error e => .error e
    | .ok resource =>
      match resource.get "resourceType" with
      | .error e => .error e
      | .ok resourceType =>
        match patientEntryIds rest with
        | .error e => .error e
        | .ok ids => .ok (if resourceType.isString "Patient" then resource.prop "id" :: ids else ids)

/-- The patient identifiers of a patient that is not null or undefined: those of
the Patient entries of a Bundle, or the id of the single resource. -/
def patientIdsOf (patient : JSValue) : Except JSError (List JSValue) :=
  if (patient.prop "resourceType").isString "Bundle" then
    match patient.prop "entry" with
    | .array entries => patientEntryIds entries
    | _ => .error .typeError
  else .ok [patient.prop "id"]

/-- The loop over the expected libraries: the read `libraries[name]` of each
must find a value, own or inherited, which is stored in `libraryObject`. -/
def collectLibraries (libraries : JSValue) :
    List JSValue → List (String × JSValue) → Except JSError (List (String × JSValue))
  | [], libraryObject => .ok libraryObject
  | expectedLibrary :: rest, libraryObject =>
    let name := (expectedLibrary.prop "name").toStr
    let lib := libraries.read name
    if lib.isNullish then
      .error (.error (missingLibraryMessage name))
    else collectLibraries libraries rest (setProp name lib libraryObject)

/-- The check of the expected libraries: when the rule expects any,
`libraries` must not be null and must hold a value for each; the result is
`libraryObject`. -/
def checkLibraries (expectedLibraries libraries : JSValue) :
    Except JSError (List (String × JSValue)) :=
  match expectedLibraries with
  | .array (first :: rest) =>
    if libraries.isNullish then
      .error (.error "Rule expects libraries, but they are undefined")
    else collectLibraries libraries (first :: rest) []
  | _ => .ok []

/-- The elements a `for ... of` loop visits: those of an array, the characters
of a string; other values are not iterable. -/
def iterate : JSValue → Except JSError (List JSValue)
  | .array items => .ok items
  | .string s => .ok (s.data.map fun c => .string ⟨[c]⟩)
  | _ => .error .typeError

/-- The loop `for (const entry of res.entry)`: wraps `entry.resource` of every
entry; the wrap calls made and the wrapped resources. -/
def wrapEntries (wrap : JSValue → JSValue) :
    List JSValue → List Call × Except JSError (List JSValue)
  | [] => ([], .ok [])
  | entry :: rest =>
    match entry.get "resource" with
    | .error e => ([], .error e)
    | .ok resource =>
      match wrapEntries wrap rest with
      | (calls, .error e) => (Call.wrap resource :: calls, .error e)
      | (calls, .ok wrapped) => (Call.wrap resource :: calls, .ok (wrap resource :: wrapped))

/-- The value stored in `paramObject` for one expected parameter whose supplied
value `res` is not null: a list of wrapped resources for a list type, the
wrapped value otherwise. -/
def wrapParameter (wrap : JSValue → JSValue) (type res : JSValue) :
    List Call × Except JSError JSValue :=
  match type with
  | .string t =>
    if startsWith t "ListTypeSpecifier" then
      if !(res.prop "entry").isNullish then
        match iterate (res.prop "entry") with
        | .error e => ([], .error e)
        | .ok entries =>
          match wrapEntries wrap entries with
          | (calls, .error e) => (calls, .error e)
          | (calls, .ok wrapped) => (calls, .ok (.array wrapped))
      else
        match res with
        | .array items => (items.map Call.wrap, .ok (.array (items.map wrap)))
        | _ => ([], .ok (.array []))
    else ([Call.wrap res], .ok (wrap res))
  | _ => ([], .error .typeError)

/-- The loop over the expected parameters: the read `parameters[name]` of each
must find a value, own or inherited, which is wrapped and stored in
`paramObject`. -/
def collectParameters (wrap : JSValue → JSValue) (parameters : JSValue) :
    List JSValue → List (String × JSValue) → List Call × Except JSError (List (String × JSValue))
  | [], paramObject => ([], .ok paramObject)
  | expectedParameter :: rest, paramObject =>
    let name := (expectedParameter.prop "name").toStr
    let res := parameters.read name
    if res.isNullish then
      ([], .error (.error (missingParameterMessage name)))
    else
      match wrapParameter wrap (expectedParameter.prop "type") res with
      | (calls, .error e) => (calls, .error e)
      | (calls, .ok value) =>
        match collectParameters wrap parameters rest (setProp name value paramObject) with
        | (more, r) => (calls ++ more, r)

/-- The check of the expected parameters: when the rule expects any,
`parameters` must not be null and must hold a value for each; the result is
`paramObject`, with the wrap calls made. -/
def checkParameters (wrap : JSValue → JSValue) (expectedParameters parameters : JSValue) :
    List Call × Except JSError (List (String × JSValue)) :=
  match expectedParameters with
  | .array (first :: rest) =>
    if parameters.isNullish then
      ([], .error (.error "Rule expects parameters, but they are undefined"))
    else collectParameters wrap parameters (first :: rest) []
  | _ => ([], .ok [])

/-- The reads `rule.library.identifier.id` and `rule.library.identifier.version`
on a rule that is not null. -/
def ruleIdentity (rule : JSValue) : Except JSError (JSValue × JSValue) :=
  match (rule.prop "library").get "identifier" with
  | .error e => .error e
  | .ok identifier =>
    match identifier.get "id" with
    | .error e => .error e
    | .ok id => .ok (id, identifier.prop "version")

/-- The assignment `target[key] = value` as far as a tree of values can hold
it: a TypeError on null and undefined, a property set on an object, an element
replaced in an array; on a primitive (sloppy mode) and for a named property of
an array the target stays as it is. -/
def assign (target : JSValue) (key : String) (value : JSValue) : Except JSError JSValue :=
  match target with
  | .undefined => .error .typeError
  | .null => .error .typeError
  | .object props => .ok (.object (setProp key value props))
  | .array items =>
    match arrayIndex key with
    | some i => .ok (if i < items.length then .array (items.set i value) else target)
    | none => .ok target
  | _ => .ok target

/-- The loop `patientIds.forEach(patientId => patientResults[patientId]
.Recommendations = extractRecommendations(patientResults[patientId]))`. -/
def attachRecommendations : List JSValue → JSValue → Except JSError JSValue
  | [], patientResults => .ok patientResults
  | patientId :: rest, patientResults =>
    let raw := patientResults.prop patientId.toStr
    match extractRecommendations raw with
    | .error e => .error e
    | .ok recommendations =>
      match assign raw "Recommendations" recommendations with
      | .error e => .error e
      | .ok updated =>
        match assign patientResults patientId.toStr updated with
        | .error e => .error e
        | .ok patientResults2 => attachRecommendations rest patientResults2

/-- The end of `executeCql`, from the engine result on: the rule identity is
attached as `library` and the recommendations of every patient are extracted. -/
def finishResults (rule : JSValue) (patientIds : List JSValue) (result : JSValue) :
    Except JSError JSValue :=
  match result.get "patientResults" with
  | .error e => .error e
  | .ok patientResults =>
    match ruleIdentity rule with
    | .error e => .error e
    | .ok (id, version) =>
      match assign patientResults "library" (.object [("name", id), ("version", version)]) with
      | .error e => .error e
      | .ok patientResults2 => attachRecommendations patientIds patientResults2

/-- The part of `executeCql` after the value sets were ensured: the executor is
created, the expected parameters are checked and wrapped, and the rule is run. -/
def runWithParameters (engine : Engine) (rule parameters : JSValue)
    (repository : Option JSValue) (patientBundle : JSValue) (patientIds : List JSValue)
    (calls : List Call) : Run :=
  let calls := calls ++ [Call.newExecutor]
  match getListOfExpectedParameters rule with
  | .error e => ⟨.error e, calls⟩
  | .ok expectedParameters =>
    match checkParameters engine.wrap expectedParameters parameters with
    | (wraps, .error e) => ⟨.error e, calls ++ wraps⟩
    | (wraps, .ok paramObject) =>
      let calls := calls ++ wraps ++ [Call.withParameters (.object paramObject), Call.exec]
      match engine.exec rule repository (.object paramObject) patientBundle with
      | .error reason => ⟨.error (.external reason), calls⟩
      | .ok result => ⟨finishResults rule patientIds result, calls⟩

/-- The function `executeCql(patient, rule, libraries, parameters, codeService,
vsacApiKey)`; `codeService` is `none` when the argument is null or undefined. -/
def executeCql (engine : Engine) (patient rule libraries parameters : JSValue)
    (codeService : Option CodeService) (vsacApiKey : JSValue) : Run :=
  if patient.isNullish then ⟨.error (.error "Patient is undefined"), []⟩
  else if rule.isNullish then ⟨.error (.error "Rule is undefined"), []⟩
  else
    match patientIdsOf patient with
    | .error e => ⟨.error e, []⟩
    | .ok patientIds =>
      match createBundle patient .undefined with
      | .error e => ⟨.error e, []⟩
      | .ok patientBundle =>
        let calls := [Call.loadBundles patientBundle]
        match getListOfExpectedLibraries rule with
        | .error e => ⟨.error e, calls⟩
        | .ok expectedLibraries =>
          match checkLibraries expectedLibraries libraries with
          | .error e => ⟨.error e, calls⟩
          | .ok libraryObject =>
            let repository : Option JSValue :=
              match (JSValue.object libraryObject).prop "length" with
              | .number 0 => none
              | _ => some (.object libraryObject)
            let calls := calls ++ [Call.newLibrary rule repository]
            let resolved : Bool × List Call :=
              match codeService with
              | none => (false, calls)
              | some service =>
                (service.ensureValueSetsInLibraryWithAPIKey rule repository vsacApiKey,
                  calls ++ [Call.ensureValueSets vsacApiKey])
            if resolved.1 then
              runWithParameters engine rule parameters repository patientBundle patientIds resolved.2
            else
              match ruleIdentity rule with
              | .error e => ⟨.error e, resolved.2⟩
              | .ok _ => ⟨.ok .null, resolved.2⟩

/-! ## Resource types and reference mappings -/

/-- The constant `FhirTypes.PATIENT`. -/
def FhirTypes.PATIENT : String := "\x7bhttp://hl7.org/fhir\x7dPatient"

/-- The constant `FhirTypes.IMMUNIZATION`. -/
def FhirTypes.IMMUNIZATION : String := "\x7bhttp://hl7.org/fhir\x7dImmunization"

/-- The constant `FhirTypes.MEDICATION_REQUEST`. -/
def FhirTypes.MEDICATION_REQUEST : String := "\x7bhttp://hl7.org/fhir\x7dMedicationRequest"

/-- The constant `FhirTypes.MEDICATION_STATEMENT`. -/
def FhirTypes.MEDICATION_STATEMENT : String := "\x7bhttp://hl7.org/fhir\x7dMedicationStatement"

/-- The constant `FhirTypes.MEDICATION`. -/
def FhirTypes.MEDICATION : String := "\x7bhttp://hl7.org/fhir\x7dMedication"

/-- The constant `FhirTypes.OBSERVATION`. -/
def FhirTypes.OBSERVATION : String := "\x7bhttp://hl7.org/fhir\x7dObservation"

/-- The constant `FhirTypes.CONDITION`. -/
def FhirTypes.CONDITION : String := "\x7bhttp://hl7.org/fhir\x7dCondition"

/-- The constant `FhirTypes.CODEABLE_CONCEPT`. -/
def FhirTypes.CODEABLE_CONCEPT : String := "\x7bhttp://hl7.org/fhir\x7dCodeableConcept"

/-- The function `ContainerTypes.LIST(t)`. -/
def ContainerTypes.LIST (t : JSValue) : String :=
  if t.isNullish then "ListTypeSpecifier" else "ListTypeSpecifier<" ++ t.toStr ++ ">"

/-- Scan for `indexOf`: `i` is the position of the first character of the
remaining text. -/
def indexOfFrom (pattern : List Char) : List Char → Nat → Int
  | [], i => if pattern.isEmpty then (i : Int) else -1
  | c :: cs, i => if pattern.isPrefixOf (c :: cs) then (i : Int) else indexOfFrom pattern cs (i + 1)

/-- The method `s.indexOf(pattern)`: the least position at which `pattern`
occurs in `s`, or -1. -/
def indexOf (s pattern : String) : Int :=
  indexOfFrom pattern.data s.data 0

/-- The function `isFhirList(typeSpecifier)`: `indexOf` is the string method on
a string and the element search on an array; other values have no such method. -/
def isFhirList (typeSpecifier : JSValue) : Except JSError Bool :=
  match typeSpecifier with
  | .string s => .ok (indexOf s "ListTypeSpecifier" != -1)
  | .array items => .ok (items.any fun item => item.isString "ListTypeSpecifier")
  | _ => .error .typeError

/-- One entry of `ReferenceMappings`: the mapping of `medicationReference`. -/
def medicationReferenceMapping : JSValue :=
  .object [("medicationReference", .object [
    ("field", .string "medicationCodeableConcept"),
    ("type", .string FhirTypes.MEDICATION),
    ("value", .string "code"),
    ("deleteOriginalReference", .bool true)])]

/-- The object `ReferenceMappings`: one entry for MedicationRequest and one for
the list of MedicationRequest. -/
def ReferenceMappings : JSValue :=
  .object [(FhirTypes.MEDICATION_REQUEST, medicationReferenceMapping),
    (ContainerTypes.LIST (.string FhirTypes.MEDICATION_REQUEST), medicationReferenceMapping)]

/-! ## The pattern of `isURL`

The regular expression of `isURL` uses literal text, character classes, the
quantifiers `?`, `*` and `+` (the last two on character classes only), sequence
and alternation.  It has no anchors, back references or look-around, so that
`test` succeeds exactly when some part of the text is in the language of the
pattern; the matcher computes every way a match may end. -/

/-- Regular expressions of the shape used by `isURL`. -/
inductive Regex where
  | text (s : String)
  | cls (p : Char → Bool)
  | star (p : Char → Bool)
  | plus (p : Char → Bool)
  | opt (r : Regex)
  | seq (r s : Regex)
  | alt (r s : Regex)

/-- The texts that remain after dropping any number of leading characters of a
class. -/
def suffixesWhile (p : Char → Bool) : List Char → List (List Char)
  | [] => [[]]
  | c :: rest => (c :: rest) :: (if p c then suffixesWhile p rest else [])

/-- The texts that may remain after a match of the expression at the start of
the input. -/
def Regex.ends : Regex → List Char → List (List Char)
  | .text s, input => if s.data.isPrefixOf input then [input.drop s.data.length] else []
  | .cls p, input =>
    match input with
    | c :: rest => if p c then [rest] else []
    | [] => []
  | .star p, input => suffixesWhile p input
  | .plus p, input =>
    match input with
    | c :: rest => if p c then suffixesWhile p rest else []
    | [] => []
  | .opt r, input => r.ends input ++ [input]
  | .seq r s, input => (r.ends input).flatMap s.ends
  | .alt r s, input => r.ends input ++ s.ends input

/-- The class `\w`: ASCII letters, digits and the underscore. -/
def isWordChar (c : Char) : Bool :=
  (65 ≤ c.toNat && c.toNat ≤ 90) || (97 ≤ c.toNat && c.toNat ≤ 122) || isDecimalDigit c
    || c.toNat == 95

/-- The class `\S`: every character that is neither white space nor a line
terminator. -/
def isNonSpaceChar (c : Char) : Bool :=
  !isStrWhiteSpaceChar c

/-- The class `[\w#!:.?+=&%!\-\/]`. -/
def isPathChar (c : Char) : Bool :=
  isWordChar c || "#!:.?+=&%-/".data.contains c

/-- The pattern
`(?:https?):\/\/(\w+:?\w*)?(\S+)(:\d+)?(\/|\/([\w#!:.?+=&%!\-\/]))?`. -/
def urlPattern : Regex :=
  .seq (.text "http") (.seq (.opt (.text "s")) (.seq (.text "://")
    (.seq (.opt (.seq (.plus isWordChar) (.seq (.opt (.text ":")) (.star isWordChar))))
      (.seq (.plus isNonSpaceChar)
        (.seq (.opt (.seq (.text ":") (.plus isDecimalDigit)))
          (.opt (.alt (.text "/") (.seq (.text "/") (.cls isPathChar)))))))))

/-- The function `isURL(str)`: `pattern.test(str)` converts its argument to a
string and looks for a match starting at any position. -/
def isURL (str : JSValue) : Bool :=
  str.toStr.data.tails.any fun rest => !(urlPattern.ends rest).isEmpty

/-- The part of `urlPattern` after `://`. -/
def urlRest : Regex :=
  .seq (.opt (.seq (.plus isWordChar) (.seq (.opt (.text ":")) (.star isWordChar))))
    (.seq (.plus isNonSpaceChar)
      (.seq (.opt (.seq (.text ":") (.plus isDecimalDigit)))
        (.opt (.alt (.text "/") (.seq (.text "/") (.cls isPathChar))))))

/-! ## String replacement -/

/-- The text of a replacement string after the substitution of its `$` patterns
(`GetSubstitution` for a string pattern, which has no captures): `$$` stands for
a dollar sign, `$&` for the matched text, a dollar sign with a grave accent for
the text before the match and one with an apostrophe for the text after it. -/
def getSubstitution (matched before after : List Char) : List Char → List Char
  | [] => []
  | c :: rest =>
    if c = '$' then
      match rest with
      | [] => [c]
      | d :: rest2 =>
        if d = '$' then '$' :: getSubstitution matched before after rest2
        else if d = '&' then matched ++ getSubstitution matched before after rest2
        else if d = Char.ofNat 96 then before ++ getSubstitution matched before after rest2
        else if d = Char.ofNat 39 then after ++ getSubstitution matched before after rest2
        else c :: d :: getSubstitution matched before after rest2
    else c :: getSubstitution matched before after rest

/-- The first occurrence of a pattern in a text: the text before it and the text
after it. -/
def splitAtFirst (pattern : List Char) : List Char → Option (List Char × List Char)
  | [] => if pattern.isEmpty then some ([], []) else none
  | c :: cs =>
    if pattern.isPrefixOf (c :: cs) then some ([], (c :: cs).drop pattern.length)
    else
      match splitAtFirst pattern cs with
      | some (before, after) => some (c :: before, after)
      | none => none

/-- The method `s.replace(pattern, replacement)` with a string pattern: the
first occurrence is replaced. -/
def replaceFirst (s pattern replacement : String) : String :=
  match splitAtFirst pattern.data s.data with
  | some (before, after) =>
    ⟨before ++ getSubstitution pattern.data before after replacement.data ++ after⟩
  | none => s

/-! ## Resource fetcher

A shallow embedding of `getFhirResource` of `src/index.js`.  The host
configuration (`global.cdss.endpoints`) and the transport (`fetch`) are
parameters; the transport answers a request by its address and options.  The
calls made are recorded in a trace.  The function calls itself for every opaque
reference, so it is defined with a bound on the depth of these calls. -/

/-- The value of `typeof address`: a string (an address template), a function,
or anything else. -/
inductive Address where
  | template (url : String)
  | callable (call : JSValue → Except JSError JSValue)
  | other

/-- The second argument of `fetch`: the configuration object of an endpoint, or
the literal `{method: 'GET'}`. -/
inductive RequestInit where
  | endpoint (name : String)
  | get

/-- A transport response: its status and the outcome of `response.json()`. -/
structure Response where
  status : Int
  json : Except JSError JSValue

/-- The host: the address of every endpoint of `global.cdss.endpoints`, and the
function `fetch`. -/
structure Host where
  address : String → Address
  fetch : String → RequestInit → Except JSError Response

/-- Calls recorded in the trace of `getFhirResource`. -/
inductive FetchCall where
  /-- The call `fetch(url, endpoints[endpoint])`. -/
  | request (url : String) (endpoint : String)
  /-- The call `global.cdss.endpoints[endpoint].address(resourceId)`. -/
  | invoke (endpoint : String) (resourceId : JSValue)
  /-- The call `response.json()`. -/
  | json
  /-- The call `getFhirResource(id, type)` made for an opaque reference. -/
  | resolve (id : JSValue) (type : JSValue)
  /-- The call `fetch(url, {method: 'GET'})` made for a reference that is a URL. -/
  | get (url : String)

/-- A run of `getFhirResource`: how the promise settles and the calls made. -/
structure FetchRun where
  outcome : Except JSError JSValue
  calls : List FetchCall

/-- The cases of the `switch`: resource type, endpoint and placeholder of the
address template. -/
def routes : List (String × String × String) :=
  [(ContainerTypes.LIST (.string FhirTypes.IMMUNIZATION), "immunizationByPatientId",
      "\x7b\x7bpatientId\x7d\x7d"),
    (ContainerTypes.LIST (.string FhirTypes.OBSERVATION), "observationByPatientId",
      "\x7b\x7bpatientId\x7d\x7d"),
    (ContainerTypes.LIST (.string FhirTypes.MEDICATION_REQUEST), "medicationRequestByPatientId",
      "\x7b\x7bpatientId\x7d\x7d"),
    (ContainerTypes.LIST (.string FhirTypes.MEDICATION_STATEMENT),
      "medicationStatementByPatientId", "\x7b\x7bpatientId\x7d\x7d"),
    (ContainerTypes.LIST (.string FhirTypes.CONDITION), "conditionByPatientId",
      "\x7b\x7bpatientId\x7d\x7d"),
    (FhirTypes.MEDICATION, "medicationById", "\x7b\x7bmedicationId\x7d\x7d")]

/-- The case of the `switch` that a resource type selects (by strict equality),
if any. -/
def route (resourceType : JSValue) : Option (String × String) :=
  match resourceType with
  | .string t => (routes.find? fun r => r.1 == t).map fun r => r.2
  | _ => none

/-- The message of the error for a resource type without response. -/
def unroutableMessage (resourceType : JSValue) : String :=
  "Could not find proper endpoint type for " ++ resourceType.toStr

/-- The message of the error for a response whose status is not 200. -/
def statusMessage (resourceType : JSValue) (status : Int) : String :=
  resourceType.toStr ++ " responded with HTTP " ++ (JSValue.number status).toStr

/-- The `switch` of `getFhirResource`: the values of `response` and `res` after
it (`none` is the initial null of `response`). -/
def requestResource (host : Host) (resourceId resourceType : JSValue) :
    List FetchCall × Except JSError (Option Response × JSValue) :=
  match route resourceType with
  | none => ([], .ok (none, .null))
  | some (endpoint, placeholder) =>
    match host.address endpoint with
    | .template url =>
      let target := replaceFirst url placeholder resourceId.toStr
      match host.fetch target (.endpoint endpoint) with
      | .error e => ([.request target endpoint], .error e)
      | .ok response => ([.request target endpoint], .ok (some response, .null))
    | .callable call =>
      match call resourceId with
      | .error e => ([.invoke endpoint resourceId], .error e)
      | .ok res => ([.invoke endpoint resourceId], .ok (none, res))
    | .other => ([], .ok (none, .null))

/-- The part of `getFhirResource` before reference resolution: the `switch` and
the checks of the response; the result is the value of `res`. -/
def fetchResource (host : Host) (resourceId resourceType : JSValue) :
    List FetchCall × Except JSError JSValue :=
  match requestResource host resourceId resourceType with
  | (calls, .error e) => (calls, .error e)
  | (calls, .ok (response, res)) =>
    if res.isNullish then
      match response with
      | none => (calls, .error (.error (unroutableMessage resourceType)))
      | some response =>
        if response.status ≠ 200 then
          (calls, .error (.error (statusMessage resourceType response.status)))
        else
          match response.json with
          | .error e => (calls ++ [.json], .error e)
          | .ok body => (calls ++ [.json], .ok body)
    else (calls, .ok res)

/-- The conversion `ToBoolean`. -/
def JSValue.truthy : JSValue → Bool
  | .undefined => false
  | .null => false
  | .bool b => b
  | .number n => n != 0
  | .string s => s != ""
  | _ => true

/-- The assignment `target[key] = value` in strict mode, as far as a tree of
values can hold it: as `assign`, but a TypeError on a primitive. -/
def assignStrict (target : JSValue) (key : String) (value : JSValue) :
    Except JSError JSValue :=
  match target with
  | .bool _ => .error .typeError
  | .number _ => .error .typeError
  | .string _ => .error .typeError
  | _ => assign target key value

/-- The statement `delete target[key]` in strict mode on an object or an array:
the property is removed from an object, an element of an array becomes a hole
(which reads as undefined), and `length` cannot be deleted. -/
def deleteProperty (target : JSValue) (key : String) : Except JSError JSValue :=
  match target with
  | .undefined => .error .typeError
  | .null => .error .typeError
  | .object props => .ok (.object (props.filter fun p => p.1 != key))
  | .array items =>
    if key = "length" then .error .typeError
    else
      match arrayIndex key with
      | some i => .ok (if i < items.length then .array (items.set i .undefined) else target)
      | none => .ok target
  | _ => .ok target

/-- The body of the loop over the reference keys, for the resource of one entry:
the resource after the step, with the calls made.  `recur` is the recursive
call of `getFhirResource`, which yields `none` when the depth bound is used up. -/
def resolveReference (recur : JSValue → JSValue → Option FetchRun) (host : Host)
    (resource : JSValue) (reference : String) (fieldMapping : JSValue) :
    Option (List FetchCall × Except JSError JSValue) :=
  match resource.get reference with
  | .error e => some ([], .error e)
  | .ok source =>
    if source.isNullish then some ([], .ok resource)
    else
      match fieldMapping.get "field" with
      | .error e => some ([], .error e)
      | .ok field =>
        if !(resource.prop field.toStr).isNullish then some ([], .ok resource)
        else
          let urlOrId := source.prop "reference"
          if !isURL urlOrId then
            match urlOrId with
            | .string address =>
              let id := JSValue.string (substring address (lastIndexOf address "/"))
              let type := fieldMapping.prop "type"
              match recur id type with
              | none => none
              | some ⟨.error e, calls⟩ => some (.resolve id type :: calls, .error e)
              | some ⟨.ok newResource, calls⟩ =>
                match newResource.get (fieldMapping.prop "value").toStr with
                | .error e => some (.resolve id type :: calls, .error e)
                | .ok value =>
                  match assignStrict resource field.toStr value with
                  | .error e => some (.resolve id type :: calls, .error e)
                  | .ok resource2 =>
                    if (fieldMapping.prop "deleteOriginalReference").truthy then
                      match deleteProperty resource2 reference with
                      | .error e => some (.resolve id type :: calls, .error e)
                      | .ok resource3 => some (.resolve id type :: calls, .ok resource3)
                    else some (.resolve id type :: calls, .ok resource2)
            | _ => some ([], .error .typeError)
          else
            let url := urlOrId.toStr
            match host.fetch url .get with
            | .error _ => some ([.get url], .ok resource)
            | .ok response =>
              match response.json with
              | .error _ => some ([.get url, .json], .ok resource)
              | .ok newResource =>
                match assignStrict resource field.toStr newResource with
                | .error _ => some ([.get url, .json], .ok resource)
                | .ok resource2 => some ([.get url, .json], .ok resource2)

/-- The loop `for (const reference of Object.keys(ReferenceMappings[resourceType]))`
on the resource of one entry. -/
def resolveKeys (recur : JSValue → JSValue → Option FetchRun) (host : Host)
    (mapping : JSValue) : List String → JSValue →
    Option (List FetchCall × Except JSError JSValue)
  | [], resource => some ([], .ok resource)
  | reference :: rest, resource =>
    match resolveReference recur host resource reference (mapping.prop reference) with
    | none => none
    | some (calls, .error e) => some (calls, .error e)
    | some (calls, .ok resource2) =>
      match resolveKeys recur host mapping rest resource2 with
      | none => none
      | some (more, r) => some (calls ++ more, r)

/-- The entry after its resource was changed in place. -/
def storeResource (entry resource : JSValue) : JSValue :=
  match entry with
  | .object props =>
    if (findProp "resource" props).isSome then .object (setProp "resource" resource props)
    else entry
  | _ => entry

/-- The loop `for (const entry of res.entry)`: the entries after the pass, with
the calls made. -/
def resolveEntries (recur : JSValue → JSValue → Option FetchRun) (host : Host)
    (mapping : JSValue) : List JSValue → Option (List FetchCall × Except JSError (List JSValue))
  | [] => some ([], .ok [])
  | entry :: rest =>
    match entry.get "resource" with
    | .error e => some ([], .error e)
    | .ok resource =>
      match resolveKeys recur host mapping (objectKeys mapping) resource with
      | none => none
      | some (calls, .error e) => some (calls, .error e)
      | some (calls, .ok resource2) =>
        match resolveEntries recur host mapping rest with
        | none => none
        | some (more, .error e) => some (calls ++ more, .error e)
        | some (more, .ok rest2) => some (calls ++ more, .ok (storeResource entry resource2 :: rest2))

/-- The bundle after the resources of its entries were changed in place. -/
def storeEntries (res : JSValue) (entries : List JSValue) : JSValue :=
  match res with
  | .object props =>
    match findProp "entry" props with
    | some (.array _) => .object (setProp "entry" (.array entries) props)
    | _ => res
  | _ => res

/-- The function `getFhirResource(resourceId, resourceType)`, with a bound on
the depth of its recursive calls: `none` when the bound is used up. -/
def getFhirResource (host : Host) : Nat → JSValue → JSValue → Option FetchRun
  | 0, _, _ => none
  | depth + 1, resourceId, resourceType =>
    match fetchResource host resourceId resourceType with
    | (calls, .error e) => some ⟨.error e, calls⟩
    | (calls, .ok res) =>
      match isFhirList resourceType with
      | .error e => some ⟨.error e, calls⟩
      | .ok false => some ⟨.ok res, calls⟩
      | .ok true =>
        let mapping := ReferenceMappings.prop resourceType.toStr
        if res.truthy && (res.prop "entry").truthy && mapping.truthy then
          match iterate (res.prop "entry") with
          | .error e => some ⟨.error e, calls⟩
          | .ok entries =>
            match resolveEntries (getFhirResource host depth) host mapping entries with
            | none => none
            | some (more, .error e) => some ⟨.error e, calls ++ more⟩
            | some (more, .ok entries2) => some ⟨.ok (storeEntries res entries2), calls ++ more⟩
        else some ⟨.ok res, calls⟩

/-- Whether a call is a recursive call of `getFhirResource`. -/
def FetchCall.isResolve : FetchCall → Bool
  | .resolve _ _ => true
  | _ => false

/-- The entries that the loop `for (const entry of res.entry)` visits. -/
def visitedEntries (res : JSValue) : List JSValue :=
  match iterate (res.prop "entry") with
  | .ok entries => entries
  | .error _ => []

/-- The number of entries of the bundle that the fetch for a resource type yields:
those that the loop of the reference resolution visits. -/
def entryCount (host : Host) (resourceId resourceType : JSValue) : Nat :=
  match (fetchResource host resourceId resourceType).2 with
  | .ok res => (visitedEntries res).length
  | .error _ => 0

/-- The number of reference keys that `ReferenceMappings` holds for a resource
type. -/
def referenceKeyCount (resourceType : JSValue) : Nat :=
  (objectKeys (ReferenceMappings.prop resourceType.toStr)).length

/-! ## Timestamps -/

/-- A Date object as `new Date()` creates it: its time value (milliseconds since
the epoch, UTC) and the offset of local time from UTC at that time, in
milliseconds.  It has no own properties. -/
structure JSDate where
  time : Int
  localOffset : Int

/-- The property names of `Date.prototype` (with the additions of Annex B) and of
`Object.prototype`: the names a property read on a Date object can find. -/
def datePrototypeNames : List String :=
  ["constructor", "getDate", "getDay", "getFullYear", "getHours", "getMilliseconds",
    "getMinutes", "getMonth", "getSeconds", "getTime", "getTimezoneOffset", "getUTCDate",
    "getUTCDay", "getUTCFullYear", "getUTCHours", "getUTCMilliseconds", "getUTCMinutes",
    "getUTCMonth", "getUTCSeconds", "setDate", "setFullYear", "setHours", "setMilliseconds",
    "setMinutes", "setMonth", "setSeconds", "setTime", "setUTCDate", "setUTCFullYear",
    "setUTCHours", "setUTCMilliseconds", "setUTCMinutes", "setUTCMonth", "setUTCSeconds",
    "toDateString", "toISOString", "toJSON", "toLocaleDateString", "toLocaleString",
    "toLocaleTimeString", "toString", "toTimeString", "toUTCString", "valueOf", "getYear",
    "setYear", "toGMTString", "hasOwnProperty", "isPrototypeOf", "propertyIsEnumerable",
    "__proto__", "__defineGetter__", "__defineSetter__", "__lookupGetter__",
    "__lookupSetter__"]

/-- The property read `date[key]` on a Date object: undefined unless the
prototype chain has the name; `none` stands for a member of the prototype
chain, which is not a JSON-like value. -/
def JSDate.prop (_date : JSDate) (key : String) : Option JSValue :=
  if key ∈ datePrototypeNames then none else some .undefined

/-- The method `date.getHours()`: the hour of the local time (`/` rounds down and
`%` is not negative for a positive divisor). -/
def JSDate.getHours (date : JSDate) : Int :=
  (date.time + date.localOffset) / 3600000 % 24

/-- The method `date.getMinutes()`. -/
def JSDate.getMinutes (date : JSDate) : Int :=
  (date.time + date.localOffset) / 60000 % 60

/-- The method `date.getSeconds()`. -/
def JSDate.getSeconds (date : JSDate) : Int :=
  (date.time + date.localOffset) / 1000 % 60

/-- The function `getCurrentTimestamp()`, `date` being the value of `new Date()`. -/
def getCurrentTimestamp (date : JSDate) : Option JSValue :=
  match date.prop "year", date.prop "month", date.prop "day" with
  | some year, some month, some day =>
    some (.array [year, month, day, .number date.getHours, .number date.getMinutes,
      .number date.getSeconds])
  | _, _, _ => none

/-! ## Sample values -/

/-- A rule like the test rule `r1`: it includes the library `FHIRHelpers` and
declares the list parameter `Imm`. -/
def sampleRule : JSValue :=
  .object [("library", .object [
    ("identifier", .object [("id", .string "R1"), ("version", .string "1")]),
    ("includes", .object [("def", .array [
      .object [("localIdentifier", .string "FHIRHelpers"), ("path", .string "FHIRHelpers")]])]),
    ("parameters", .object [("def", .array [
      .object [("name", .string "Imm"), ("parameterTypeSpecifier", .object [
        ("type", .string "ListTypeSpecifier"),
        ("elementType", .object [("name", .string "\x7bhttp://hl7.org/fhir\x7dImmunization")])])]])])])]

/-- A rule that includes no library and declares no parameter. -/
def plainRule : JSValue :=
  .object [("library", .object [
    ("identifier", .object [("id", .string "R0"), ("version", .string "1")])])]

/-- A rule whose one include and one list parameter are both named `toString`,
a name that every object inherits from `Object.prototype`. -/
def inheritedNameRule : JSValue :=
  .object [("library", .object [
    ("identifier", .object [("id", .string "R2"), ("version", .string "1")]),
    ("includes", .object [("def", .array [
      .object [("localIdentifier", .string "toString"), ("path", .string "toString")]])]),
    ("parameters", .object [("def", .array [
      .object [("name", .string "toString"), ("parameterTypeSpecifier", .object [
        ("type", .string "ListTypeSpecifier"),
        ("elementType", .object [("name", .string "\x7bhttp://hl7.org/fhir\x7dImmunization")])])]])])])]

/-- A single Patient resource with id `p1`. -/
def samplePatient : JSValue :=
  .object [("resourceType", .string "Patient"), ("id", .string "p1")]

/-- An engine whose adapter returns the resource as it is and whose run yields
an empty raw result for patient `p1`. -/
def sampleEngine : Engine where
  wrap := fun resource => resource
  exec := fun _ _ _ _ => .ok (.object [("patientResults", .object [("p1", .object [])])])

/-- A terminology service whose call always resolves (`true`) or always
rejects (`false`). -/
def sampleCodeService (resolves : Bool) : CodeService where
  ensureValueSetsInLibraryWithAPIKey := fun _ _ _ => resolves

/-- The rule of the planner test for parameters: the scalar parameter `par1` of
type `Number` and the parameter `par2` with type `Array` and element type
`String`. -/
def parameterRule : JSValue :=
  .object [("library", .object [("parameters", .object [("def", .array [
    .object [("name", .string "par1"),
      ("parameterTypeSpecifier", .object [("name", .string "Number")])],
    .object [("name", .string "par2"),
      ("parameterTypeSpecifier", .object [("type", .string "Array"),
        ("elementType", .object [("name", .string "String")])])]])])])]

/-- The rule of the planner test for libraries: the includes `lib1` and `lib2`. -/
def includeRule : JSValue :=
  .object [("library", .object [("includes", .object [("def", .array [
    .object [("localIdentifier", .string "lib1"), ("path", .string "/path/to/lib1")],
    .object [("localIdentifier", .string "lib2"), ("path", .string "/path/to/lib2")]])])])]

/-- The type string `expectedParameterType` yields for a declaration whose
specifier can be read, as a total function. -/
def parameterTypeOf (p : JSValue) : JSValue :=
  let specifier := p.prop "parameterTypeSpecifier"
  if !(specifier.prop "name").isNullish then specifier.prop "name"
  else .string ((specifier.prop "type").toStr ++ "<" ++
    ((specifier.prop "elementType").prop "name").toStr ++ ">")

/-- A bundle with one MedicationRequest whose medication is the given reference. -/
def requestBundle (address : String) : JSValue :=
  .object [("resourceType", .string "Bundle"), ("entry", .array [
    .object [("resource", .object [("resourceType", .string "MedicationRequest"),
      ("id", .string "mr1"),
      ("medicationReference", .object [("reference", .string address)])])]])]

/-- A Medication resource with a code. -/
def sampleMedication : JSValue :=
  .object [("resourceType", .string "Medication"), ("id", .string "123"),
    ("code", .object [("text", .string "Aspirin")])]

/-- A bundle with one MedicationRequest that holds both the medication
reference and the medication concept. -/
def resolvedBundle : JSValue :=
  .object [("resourceType", .string "Bundle"), ("entry", .array [
    .object [("resource", .object [("resourceType", .string "MedicationRequest"),
      ("id", .string "mr1"),
      ("medicationReference", .object [("reference", .string "Medication/123")]),
      ("medicationCodeableConcept", .object [("text", .string "Aspirin")])])]])]

/-- A host whose endpoints are all address templates `/<endpoint>/<placeholder>`.
The transport answers the MedicationRequest list of patient `p1` with the given
bundle, the addresses `/medicationById/123` and
`http://fhir.example/Medication/123` with the sample Medication, and every
other address with status 404 and a body that does not parse. -/
def sampleHost (bundle : JSValue) : Host where
  address := fun name =>
    if name = "medicationById" then .template "/medicationById/\x7b\x7bmedicationId\x7d\x7d"
    else .template ("/" ++ name ++ "/\x7b\x7bpatientId\x7d\x7d")
  fetch := fun url _ =>
    if url = "/medicationRequestByPatientId/p1" then .ok ⟨200, .ok bundle⟩
    else if url = "/medicationById/123" ∨ url = "http://fhir.example/Medication/123" then
      .ok ⟨200, .ok sampleMedication⟩
    else .ok ⟨404, .error (.external "Unexpected end of JSON input")⟩

/-- The value `entry.resource.medicationReference.reference` of a bundle entry. -/
def medicationReferenceOf (entry : JSValue) : JSValue :=
  ((entry.prop "resource").prop "medicationReference").prop "reference"

/-! ## Lemmas: property lists -/

theorem findProp_setProp (key key2 : String) (value : JSValue) (l : List (String × JSValue)) :
    findProp key2 (setProp key value l) = if key2 = key then some value else findProp key2 l := by
  induction l with
  | nil =>
    by_cases h : key2 = key
    · simp [setProp, findProp, h]
    · simp [setProp, findProp, h, Ne.symm h]
  | cons kv rest ih =>
    obtain ⟨k, v⟩ := kv
    by_cases hk : k = key
    · by_cases h : key2 = key
      · simp [setProp, findProp, hk, h]
      · simp [setProp, findProp, hk, h, Ne.symm h]
    · by_cases h : key2 = key
      · subst h
        simp [setProp, findProp, hk, ih]
      · by_cases hk2 : k = key2
        · simp [setProp, findProp, hk, hk2, h]
        · simp [setProp, findProp, hk, hk2, ih, h]

theorem mem_keys_setProp (key key2 : String) (value : JSValue) (l : List (String × JSValue)) :
    key2 ∈ (setProp key value l).map Prod.fst ↔ key2 = key ∨ key2 ∈ l.map Prod.fst := by
  induction l with
  | nil => simp [setProp]
  | cons kv rest ih =>
    obtain ⟨k, v⟩ := kv
    by_cases hk : k = key
    · subst hk
      simp [setProp]
    · simp only [setProp, hk, if_false, List.map_cons, List.mem_cons, ih]
      tauto

theorem nodup_keys_setProp (key : String) (value : JSValue) (l : List (String × JSValue))
    (h : (l.map Prod.fst).Nodup) : ((setProp key value l).map Prod.fst).Nodup := by
  induction l with
  | nil => simp [setProp]
  | cons kv rest ih =>
    obtain ⟨k, v⟩ := kv
    by_cases hk : k = key
    · subst hk
      simpa [setProp] using h
    · simp only [List.map_cons, List.nodup_cons] at h
      simp only [setProp, hk, if_false, List.map_cons, List.nodup_cons]
      refine ⟨fun hmem => ?_, ih h.2⟩
      rw [mem_keys_setProp] at hmem
      exact hmem.elim hk (fun h2 => h.1 h2)

theorem findProp_of_mem_keys (key : String) (l : List (String × JSValue))
    (h : key ∈ l.map Prod.fst) : ∃ v, findProp key l = some v := by
  induction l with
  | nil => simp at h
  | cons kv rest ih =>
    obtain ⟨k, v⟩ := kv
    by_cases hk : k = key
    · exact ⟨v, by simp [findProp, hk]⟩
    · have : key ∈ rest.map Prod.fst := by
        simp only [List.map_cons, List.mem_cons] at h
        exact h.resolve_left (fun e => hk e.symm)
      obtain ⟨w, hw⟩ := ih this
      exact ⟨w, by simp [findProp, hk, hw]⟩

theorem mem_keys_of_findProp (key : String) (l : List (String × JSValue)) (v : JSValue)
    (h : findProp key l = some v) : key ∈ l.map Prod.fst := by
  induction l with
  | nil => simp [findProp] at h
  | cons kv rest ih =>
    obtain ⟨k, w⟩ := kv
    by_cases hk : k = key
    · simp [hk]
    · simp only [findProp, hk, if_false] at h
      simp [ih h]

theorem ownKeys_perm (l : List (String × JSValue)) : (ownKeys l).Perm (l.map Prod.fst) := by
  simp only [ownKeys]
  have h1 := List.perm_insertionSort (fun a b : String => decimalValue a.data ≤ decimalValue b.data)
    ((l.map Prod.fst).filter fun k => (arrayIndex k).isSome)
  have h2 : ((l.map Prod.fst).filter fun k => (arrayIndex k).isNone) =
      (l.map Prod.fst).filter fun k => !(arrayIndex k).isSome := by
    congr 1
    funext k
    cases arrayIndex k <;> rfl
  rw [h2]
  exact (h1.append_right _).trans (List.filter_append_perm _ _)

theorem defaultSort_perm (keys : List String) : (defaultSort keys).Perm keys :=
  List.perm_insertionSort _ _

/-! ## Lemmas: the key-order loop -/

theorem nodup_keys_recordKeyOrder (pr : JSValue) (keys : List String)
    (acc : List (String × JSValue)) (h : (acc.map Prod.fst).Nodup) :
    ((recordKeyOrder pr keys acc).map Prod.fst).Nodup := by
  induction keys generalizing acc with
  | nil => simpa [recordKeyOrder] using h
  | cons k rest ih =>
    simp only [recordKeyOrder]
    split
    · exact ih _ (nodup_keys_setProp _ _ _ h)
    · exact ih _ h

theorem mem_keys_recordKeyOrder (pr : JSValue) (keys : List String)
    (acc : List (String × JSValue)) (p : String) :
    p ∈ (recordKeyOrder pr keys acc).map Prod.fst ↔
      p ∈ acc.map Prod.fst ∨
        ∃ k ∈ keys, (pr.prop k).isNullish = false ∧ numberKey (numberSubstring k) = p := by
  induction keys generalizing acc with
  | nil => simp [recordKeyOrder]
  | cons k rest ih =>
    simp only [recordKeyOrder]
    by_cases hk : (pr.prop k).isNullish = false
    · simp only [hk, Bool.not_false, if_true, ih, mem_keys_setProp, List.mem_cons]
      constructor
      · rintro ((h | h) | ⟨k2, hk2, h⟩)
        · exact Or.inr ⟨k, Or.inl rfl, hk, h.symm⟩
        · exact Or.inl h
        · exact Or.inr ⟨k2, Or.inr hk2, h⟩
      · rintro (h | ⟨k2, hk2 | hk2, hn, h⟩)
        · exact Or.inl (Or.inr h)
        · subst hk2
          exact Or.inl (Or.inl h.symm)
        · exact Or.inr ⟨k2, hk2, hn, h⟩
    · have hk2 : (pr.prop k).isNullish = true := by simpa using hk
      simp only [hk2, Bool.not_true, Bool.false_eq_true, if_false, ih, List.mem_cons]
      constructor
      · rintro (h | ⟨k2, hk2, h⟩)
        · exact Or.inl h
        · exact Or.inr ⟨k2, Or.inr hk2, h⟩
      · rintro (h | ⟨k2, hk3 | hk3, hn, h⟩)
        · exact Or.inl h
        · subst hk3
          rw [hk2] at hn
          cases hn
        · exact Or.inr ⟨k2, hk3, hn, h⟩

theorem findProp_recordKeyOrder_origin (pr : JSValue) (keys : List String)
    (acc : List (String × JSValue)) (p : String) (v : JSValue)
    (h : findProp p (recordKeyOrder pr keys acc) = some v) :
    findProp p acc = some v ∨
      ∃ k ∈ keys, (pr.prop k).isNullish = false ∧ numberKey (numberSubstring k) = p ∧
        v = .string k := by
  induction keys generalizing acc with
  | nil => exact Or.inl (by simpa [recordKeyOrder] using h)
  | cons k rest ih =>
    simp only [recordKeyOrder] at h
    by_cases hk : (pr.prop k).isNullish = false
    · simp only [hk, Bool.not_false, if_true] at h
      rcases ih _ h with h2 | ⟨k2, hk2, hn, hp, hv⟩
      · rw [findProp_setProp] at h2
        by_cases hp : p = numberKey (numberSubstring k)
        · simp only [hp, if_true, Option.some.injEq] at h2
          exact Or.inr ⟨k, List.mem_cons_self _ _, hk, hp.symm, h2.symm⟩
        · simp only [hp, if_false] at h2
          exact Or.inl h2
      · exact Or.inr ⟨k2, List.mem_cons_of_mem _ hk2, hn, hp, hv⟩
    · have hk2 : (pr.prop k).isNullish = true := by simpa using hk
      simp only [hk2, Bool.not_true, Bool.false_eq_true, if_false] at h
      rcases ih _ h with h2 | ⟨k2, hk3, hn, hp, hv⟩
      · exact Or.inl h2
      · exact Or.inr ⟨k2, List.mem_cons_of_mem _ hk3, hn, hp, hv⟩

theorem findProp_recordKeyOrder_untouched (pr : JSValue) (keys : List String)
    (acc : List (String × JSValue)) (p : String)
    (h : ∀ k ∈ keys, (pr.prop k).isNullish = false → numberKey (numberSubstring k) ≠ p) :
    findProp p (recordKeyOrder pr keys acc) = findProp p acc := by
  induction keys generalizing acc with
  | nil => simp [recordKeyOrder]
  | cons k rest ih =>
    have hrest : ∀ k2 ∈ rest, (pr.prop k2).isNullish = false →
        numberKey (numberSubstring k2) ≠ p :=
      fun k2 hk2 => h k2 (List.mem_cons_of_mem _ hk2)
    simp only [recordKeyOrder]
    by_cases hk : (pr.prop k).isNullish = false
    · simp only [hk, Bool.not_false, if_true]
      rw [ih _ hrest, findProp_setProp]
      have := h k (List.mem_cons_self _ _) hk
      simp [Ne.symm this]
    · have hk2 : (pr.prop k).isNullish = true := by simpa using hk
      simp only [hk2, Bool.not_true, Bool.false_eq_true, if_false]
      exact ih _ hrest

theorem findProp_recordKeyOrder_unique (pr : JSValue) (keys : List String)
    (acc : List (String × JSValue)) (key : String) (hmem : key ∈ keys)
    (hkey : (pr.prop key).isNullish = false)
    (huniq : ∀ k ∈ keys, (pr.prop k).isNullish = false →
      numberKey (numberSubstring k) = numberKey (numberSubstring key) → k = key) :
    findProp (numberKey (numberSubstring key)) (recordKeyOrder pr keys acc) =
      some (.string key) := by
  induction keys generalizing acc with
  | nil => simp at hmem
  | cons k rest ih =>
    have hrest : ∀ k2 ∈ rest, (pr.prop k2).isNullish = false →
        numberKey (numberSubstring k2) = numberKey (numberSubstring key) → k2 = key :=
      fun k2 hk2 => huniq k2 (List.mem_cons_of_mem _ hk2)
    by_cases hin : key ∈ rest
    · simp only [recordKeyOrder]
      split
      · exact ih _ hin hrest
      · exact ih _ hin hrest
    · have hk : k = key := by
        rcases List.mem_cons.1 hmem with h | h
        · exact h.symm
        · exact absurd h hin
      subst hk
      simp only [recordKeyOrder, hkey, Bool.not_false, if_true]
      rw [findProp_recordKeyOrder_untouched, findProp_setProp]
      · simp
      · intro k2 hk2 hn heq
        exact hin (hrest k2 hk2 hn heq ▸ hk2)

theorem mem_ownKeys (l : List (String × JSValue)) (k : String) :
    k ∈ ownKeys l ↔ k ∈ l.map Prod.fst :=
  (ownKeys_perm l).mem_iff

/-- The numbered branch of `extractRecommendations` in closed form. -/
theorem extractRecommendations_numbered (props : List (String × JSValue))
    (hshape : ((JSValue.object props).prop "Recommendation").isNullish = true) :
    extractRecommendations (.object props) =
      .ok (.array ((defaultSort (ownKeys (recordKeyOrder (.object props)
        ((ownKeys props).filter fun key => startsWith key "Recommendation") []))).map
        fun priority => .object [
          ("recommendation", (JSValue.object props).prop
            ((JSValue.object (recordKeyOrder (.object props)
              ((ownKeys props).filter fun key => startsWith key "Recommendation") [])).prop
                priority).toStr),
          ("priority", .string priority)])) := by
  simp [extractRecommendations, hshape, objectKeys]

/-! ## Lemmas: numbered keys -/

theorem lastIndexOfFrom_head_not_mem (p : Char) (ps cs : List Char) (i : Nat) (found : Int)
    (h : p ∉ cs) : lastIndexOfFrom (p :: ps) cs i found = found := by
  induction cs generalizing i found with
  | nil => simp [lastIndexOfFrom]
  | cons c rest ih =>
    have hc : p ≠ c := fun e => h (e ▸ List.mem_cons_self _ _)
    have hrest : p ∉ rest := fun e => h (List.mem_cons_of_mem _ e)
    simp [lastIndexOfFrom, List.isPrefixOf, hc, ih _ _ hrest]

theorem not_whiteSpace_of_digit (c : Char) (h : isDecimalDigit c = true) :
    isStrWhiteSpaceChar c = false := by
  simp only [isDecimalDigit, Bool.and_eq_true, decide_eq_true_eq] at h
  simp only [isStrWhiteSpaceChar, Bool.or_eq_false_iff, beq_eq_false_iff_ne, ne_eq,
    Bool.and_eq_false_iff, decide_eq_false_iff_not]
  omega

theorem trimWhiteSpace_digits (digits : List Char)
    (hall : ∀ c ∈ digits, isDecimalDigit c = true) : trimWhiteSpace digits = digits := by
  have h1 : digits.dropWhile isStrWhiteSpaceChar = digits := by
    cases digits with
    | nil => rfl
    | cons c rest =>
      simp [List.dropWhile, not_whiteSpace_of_digit c (hall c (List.mem_cons_self _ _))]
  have h2 : digits.reverse.dropWhile isStrWhiteSpaceChar = digits.reverse := by
    cases hr : digits.reverse with
    | nil => rfl
    | cons c rest =>
      have hc : c ∈ digits := by
        have : c ∈ digits.reverse := by rw [hr]; exact List.mem_cons_self _ _
        exact List.mem_reverse.1 this
      simp [List.dropWhile, not_whiteSpace_of_digit c (hall c hc)]
  simp [trimWhiteSpace, h1, h2]

theorem parseUnsigned_digits (digits : List Char) (hne : digits ≠ [])
    (hall : ∀ c ∈ digits, isDecimalDigit c = true) :
    parseUnsigned false digits = .finite false (decimalValue digits) 0 := by
  have hinf : digits ≠ "Infinity".data := by
    intro e
    have : isDecimalDigit 'I' = true := hall 'I' (by rw [e]; decide)
    exact absurd this (by decide)
  have htake : digits.takeWhile isDecimalDigit = digits :=
    List.takeWhile_eq_self_iff.2 hall
  have hdrop : digits.dropWhile isDecimalDigit = [] :=
    List.dropWhile_eq_nil_iff.2 hall
  simp [parseUnsigned, hinf, parseUnsignedDecimal, htake, hdrop, parseExponent, hne]

theorem radixOf_digit (c : Char) (h : isDecimalDigit c = true) : radixOf c = none := by
  have hx : ∀ d : Char, isDecimalDigit d = false → c ≠ d := by
    intro d hd e
    rw [e, hd] at h
    cases h
  simp [radixOf, hx 'x' (by decide), hx 'X' (by decide), hx 'o' (by decide), hx 'O' (by decide),
    hx 'b' (by decide), hx 'B' (by decide)]

theorem stringToNumber_digits (digits : List Char) (hne : digits ≠ [])
    (hall : ∀ c ∈ digits, isDecimalDigit c = true) :
    stringToNumber ⟨digits⟩ = .finite false (decimalValue digits) 0 := by
  unfold stringToNumber
  rw [trimWhiteSpace_digits digits hall]
  cases digits with
  | nil => exact absurd rfl hne
  | cons c cs =>
    have hc : isDecimalDigit c = true := hall c (List.mem_cons_self _ _)
    have hx : ∀ d : Char, isDecimalDigit d = false → c ≠ d := by
      intro d hd e
      rw [e, hd] at hc
      cases hc
    have hradix : cs.head?.bind radixOf = none := by
      cases cs with
      | nil => rfl
      | cons x rest =>
        simp [radixOf_digit x (hall x (by simp))]
    simp only [hx '+' (by decide), hx '-' (by decide), if_false, hradix, ite_self]
    exact parseUnsigned_digits (c :: cs) hne hall

/-- The key of a decimal suffix below `2^53` is the canonical decimal string of
its value. -/
theorem numberKey_digits (digits : List Char) (hne : digits ≠ [])
    (hall : ∀ c ∈ digits, isDecimalDigit c = true) (hbound : decimalValue digits < 2 ^ 53) :
    numberKey ⟨digits⟩ = ⟨Nat.toDigits 10 (decimalValue digits)⟩ := by
  have hb : decimalValue digits < 9007199254740992 := Nat.lt_of_lt_of_eq hbound (by norm_num)
  simp [numberKey, stringToNumber_digits digits hne hall, numberToString, exactInteger, hb]

theorem lastIndexOfFrom_self_append (p : Char) (ps rest : List Char) (h : p ∉ ps ++ rest) :
    lastIndexOfFrom (p :: ps) ((p :: ps) ++ rest) 0 (-1) = 0 := by
  have hpre : (p :: ps).isPrefixOf (p :: (ps ++ rest)) = true := by
    rw [List.isPrefixOf_iff_prefix]
    exact List.prefix_append (p :: ps) rest
  show lastIndexOfFrom (p :: ps) (p :: (ps ++ rest)) 0 (-1) = 0
  rw [lastIndexOfFrom, if_pos hpre, lastIndexOfFrom_head_not_mem p ps _ _ _ h]
  rfl

/-- The text after the last `Recommendation` of `Recommendation<digits>` is the
digits. -/
theorem numberSubstring_digits (digits : List Char)
    (hall : ∀ c ∈ digits, isDecimalDigit c = true) :
    numberSubstring ("Recommendation" ++ String.mk digits) = ⟨digits⟩ := by
  have hR : 'R' ∉ digits := by
    intro hmem
    exact absurd (hall 'R' hmem) (by decide)
  have htail : 'R' ∉ ['e', 'c', 'o', 'm', 'm', 'e', 'n', 'd', 'a', 't', 'i', 'o', 'n'] ++ digits := by
    simp [hR]
  have hlast := lastIndexOfFrom_self_append 'R'
    ['e', 'c', 'o', 'm', 'm', 'e', 'n', 'd', 'a', 't', 'i', 'o', 'n'] digits htail
  have hdata : ("Recommendation" ++ String.mk digits).data =
      ('R' :: ['e', 'c', 'o', 'm', 'm', 'e', 'n', 'd', 'a', 't', 'i', 'o', 'n']) ++ digits := by
    simp [String.data_append]
  have hpat : "Recommendation".data =
      'R' :: ['e', 'c', 'o', 'm', 'm', 'e', 'n', 'd', 'a', 't', 'i', 'o', 'n'] := rfl
  simp only [numberSubstring, lastIndexOf, substring, hdata, hpat, hlast]
  simp

theorem startsWith_append (pattern rest : String) : startsWith (pattern ++ rest) pattern = true := by
  simp only [startsWith, String.data_append, List.isPrefixOf_iff_prefix]
  exact List.prefix_append _ _

theorem prop_object_of_findProp (props : List (String × JSValue)) (key : String) (v : JSValue)
    (h : findProp key props = some v) : (JSValue.object props).prop key = v := by
  simp [JSValue.prop, h]

theorem findProp_of_prop_not_nullish (props : List (String × JSValue)) (key : String)
    (h : ((JSValue.object props).prop key).isNullish = false) :
    ∃ v, findProp key props = some v ∧ v.isNullish = false := by
  cases hf : findProp key props with
  | none => simp [JSValue.prop, hf, JSValue.isNullish] at h
  | some v => exact ⟨v, rfl, by simpa [JSValue.prop, hf] using h⟩

/-! ## Lemmas: engine invoker -/

theorem get_error (v : JSValue) (key : String) (e : JSError) (h : v.get key = .error e) :
    e = .typeError := by
  unfold JSValue.get at h
  split at h
  · cases h
    rfl
  · cases h

theorem createBundle_of_not_nullish (patient : JSValue) (h : patient.isNullish = false) :
    ∃ bundle, createBundle patient .undefined = .ok bundle := by
  cases patient <;> simp only [JSValue.isNullish] at h <;> try cases h
  all_goals
    simp only [createBundle]
    split
    · exact ⟨_, rfl⟩
    · exact ⟨_, rfl⟩

theorem collectLibraries_missing (libraries : JSValue) (before : List JSValue) (l : JSValue)
    (after : List JSValue) (acc : List (String × JSValue))
    (hbefore : ∀ q ∈ before, (libraries.read (q.prop "name").toStr).isNullish = false)
    (hl : (libraries.read (l.prop "name").toStr).isNullish = true) :
    collectLibraries libraries (before ++ l :: after) acc =
      .error (.error (missingLibraryMessage (l.prop "name").toStr)) := by
  induction before generalizing acc with
  | nil => simp [collectLibraries, hl]
  | cons q rest ih =>
    have hq := hbefore q (List.mem_cons_self _ _)
    simp only [List.cons_append, collectLibraries, hq, Bool.false_eq_true, if_false]
    exact ih _ (fun r hr => hbefore r (List.mem_cons_of_mem _ hr))

theorem collectLibraries_ok (libraries : JSValue) (ls : List JSValue)
    (acc : List (String × JSValue))
    (h : ∀ q ∈ ls, (libraries.read (q.prop "name").toStr).isNullish = false) :
    ∃ libraryObject, collectLibraries libraries ls acc = .ok libraryObject := by
  induction ls generalizing acc with
  | nil => exact ⟨acc, rfl⟩
  | cons q rest ih =>
    have hq := h q (List.mem_cons_self _ _)
    simp only [collectLibraries, hq, Bool.false_eq_true, if_false]
    exact ih _ (fun r hr => h r (List.mem_cons_of_mem _ hr))

theorem collectLibraries_error (libraries : JSValue) (ls : List JSValue)
    (acc : List (String × JSValue)) (e : JSError)
    (h : collectLibraries libraries ls acc = .error e) :
    ∃ l ∈ ls, (libraries.read (l.prop "name").toStr).isNullish = true ∧
      e = .error (missingLibraryMessage (l.prop "name").toStr) := by
  induction ls generalizing acc with
  | nil => simp [collectLibraries] at h
  | cons q rest ih =>
    simp only [collectLibraries] at h
    split at h
    · next hq =>
      cases h
      exact ⟨q, List.mem_cons_self _ _, hq, rfl⟩
    · obtain ⟨l, hl, hn, he⟩ := ih _ h
      exact ⟨l, List.mem_cons_of_mem _ hl, hn, he⟩

theorem wrapEntries_calls (wrap : JSValue → JSValue) (es : List JSValue) :
    ∀ c ∈ (wrapEntries wrap es).1, ∃ r, c = Call.wrap r := by
  induction es with
  | nil => simp [wrapEntries]
  | cons entry rest ih =>
    intro c hc
    simp only [wrapEntries] at hc
    split at hc
    · simp at hc
    · split at hc
      · next calls e heq =>
        rw [heq] at ih
        rcases List.mem_cons.1 hc with h | h
        · exact ⟨_, h⟩
        · exact ih c h
      · next calls wrapped heq =>
        rw [heq] at ih
        rcases List.mem_cons.1 hc with h | h
        · exact ⟨_, h⟩
        · exact ih c h

theorem wrapEntries_error (wrap : JSValue → JSValue) (es : List JSValue) (e : JSError)
    (h : (wrapEntries wrap es).2 = .error e) : e = .typeError := by
  induction es with
  | nil => simp [wrapEntries] at h
  | cons entry rest ih =>
    simp only [wrapEntries] at h
    split at h
    · next e2 hget =>
      cases h
      exact get_error _ _ _ hget
    · split at h
      · next calls e2 heq =>
        rw [heq] at ih
        cases h
        exact ih rfl
      · cases h

theorem wrapParameter_calls (wrap : JSValue → JSValue) (type res : JSValue) :
    ∀ c ∈ (wrapParameter wrap type res).1, ∃ r, c = Call.wrap r := by
  intro c hc
  unfold wrapParameter at hc
  split at hc
  · split at hc
    · split at hc
      · split at hc
        · simp at hc
        · next entries _ =>
          have := wrapEntries_calls wrap entries
          split at hc
          · next calls e heq =>
            rw [heq] at this
            exact this c hc
          · next calls wrapped heq =>
            rw [heq] at this
            exact this c hc
      · split at hc
        · obtain ⟨r, _, hr⟩ := List.mem_map.1 hc
          exact ⟨r, hr.symm⟩
        · simp at hc
    · simp only [List.mem_singleton] at hc
      exact ⟨_, hc⟩
  · simp at hc

theorem wrapParameter_error (wrap : JSValue → JSValue) (type res : JSValue) (e : JSError)
    (h : (wrapParameter wrap type res).2 = .error e) : e = .typeError := by
  unfold wrapParameter at h
  split at h
  · split at h
    · split at h
      · split at h
        · next e2 hit =>
          cases h
          unfold iterate at hit
          split at hit <;> cases hit
          rfl
        · next entries _ =>
          have := wrapEntries_error wrap entries
          split at h
          · next calls e2 heq =>
            rw [heq] at this
            cases h
            exact this e rfl
          · cases h
      · split at h <;> cases h
    · cases h
  · cases h
    rfl

theorem collectParameters_calls (wrap : JSValue → JSValue) (parameters : JSValue)
    (ps : List JSValue) (acc : List (String × JSValue)) :
    ∀ c ∈ (collectParameters wrap parameters ps acc).1, ∃ r, c = Call.wrap r := by
  induction ps generalizing acc with
  | nil => simp [collectParameters]
  | cons p rest ih =>
    intro c hc
    simp only [collectParameters] at hc
    split at hc
    · simp at hc
    · split at hc
      · next calls e heq =>
        have := wrapParameter_calls wrap (p.prop "type")
          (parameters.read (p.prop "name").toStr)
        rw [heq] at this
        exact this c hc
      · next calls value heq =>
        have := wrapParameter_calls wrap (p.prop "type")
          (parameters.read (p.prop "name").toStr)
        rw [heq] at this
        rcases List.mem_append.1 hc with h | h
        · exact this c h
        · exact ih _ c h

theorem collectParameters_error (wrap : JSValue → JSValue) (parameters : JSValue)
    (ps : List JSValue) (acc : List (String × JSValue)) (e : JSError)
    (h : (collectParameters wrap parameters ps acc).2 = .error e) :
    e = .typeError ∨ ∃ p ∈ ps, (parameters.read (p.prop "name").toStr).isNullish = true ∧
      e = .error (missingParameterMessage (p.prop "name").toStr) := by
  induction ps generalizing acc with
  | nil => simp [collectParameters] at h
  | cons p rest ih =>
    simp only [collectParameters] at h
    split at h
    · next hp =>
      cases h
      exact Or.inr ⟨p, List.mem_cons_self _ _, hp, rfl⟩
    · split at h
      · next calls e2 heq =>
        have := wrapParameter_error wrap (p.prop "type")
          (parameters.read (p.prop "name").toStr) e2 (by rw [heq])
        cases h
        exact Or.inl this
      · next calls value heq =>
        rcases ih _ h with h2 | ⟨q, hq, hn, he⟩
        · exact Or.inl h2
        · exact Or.inr ⟨q, List.mem_cons_of_mem _ hq, hn, he⟩

theorem collectParameters_missing (wrap : JSValue → JSValue) (parameters : JSValue)
    (before : List JSValue) (p : JSValue) (after : List JSValue)
    (acc : List (String × JSValue))
    (hbefore : ∀ q ∈ before, (parameters.read (q.prop "name").toStr).isNullish = false ∧
      ∃ calls value, wrapParameter wrap (q.prop "type")
        (parameters.read (q.prop "name").toStr) = (calls, .ok value))
    (hp : (parameters.read (p.prop "name").toStr).isNullish = true) :
    (collectParameters wrap parameters (before ++ p :: after) acc).2 =
      .error (.error (missingParameterMessage (p.prop "name").toStr)) := by
  induction before generalizing acc with
  | nil => simp [collectParameters, hp]
  | cons q rest ih =>
    obtain ⟨hq, calls, value, hw⟩ := hbefore q (List.mem_cons_self _ _)
    simp only [List.cons_append, collectParameters, hq, Bool.false_eq_true, if_false, hw]
    exact ih _ (fun r hr => hbefore r (List.mem_cons_of_mem _ hr))

theorem extractRecommendations_error (v : JSValue) (e : JSError)
    (h : extractRecommendations v = .error e) :
    e = .typeError ∨ ∃ t, e = .error (unrecognizedTypeMessage t) := by
  unfold extractRecommendations at h
  split at h
  · cases h
  · cases h
    exact Or.inl rfl
  · simp only at h
    split at h
    · split at h
      · cases h
      · cases h
      · cases h
        exact Or.inr ⟨_, rfl⟩
    · cases h

theorem assign_error (target : JSValue) (key : String) (value : JSValue) (e : JSError)
    (h : assign target key value = .error e) : e = .typeError := by
  unfold assign at h
  split at h
  · cases h; rfl
  · cases h; rfl
  · cases h
  · split at h <;> cases h
  · cases h

theorem attachRecommendations_error (ids : List JSValue) (patientResults : JSValue)
    (e : JSError) (h : attachRecommendations ids patientResults = .error e) :
    e = .typeError ∨ ∃ t, e = .error (unrecognizedTypeMessage t) := by
  induction ids generalizing patientResults with
  | nil => simp [attachRecommendations] at h
  | cons patientId rest ih =>
    simp only [attachRecommendations] at h
    split at h
    · next e2 hex =>
      cases h
      exact extractRecommendations_error _ _ hex
    · split at h
      · next e2 has =>
        cases h
        exact Or.inl (assign_error _ _ _ _ has)
      · split at h
        · next e2 has =>
          cases h
          exact Or.inl (assign_error _ _ _ _ has)
        · exact ih _ h

theorem ruleIdentity_error (rule : JSValue) (e : JSError) (h : ruleIdentity rule = .error e) :
    e = .typeError := by
  unfold ruleIdentity at h
  split at h
  · next e2 hg =>
    cases h
    exact get_error _ _ _ hg
  · split at h
    · next e2 hg =>
      cases h
      exact get_error _ _ _ hg
    · cases h

theorem finishResults_error (rule : JSValue) (ids : List JSValue) (result : JSValue)
    (e : JSError) (h : finishResults rule ids result = .error e) :
    e = .typeError ∨ ∃ t, e = .error (unrecognizedTypeMessage t) := by
  unfold finishResults at h
  split at h
  · next e2 hg =>
    cases h
    exact Or.inl (get_error _ _ _ hg)
  · split at h
    · next e2 hr =>
      cases h
      exact Or.inl (ruleIdentity_error _ _ hr)
    · split at h
      · next e2 has =>
        cases h
        exact Or.inl (assign_error _ _ _ _ has)
      · exact attachRecommendations_error _ _ _ h

theorem expectedLibraryRecords_error (defs : List JSValue) (e : JSError)
    (h : expectedLibraryRecords defs = .error e) : e = .typeError := by
  induction defs with
  | nil => simp [expectedLibraryRecords] at h
  | cons l rest ih =>
    simp only [expectedLibraryRecords] at h
    split at h
    · next e2 hg =>
      cases h
      exact get_error _ _ _ hg
    · split at h
      · next e2 hrec =>
        cases h
        exact ih hrec
      · cases h

theorem getListOfExpectedLibraries_error (rule : JSValue) (e : JSError)
    (h : getListOfExpectedLibraries rule = .error e) : e = .typeError := by
  unfold getListOfExpectedLibraries at h
  split at h
  · split at h
    · next e2 hrec =>
      cases h
      exact expectedLibraryRecords_error _ _ hrec
    · cases h
  · cases h

theorem expectedParameterType_error (p : JSValue) (e : JSError)
    (h : expectedParameterType p = .error e) : e = .typeError := by
  unfold expectedParameterType at h
  split at h
  · next e2 hg =>
    cases h
    exact get_error _ _ _ hg
  · split at h
    · next e2 hg =>
      cases h
      exact get_error _ _ _ hg
    · split at h
      · cases h
      · split at h
        · next e2 hg =>
          cases h
          exact get_error _ _ _ hg
        · cases h

theorem expectedParameterRecords_error (defs : List JSValue) (e : JSError)
    (h : expectedParameterRecords defs = .error e) : e = .typeError := by
  induction defs with
  | nil => simp [expectedParameterRecords] at h
  | cons p rest ih =>
    simp only [expectedParameterRecords] at h
    split at h
    · next e2 ht =>
      cases h
      exact expectedParameterType_error _ _ ht
    · split at h
      · next e2 hrec =>
        cases h
        exact ih hrec
      · cases h

theorem getListOfExpectedParameters_error (rule : JSValue) (e : JSError)
    (h : getListOfExpectedParameters rule = .error e) : e = .typeError := by
  unfold getListOfExpectedParameters at h
  split at h
  · split at h
    · next e2 hrec =>
      cases h
      exact expectedParameterRecords_error _ _ hrec
    · cases h
  · cases h

theorem patientEntryIds_error (entries : List JSValue) (e : JSError)
    (h : patientEntryIds entries = .error e) : e = .typeError := by
  induction entries with
  | nil => simp [patientEntryIds] at h
  | cons f rest ih =>
    simp only [patientEntryIds] at h
    split at h
    · next e2 hg =>
      cases h
      exact get_error _ _ _ hg
    · split at h
      · next e2 hg =>
        cases h
        exact get_error _ _ _ hg
      · split at h
        · next e2 hrec =>
          cases h
          exact ih hrec
        · cases h

theorem patientIdsOf_error (patient : JSValue) (e : JSError)
    (h : patientIdsOf patient = .error e) : e = .typeError := by
  unfold patientIdsOf at h
  split at h
  · split at h
    · exact patientEntryIds_error _ _ h
    · cases h
      rfl
  · cases h

theorem createBundle_error (resource url : JSValue) (e : JSError)
    (h : createBundle resource url = .error e) : e = .typeError := by
  unfold createBundle at h
  split at h
  · cases h
  · cases h
    rfl
  · split at h
    · split at h <;> cases h
    · cases h

theorem runWithParameters_error (engine : Engine) (rule parameters : JSValue)
    (repository : Option JSValue) (patientBundle : JSValue) (patientIds : List JSValue)
    (calls : List Call) (e : JSError)
    (h : (runWithParameters engine rule parameters repository patientBundle patientIds
      calls).outcome = .error e) :
    e = .typeError ∨ (∃ reason, e = .external reason) ∨
      (∃ t, e = .error (unrecognizedTypeMessage t)) ∨
      (e = .error "Rule expects parameters, but they are undefined" ∧
        parameters.isNullish = true ∧
        ∃ first rest, getListOfExpectedParameters rule = .ok (.array (first :: rest))) ∨
      ∃ first rest p, getListOfExpectedParameters rule = .ok (.array (first :: rest)) ∧
        p ∈ first :: rest ∧ (parameters.read (p.prop "name").toStr).isNullish = true ∧
        e = .error (missingParameterMessage (p.prop "name").toStr) := by
  unfold runWithParameters at h
  simp only at h
  split at h
  · next e2 hplan =>
    cases h
    exact Or.inl (getListOfExpectedParameters_error _ _ hplan)
  · next expected hplan =>
    split at h
    · next wraps e2 hchecked =>
      cases h
      unfold checkParameters at hchecked
      split at hchecked
      · next first rest =>
        split at hchecked
        · next hnull =>
          cases hchecked
          exact Or.inr (Or.inr (Or.inr (Or.inl ⟨rfl, hnull, first, rest, hplan⟩)))
        · rcases collectParameters_error _ _ _ _ e (by rw [hchecked]) with h2 | ⟨p, hp, hn, he⟩
          · exact Or.inl h2
          · exact Or.inr (Or.inr (Or.inr (Or.inr ⟨first, rest, p, hplan, hp, hn, he⟩)))
      · cases hchecked
    · split at h
      · cases h
        exact Or.inr (Or.inl ⟨_, rfl⟩)
      · rcases finishResults_error _ _ _ _ h with h2 | h2
        · exact Or.inl h2
        · exact Or.inr (Or.inr (Or.inl h2))

/-- Where an exception of `executeCql` comes from. -/
theorem executeCql_error (engine : Engine) (patient rule libraries parameters : JSValue)
    (codeService : Option CodeService) (vsacApiKey : JSValue) (e : JSError)
    (h : (executeCql engine patient rule libraries parameters codeService vsacApiKey).outcome =
      .error e) :
    (e = .error "Patient is undefined" ∧ patient.isNullish = true) ∨
    (e = .error "Rule is undefined" ∧ rule.isNullish = true) ∨
    e = .typeError ∨ (∃ reason, e = .external reason) ∨
    (∃ t, e = .error (unrecognizedTypeMessage t)) ∨
    (e = .error "Rule expects libraries, but they are undefined" ∧
      libraries.isNullish = true ∧
      ∃ first rest, getListOfExpectedLibraries rule = .ok (.array (first :: rest))) ∨
    (∃ first rest l, getListOfExpectedLibraries rule = .ok (.array (first :: rest)) ∧
      l ∈ first :: rest ∧ (libraries.read (l.prop "name").toStr).isNullish = true ∧
      e = .error (missingLibraryMessage (l.prop "name").toStr)) ∨
    (e = .error "Rule expects parameters, but they are undefined" ∧
      parameters.isNullish = true ∧
      ∃ first rest, getListOfExpectedParameters rule = .ok (.array (first :: rest))) ∨
    ∃ first rest p, getListOfExpectedParameters rule = .ok (.array (first :: rest)) ∧
      p ∈ first :: rest ∧ (parameters.read (p.prop "name").toStr).isNullish = true ∧
      e = .error (missingParameterMessage (p.prop "name").toStr) := by
  unfold executeCql at h
  split at h
  · next hp =>
    cases h
    exact Or.inl ⟨rfl, hp⟩
  · split at h
    · next hr =>
      cases h
      exact Or.inr (Or.inl ⟨rfl, hr⟩)
    · split at h
      · next e2 hids =>
        cases h
        exact Or.inr (Or.inr (Or.inl (patientIdsOf_error _ _ hids)))
      · split at h
        · next e2 hb =>
          cases h
          exact Or.inr (Or.inr (Or.inl (createBundle_error _ _ _ hb)))
        · simp only at h
          split at h
          · next e2 hplan =>
            cases h
            exact Or.inr (Or.inr (Or.inl (getListOfExpectedLibraries_error _ _ hplan)))
          · next expected hplan =>
            split at h
            · next e2 hchecked =>
              cases h
              unfold checkLibraries at hchecked
              split at hchecked
              · next first rest =>
                split at hchecked
                · next hnull =>
                  cases hchecked
                  exact Or.inr (Or.inr (Or.inr (Or.inr (Or.inr (Or.inl
                    ⟨rfl, hnull, first, rest, hplan⟩)))))
                · obtain ⟨l, hl, hn, he⟩ := collectLibraries_error _ _ _ _ hchecked
                  exact Or.inr (Or.inr (Or.inr (Or.inr (Or.inr (Or.inr (Or.inl
                    ⟨first, rest, l, hplan, hl, hn, he⟩))))))
              · cases hchecked
            · split at h
              · rcases runWithParameters_error _ _ _ _ _ _ _ _ h with
                  h2 | h2 | h2 | h2 | h2
                · exact Or.inr (Or.inr (Or.inl h2))
                · exact Or.inr (Or.inr (Or.inr (Or.inl h2)))
                · exact Or.inr (Or.inr (Or.inr (Or.inr (Or.inl h2))))
                · exact Or.inr (Or.inr (Or.inr (Or.inr (Or.inr (Or.inr (Or.inr (Or.inl h2)))))))
                · exact Or.inr (Or.inr (Or.inr (Or.inr (Or.inr (Or.inr (Or.inr (Or.inr h2)))))))
              · split at h
                · next e2 hr =>
                  cases h
                  exact Or.inr (Or.inr (Or.inl (ruleIdentity_error _ _ hr)))
                · cases h

theorem checkMessages_ne_unrecognized (t n : String) :
    "Rule expects libraries, but they are undefined" ≠ unrecognizedTypeMessage t ∧
    "Rule expects parameters, but they are undefined" ≠ unrecognizedTypeMessage t ∧
    missingLibraryMessage n ≠ unrecognizedTypeMessage t ∧
    missingParameterMessage n ≠ unrecognizedTypeMessage t := by
  refine ⟨?_, ?_, ?_, ?_⟩ <;> intro h <;> have := congrArg String.data h <;>
    simp [missingLibraryMessage, missingParameterMessage, unrecognizedTypeMessage,
      String.data_append] at this

theorem missingMessages_ne_fixed (n : String) :
    missingLibraryMessage n ≠ "Patient is undefined" ∧
    missingLibraryMessage n ≠ "Rule is undefined" ∧
    missingLibraryMessage n ≠ "Rule expects libraries, but they are undefined" ∧
    missingLibraryMessage n ≠ "Rule expects parameters, but they are undefined" ∧
    missingParameterMessage n ≠ "Patient is undefined" ∧
    missingParameterMessage n ≠ "Rule is undefined" ∧
    missingParameterMessage n ≠ "Rule expects libraries, but they are undefined" ∧
    missingParameterMessage n ≠ "Rule expects parameters, but they are undefined" := by
  refine ⟨?_, ?_, ?_, ?_, ?_, ?_, ?_, ?_⟩ <;> intro h <;> have := congrArg String.data h <;>
    simp [missingLibraryMessage, missingParameterMessage, String.data_append] at this

theorem missingLibraryMessage_ne_parameter (n m : String) :
    missingLibraryMessage n ≠ missingParameterMessage m := by
  intro h
  have := congrArg String.data h
  simp [missingLibraryMessage, missingParameterMessage, String.data_append] at this

theorem checkLibraries_ok (expectedLibraries libraries : JSValue)
    (h : ∀ first rest, expectedLibraries = .array (first :: rest) →
      libraries.isNullish = false ∧
      ∀ l ∈ first :: rest, (libraries.read (l.prop "name").toStr).isNullish = false) :
    ∃ libraryObject, checkLibraries expectedLibraries libraries = .ok libraryObject := by
  unfold checkLibraries
  split
  · next first rest =>
    obtain ⟨hnull, hall⟩ := h first rest rfl
    simp only [hnull, Bool.false_eq_true, if_false]
    exact collectLibraries_ok _ _ _ hall
  · exact ⟨[], rfl⟩

theorem checkParameters_append (wrap : JSValue → JSValue) (parameters : JSValue)
    (before : List JSValue) (p : JSValue) (after : List JSValue)
    (h : parameters.isNullish = false) :
    checkParameters wrap (.array (before ++ p :: after)) parameters =
      collectParameters wrap parameters (before ++ p :: after) [] := by
  cases before <;> simp [checkParameters, h]

theorem runWithParameters_empty_plan (engine : Engine) (rule parameters : JSValue)
    (repository : Option JSValue) (patientBundle : JSValue) (patientIds : List JSValue)
    (calls : List Call)
    (hplan : getListOfExpectedParameters rule = .ok .undefined ∨
      getListOfExpectedParameters rule = .ok (.array [])) :
    (runWithParameters engine rule parameters repository patientBundle patientIds calls).calls =
      calls ++ [Call.newExecutor, Call.withParameters (.object []), Call.exec] := by
  rcases hplan with h | h <;>
    · simp only [runWithParameters, h, checkParameters]
      split <;> simp

/-! ## Lemmas: reads along the prototype chain -/

theorem read_of_findProp (props : List (String × JSValue)) (key : String) (value : JSValue)
    (h : findProp key props = some value) : (JSValue.object props).read key = value := by
  simp [JSValue.read, JSValue.hasOwn, JSValue.prop, h]

theorem read_inherited (props : List (String × JSValue)) (key : String)
    (hown : findProp key props = none) (hkey : key ∈ objectPrototypeNames) :
    (JSValue.object props).read key = builtinMember := by
  simp [JSValue.read, JSValue.hasOwn, JSValue.inheritedNames, hown, hkey]

theorem read_absent (props : List (String × JSValue)) (key : String)
    (hown : findProp key props = none) (hkey : key ∉ objectPrototypeNames) :
    (JSValue.object props).read key = .undefined := by
  simp [JSValue.read, JSValue.hasOwn, JSValue.inheritedNames, hown, hkey]

/-- A declared library and a declared list parameter named `toString` are found
on the prototype chain of the empty `libraries` and `parameters`: neither check
raises an error, nothing is wrapped and the engine is run. -/
theorem executeCql_inherited_names :
    (executeCql sampleEngine samplePatient inheritedNameRule (.object []) (.object [])
      (some (sampleCodeService true)) .null).outcome =
        .ok (.object [("p1", .object [("Recommendations", .array [])]),
          ("library", .object [("name", .string "R2"), ("version", .string "1")])]) :=
  rfl

/-! ## Theorems: recommendation extractor -/

/-- C1: on `{Recommendation9: 'nine', Recommendation10: 'ten'}` the extractor
returns the record of `Recommendation10` (priority `"10"`) before the record of
`Recommendation9` (priority `"9"`): the priorities are sorted as strings, not by
their numeric value. -/
theorem extractRecommendations_ten_before_nine :
    extractRecommendations
        (.object [("Recommendation9", .string "nine"), ("Recommendation10", .string "ten")]) =
      .ok (.array [
        .object [("recommendation", .string "ten"), ("priority", .string "10")],
        .object [("recommendation", .string "nine"), ("priority", .string "9")]]) := by
  rfl

/-- C2, as stated, fails: of the two non-null numbered fields of
`{Recommendation1: 'a', Recommendation01: 'b'}` only the later one yields a
record; the output has one record and none for `'a'`. -/
theorem extractRecommendations_same_number_dropped :
    extractRecommendations
        (.object [("Recommendation1", .string "a"), ("Recommendation01", .string "b")]) =
      .ok (.array [.object [("recommendation", .string "b"), ("priority", .string "1")]]) := by
  rfl

/-- C2, amended: in the numbered shape, a non-null field `Recommendation<digits>`
whose number is not the number of another non-null field that starts with
`Recommendation` yields a record whose `recommendation` is the field's value
and whose priority is the string of the suffix's number, which is the canonical
decimal string of the suffix's value when that is below `2^53`; priorities are
pairwise distinct in the output, so this record is the only one with its
priority, and the output holds one record per distinct priority key. -/
theorem extractRecommendations_numbered_field (props : List (String × JSValue))
    (digits : List Char) (value : JSValue)
    (hshape : ((JSValue.object props).prop "Recommendation").isNullish = true)
    (hne : digits ≠ []) (hall : ∀ c ∈ digits, isDecimalDigit c = true)
    (hfield : findProp ("Recommendation" ++ String.mk digits) props = some value)
    (hvalue : value.isNullish = false)
    (hunique : ∀ key2 value2, findProp key2 props = some value2 →
      startsWith key2 "Recommendation" = true → value2.isNullish = false →
      numberKey (numberSubstring key2) = numberKey ⟨digits⟩ →
      key2 = "Recommendation" ++ String.mk digits) :
    ∃ out, extractRecommendations (.object props) = .ok (.array out) ∧
      JSValue.object [("recommendation", value),
        ("priority", .string (numberKey ⟨digits⟩))] ∈ out ∧
      (decimalValue digits < 2 ^ 53 →
        numberKey ⟨digits⟩ = ⟨Nat.toDigits 10 (decimalValue digits)⟩) ∧
      (out.map fun r => r.prop "priority").Nodup ∧
      out.length = (priorityKeys props).length := by
  have hkey : numberKey (numberSubstring ("Recommendation" ++ String.mk digits)) =
      numberKey ⟨digits⟩ := by
    rw [numberSubstring_digits digits hall]
  have hmemK : ("Recommendation" ++ String.mk digits) ∈
      (ownKeys props).filter fun key => startsWith key "Recommendation" :=
    List.mem_filter.2 ⟨(mem_ownKeys _ _).2 (mem_keys_of_findProp _ _ _ hfield),
      startsWith_append _ _⟩
  have hnn : ((JSValue.object props).prop ("Recommendation" ++ String.mk digits)).isNullish =
      false := by
    rw [prop_object_of_findProp _ _ _ hfield]
    exact hvalue
  have hfind := findProp_recordKeyOrder_unique (.object props) _ [] _ hmemK hnn (by
    intro k hk hn heq
    obtain ⟨v2, hf2, hv2⟩ := findProp_of_prop_not_nullish props k hn
    exact hunique k v2 hf2 (List.mem_filter.1 hk).2 hv2 (heq.trans hkey))
  have hnodup : ((recordKeyOrder (.object props)
      ((ownKeys props).filter fun key => startsWith key "Recommendation") []).map
        Prod.fst).Nodup :=
    nodup_keys_recordKeyOrder _ _ _ (by simp)
  have hperm := (defaultSort_perm (ownKeys (recordKeyOrder (.object props)
      ((ownKeys props).filter fun key => startsWith key "Recommendation") []))).trans
    (ownKeys_perm _)
  refine ⟨_, extractRecommendations_numbered props hshape, ?_,
    fun hbound => numberKey_digits digits hne hall hbound, ?_, ?_⟩
  · refine List.mem_map.2 ⟨numberKey (numberSubstring ("Recommendation" ++ String.mk digits)),
      hperm.mem_iff.2 (mem_keys_of_findProp _ _ _ hfind), ?_⟩
    rw [prop_object_of_findProp _ _ _ hfind]
    simp [JSValue.toStr, prop_object_of_findProp _ _ _ hfield, hkey]
  · rw [List.map_map]
    have hfun : ((fun r : JSValue => r.prop "priority") ∘ fun priority : String =>
        JSValue.object [("recommendation", (JSValue.object props).prop
          ((JSValue.object (recordKeyOrder (.object props)
            ((ownKeys props).filter fun key => startsWith key "Recommendation") [])).prop
              priority).toStr), ("priority", .string priority)]) = JSValue.string := by
      funext priority
      simp [JSValue.prop, findProp]
    rw [hfun]
    exact (hperm.nodup_iff.2 hnodup).map (fun a b h => by cases h; rfl)
  · rw [List.length_map, hperm.length_eq]
    refine List.Perm.length_eq ((List.perm_ext_iff_of_nodup hnodup (List.nodup_dedup _)).2 ?_)
    intro p
    rw [mem_keys_recordKeyOrder]
    simp only [List.mem_dedup, List.mem_map, List.map_nil, List.not_mem_nil, false_or,
      List.mem_filter, Bool.and_eq_true, Bool.not_eq_true', mem_ownKeys]
    constructor
    · rintro ⟨k, ⟨h1, h2⟩, h3, h4⟩
      exact ⟨k, ⟨h1, h2, h3⟩, h4⟩
    · rintro ⟨k, ⟨h1, h2, h3⟩, h4⟩
      exact ⟨k, ⟨h1, h2⟩, h3, h4⟩

/-- C2, at `{Recommendation2: 'second', Recommendation1: 'first',
Recommendation3: null}` and its field `Recommendation1`: the output has two
records, one of them `{recommendation: 'first', priority: '1'}`. -/
theorem extractRecommendations_numbered_field_witness :
    ∃ out, extractRecommendations (.object [("Recommendation2", .string "second"),
        ("Recommendation1", .string "first"), ("Recommendation3", .null)]) = .ok (.array out) ∧
      JSValue.object [("recommendation", .string "first"), ("priority", .string "1")] ∈ out ∧
      (decimalValue ['1'] < 2 ^ 53 → numberKey ⟨['1']⟩ = "1") ∧
      (out.map fun r => r.prop "priority").Nodup ∧
      out.length = 2 :=
  extractRecommendations_numbered_field
    [("Recommendation2", .string "second"), ("Recommendation1", .string "first"),
      ("Recommendation3", .null)]
    ['1'] (.string "first") rfl (by simp) (by decide) rfl rfl
    (by
      intro key2 value2 hf _ hv hk
      by_cases h2 : key2 = "Recommendation2"
      · subst h2
        exact absurd hk (by decide)
      · by_cases h1 : key2 = "Recommendation1"
        · subst h1
          rfl
        · by_cases h3 : key2 = "Recommendation3"
          · subst h3
            simp [findProp] at hf
            subst hf
            simp [JSValue.isNullish] at hv
          · simp [findProp, Ne.symm h2, Ne.symm h1, Ne.symm h3] at hf)

/-- C3, as stated, fails: the field `RecommendationText`, which has no numeric
suffix, yields a record, with priority `"NaN"`. -/
theorem extractRecommendations_text_suffix_kept :
    extractRecommendations (.object [("RecommendationText", .string "hello")]) =
      .ok (.array [.object [("recommendation", .string "hello"), ("priority", .string "NaN")]]) := by
  rfl

/-- C3, amended: in the numbered shape every returned record comes from a field
whose name starts with `Recommendation` and whose value is not null; its
`recommendation` is that value and its priority is the string of the number the
text after `Recommendation` converts to.  A field whose value is null yields no
record. -/
theorem extractRecommendations_record_origin (props : List (String × JSValue))
    (hshape : ((JSValue.object props).prop "Recommendation").isNullish = true) :
    ∃ out, extractRecommendations (.object props) = .ok (.array out) ∧
      ∀ r ∈ out, ∃ key value, findProp key props = some value ∧
        startsWith key "Recommendation" = true ∧ value.isNullish = false ∧
        r = .object [("recommendation", value),
          ("priority", .string (numberKey (numberSubstring key)))] := by
  refine ⟨_, extractRecommendations_numbered props hshape, ?_⟩
  intro r hr
  obtain ⟨p, hp, rfl⟩ := List.mem_map.1 hr
  have hp2 : p ∈ (recordKeyOrder (.object props)
      ((ownKeys props).filter fun key => startsWith key "Recommendation") []).map Prod.fst :=
    (mem_ownKeys _ _).1 ((defaultSort_perm _).mem_iff.1 hp)
  obtain ⟨v, hv⟩ := findProp_of_mem_keys _ _ hp2
  rcases findProp_recordKeyOrder_origin _ _ _ _ _ hv with h | ⟨k, hk, hn, hkp, hvk⟩
  · simp [findProp] at h
  · obtain ⟨value, hfind, hvalue⟩ := findProp_of_prop_not_nullish props k hn
    refine ⟨k, value, hfind, (List.mem_filter.1 hk).2, hvalue, ?_⟩
    subst hvk
    rw [prop_object_of_findProp _ _ _ hv]
    simp [JSValue.toStr, prop_object_of_findProp _ _ _ hfind, hkp]

/-- C3, at `{Recommendation2: 'second', Recommendation1: 'first',
Recommendation3: null}`. -/
theorem extractRecommendations_record_origin_witness :
    ∃ out, extractRecommendations (.object [("Recommendation2", .string "second"),
        ("Recommendation1", .string "first"), ("Recommendation3", .null)]) = .ok (.array out) ∧
      ∀ r ∈ out, ∃ key value,
        findProp key [("Recommendation2", JSValue.string "second"),
          ("Recommendation1", .string "first"), ("Recommendation3", .null)] = some value ∧
        startsWith key "Recommendation" = true ∧ value.isNullish = false ∧
        r = .object [("recommendation", value),
          ("priority", .string (numberKey (numberSubstring key)))] :=
  extractRecommendations_record_origin _ rfl

/-- C4: when the field `Recommendation` holds a sequence, the extractor returns
a sequence of the same length whose i-th record carries the i-th element as its
`recommendation` and has priority 1. -/
theorem extractRecommendations_sequence (props : List (String × JSValue))
    (items : List JSValue) (h : findProp "Recommendation" props = some (.array items)) :
    ∃ out, extractRecommendations (.object props) = .ok (.array out) ∧
      out.length = items.length ∧
      ∀ i : Nat, out[i]? = items[i]?.map fun r =>
        JSValue.object [("recommendation", r), ("priority", .number 1)] := by
  refine ⟨items.map fun r => .object [("recommendation", r), ("priority", .number 1)], ?_, ?_, ?_⟩
  · simp [extractRecommendations, JSValue.prop, h, JSValue.isNullish]
  · simp
  · intro i
    simp

/-- C4, at `{Recommendation: ['a', 'b']}`. -/
theorem extractRecommendations_sequence_witness :
    ∃ out, extractRecommendations
        (.object [("Recommendation", .array [.string "a", .string "b"])]) = .ok (.array out) ∧
      out.length = [JSValue.string "a", JSValue.string "b"].length ∧
      ∀ i : Nat, out[i]? = [JSValue.string "a", JSValue.string "b"][i]?.map fun r =>
        JSValue.object [("recommendation", r), ("priority", .number 1)] :=
  extractRecommendations_sequence [("Recommendation", .array [.string "a", .string "b"])]
    [.string "a", .string "b"] rfl

/-- C5, as stated, fails: the record returned for `{Recommendation: 'x'}` is not
`{text: 'x', priority: 1}`. -/
theorem extractRecommendations_string_not_text_record :
    extractRecommendations (.object [("Recommendation", .string "x")]) ≠
      .ok (.array [.object [("text", .string "x"), ("priority", .number 1)]]) := by
  intro h
  have h2 : extractRecommendations (.object [("Recommendation", .string "x")]) =
      .ok (.array [.object [("recommendation", .string "x"), ("priority", .number 1)]]) := rfl
  rw [h2] at h
  simp at h

/-- C5, amended: for every string `x`, `extractRecommendations({Recommendation: x})`
is the one-element list `[{recommendation: x, priority: 1}]`, the priority being
the number 1. -/
theorem extractRecommendations_string (x : String) :
    extractRecommendations (.object [("Recommendation", .string x)]) =
      .ok (.array [.object [("recommendation", .string x), ("priority", .number 1)]]) := by
  simp [extractRecommendations, JSValue.prop, findProp, JSValue.isNullish]

/-- C6: when the field `Recommendation` holds a value that is not null and is
neither a string nor a sequence, the extractor fails with the unrecognized-type
error, which names the `typeof` of the value; no record is returned. -/
theorem extractRecommendations_unrecognized (props : List (String × JSValue)) (v : JSValue)
    (h : findProp "Recommendation" props = some v) (hnull : v.isNullish = false)
    (hstring : ∀ s, v ≠ .string s) (harray : ∀ items, v ≠ .array items) :
    extractRecommendations (.object props) =
      .error (.error (unrecognizedTypeMessage v.typeOf)) := by
  cases v with
  | undefined => simp [JSValue.isNullish] at hnull
  | null => simp [JSValue.isNullish] at hnull
  | string s => exact absurd rfl (hstring s)
  | array items => exact absurd rfl (harray items)
  | bool b => simp [extractRecommendations, JSValue.prop, h, JSValue.isNullish]
  | number n => simp [extractRecommendations, JSValue.prop, h, JSValue.isNullish]
  | object ps => simp [extractRecommendations, JSValue.prop, h, JSValue.isNullish]

/-- C6, at `{Recommendation: 3}`: the error reports the type `number`. -/
theorem extractRecommendations_unrecognized_witness :
    extractRecommendations (.object [("Recommendation", .number 3)]) =
      .error (.error
        "Recommendation function returned unrecognized type. Expect Array of strings of single string, got number instead") :=
  extractRecommendations_unrecognized [("Recommendation", .number 3)] (.number 3) rfl rfl
    (fun _ h => by cases h) (fun _ h => by cases h)

/-! ## Theorems: engine invoker -/

/-- C7, as stated, fails: when the terminology call rejects, the call with a
missing parameter `Imm` does not fail with the missing-parameter error but
returns null. -/
theorem executeCql_missing_parameter_after_terminology :
    (executeCql sampleEngine samplePatient sampleRule (.object [("FHIRHelpers", .object [])])
      (.object []) (some (sampleCodeService false)) .null).outcome = .ok .null := by
  rfl

/-- C7, amended: for a call with a patient whose identifiers can be read, a rule
whose expected libraries are all supplied and that declares a parameter `P`
without a value in the `parameters` object, the parameters declared before `P`
having values that wrap without error: if the terminology call resolves, the
call fails with `Rule expects parameter "P", but it is undefined` and the engine
is not run; if the terminology call rejects, the call returns null (or a
TypeError when the rule identity cannot be read) instead.  The check follows
the terminology call.  The value of a name is what the read `parameters[name]`
or `libraries[name]` finds, on the object or on its prototype chain: a name such
as `toString` has a value in every object, and `P` is not such a name. -/
theorem executeCql_missing_parameter (engine : Engine)
    (patient rule libraries parameters : JSValue) (service : CodeService)
    (vsacApiKey : JSValue) (patientIds : List JSValue) (expectedLibraries : JSValue)
    (before : List JSValue) (p : JSValue) (after : List JSValue) (resolves : Bool)
    (hpatient : patient.isNullish = false) (hrule : rule.isNullish = false)
    (hids : patientIdsOf patient = .ok patientIds)
    (hlibplan : getListOfExpectedLibraries rule = .ok expectedLibraries)
    (hlibs : ∀ first rest, expectedLibraries = .array (first :: rest) →
      libraries.isNullish = false ∧
      ∀ l ∈ first :: rest, (libraries.read (l.prop "name").toStr).isNullish = false)
    (hservice : ∀ repository,
      service.ensureValueSetsInLibraryWithAPIKey rule repository vsacApiKey = resolves)
    (hplan : getListOfExpectedParameters rule = .ok (.array (before ++ p :: after)))
    (hparameters : parameters.isNullish = false)
    (hbefore : ∀ q ∈ before, (parameters.read (q.prop "name").toStr).isNullish = false ∧
      ∃ calls value, wrapParameter engine.wrap (q.prop "type")
        (parameters.read (q.prop "name").toStr) = (calls, .ok value))
    (hmissing : (parameters.read (p.prop "name").toStr).isNullish = true) :
    (resolves = true →
      (executeCql engine patient rule libraries parameters (some service) vsacApiKey).outcome =
        .error (.error (missingParameterMessage (p.prop "name").toStr)) ∧
      Call.exec ∉
        (executeCql engine patient rule libraries parameters (some service) vsacApiKey).calls) ∧
    (resolves = false →
      (executeCql engine patient rule libraries parameters (some service) vsacApiKey).outcome =
        .ok .null ∨
      (executeCql engine patient rule libraries parameters (some service) vsacApiKey).outcome =
        .error .typeError) := by
  obtain ⟨bundle, hbundle⟩ := createBundle_of_not_nullish patient hpatient
  obtain ⟨libraryObject, hcheck⟩ := checkLibraries_ok expectedLibraries libraries hlibs
  constructor
  · intro hres
    subst hres
    have hmiss := collectParameters_missing engine.wrap parameters before p after [] hbefore
      hmissing
    have hcalls := collectParameters_calls engine.wrap parameters (before ++ p :: after) []
    cases hc : collectParameters engine.wrap parameters (before ++ p :: after) [] with
    | mk wraps r =>
      rw [hc] at hmiss hcalls
      simp only at hmiss hcalls
      subst hmiss
      simp only [executeCql, hpatient, hrule, hids, hbundle, hlibplan, hcheck, hservice,
        runWithParameters, hplan, checkParameters_append _ _ _ _ _ hparameters, hc,
        Bool.false_eq_true, if_false, if_true, true_and]
      intro hmem
      simp only [List.mem_append, List.mem_cons, List.mem_singleton, List.not_mem_nil,
        or_false] at hmem
      rcases hmem with (((h | h) | h) | h) | h
      · cases h
      · cases h
      · cases h
      · cases h
      · obtain ⟨_, h2⟩ := hcalls _ h
        cases h2
  · intro hres
    subst hres
    simp only [executeCql, hpatient, hrule, hids, hbundle, hlibplan, hcheck, hservice,
      Bool.false_eq_true, if_false]
    cases hri : ruleIdentity rule with
    | error e =>
      have he := ruleIdentity_error rule e hri
      subst he
      exact Or.inr rfl
    | ok v => exact Or.inl rfl

/-- C7, at the test call `executeCql(p1, r1, {FHIRHelpers: ...}, {})` with a
terminology service that resolves: the parameter `Imm` is missing. -/
theorem executeCql_missing_parameter_witness :
    (executeCql sampleEngine samplePatient sampleRule (.object [("FHIRHelpers", .object [])])
      (.object []) (some (sampleCodeService true)) .null).outcome =
        .error (.error "Rule expects parameter \"Imm\", but it is undefined") ∧
    Call.exec ∉
      (executeCql sampleEngine samplePatient sampleRule (.object [("FHIRHelpers", .object [])])
        (.object []) (some (sampleCodeService true)) .null).calls :=
  (executeCql_missing_parameter sampleEngine samplePatient sampleRule
    (.object [("FHIRHelpers", .object [])]) (.object []) (sampleCodeService true) .null
    [.string "p1"]
    (.array [.object [("name", .string "FHIRHelpers"), ("path", .string "FHIRHelpers")]])
    []
    (.object [("name", .string "Imm"),
      ("type", .string "ListTypeSpecifier<\x7bhttp://hl7.org/fhir\x7dImmunization>")])
    [] true rfl rfl rfl rfl
    (by
      intro first rest h
      simp only [JSValue.array.injEq, List.cons.injEq] at h
      obtain ⟨h1, h2⟩ := h
      subst h1 h2
      exact ⟨rfl, fun l hl => by
        simp only [List.mem_singleton] at hl
        subst hl
        rfl⟩)
    (fun _ => rfl) rfl rfl (fun _ h => by cases h) rfl).1 rfl

/-- C8, as stated, fails: for the non-null patient `{resourceType: 'Bundle'}`,
which has no entry array, a rule that expects a library and null libraries, the
call fails with a TypeError, not with the missing-libraries error. -/
theorem executeCql_bundle_without_entries :
    (executeCql sampleEngine (.object [("resourceType", .string "Bundle")]) sampleRule .null
      .null (some (sampleCodeService true)) .null).outcome = .error .typeError := by
  rfl

/-- C8, amended: for a call with a patient whose identifiers can be read and a
rule that expects at least one library: null or undefined libraries make the
call fail with `Rule expects libraries, but they are undefined`; otherwise the
first expected library without a value makes it fail with
`Rule expects library "<name>", but it is undefined`; and when every expected
library has a value neither error is raised.  The value of a name is what the
read `libraries[name]` finds, on the object or on its prototype chain: a name
such as `toString` has a value in every object. -/
theorem executeCql_library_check (engine : Engine)
    (patient rule libraries parameters : JSValue) (codeService : Option CodeService)
    (vsacApiKey : JSValue) (patientIds : List JSValue) (first : JSValue) (rest : List JSValue)
    (hpatient : patient.isNullish = false) (hrule : rule.isNullish = false)
    (hids : patientIdsOf patient = .ok patientIds)
    (hplan : getListOfExpectedLibraries rule = .ok (.array (first :: rest))) :
    (libraries.isNullish = true →
      (executeCql engine patient rule libraries parameters codeService vsacApiKey).outcome =
        .error (.error "Rule expects libraries, but they are undefined")) ∧
    (libraries.isNullish = false → ∀ before l after, first :: rest = before ++ l :: after →
      (∀ q ∈ before, (libraries.read (q.prop "name").toStr).isNullish = false) →
      (libraries.read (l.prop "name").toStr).isNullish = true →
      (executeCql engine patient rule libraries parameters codeService vsacApiKey).outcome =
        .error (.error (missingLibraryMessage (l.prop "name").toStr))) ∧
    (libraries.isNullish = false →
      (∀ q ∈ first :: rest, (libraries.read (q.prop "name").toStr).isNullish = false) →
      (executeCql engine patient rule libraries parameters codeService vsacApiKey).outcome ≠
        .error (.error "Rule expects libraries, but they are undefined") ∧
      ∀ name,
        (executeCql engine patient rule libraries parameters codeService vsacApiKey).outcome ≠
          .error (.error (missingLibraryMessage name))) := by
  obtain ⟨bundle, hbundle⟩ := createBundle_of_not_nullish patient hpatient
  refine ⟨?_, ?_, ?_⟩
  · intro hnull
    simp [executeCql, hpatient, hrule, hids, hbundle, hplan, checkLibraries, hnull]
  · intro hnull before l after hsplit hbefore hl
    have hc := collectLibraries_missing libraries before l after [] hbefore hl
    rw [← hsplit] at hc
    simp [executeCql, hpatient, hrule, hids, hbundle, hplan, checkLibraries, hnull, hc]
  · intro hnull hall
    have hcases := executeCql_error engine patient rule libraries parameters codeService
      vsacApiKey
    constructor
    · intro h
      rcases hcases _ h with h2 | h2 | h2 | h2 | h2 | h2 | h2 | h2 | h2
      · simp at h2
      · simp at h2
      · cases h2
      · obtain ⟨_, h3⟩ := h2
        cases h3
      · obtain ⟨t, h3⟩ := h2
        exact (checkMessages_ne_unrecognized t "").1 (by simpa using h3)
      · rw [hnull] at h2
        simp at h2
      · obtain ⟨first2, rest2, l, hplan2, hl, hn, _⟩ := h2
        rw [hplan] at hplan2
        simp only [Except.ok.injEq, JSValue.array.injEq] at hplan2
        rw [← hplan2] at hl
        rw [hall l hl] at hn
        cases hn
      · simp at h2
      · obtain ⟨_, _, p, _, _, _, h3⟩ := h2
        exact (missingMessages_ne_fixed _).2.2.2.2.2.2.1 (by simpa using h3.symm)
    · intro name h
      rcases hcases _ h with h2 | h2 | h2 | h2 | h2 | h2 | h2 | h2 | h2
      · exact (missingMessages_ne_fixed name).1 (by simpa using h2.1)
      · exact (missingMessages_ne_fixed name).2.1 (by simpa using h2.1)
      · cases h2
      · obtain ⟨_, h3⟩ := h2
        cases h3
      · obtain ⟨t, h3⟩ := h2
        exact (checkMessages_ne_unrecognized t name).2.2.1 (by simpa using h3)
      · rw [hnull] at h2
        simp at h2
      · obtain ⟨first2, rest2, l, hplan2, hl, hn, _⟩ := h2
        rw [hplan] at hplan2
        simp only [Except.ok.injEq, JSValue.array.injEq] at hplan2
        rw [← hplan2] at hl
        rw [hall l hl] at hn
        cases hn
      · exact (missingMessages_ne_fixed name).2.2.2.1 (by simpa using h2.1)
      · obtain ⟨_, _, p, _, _, _, h3⟩ := h2
        exact missingLibraryMessage_ne_parameter name _ (by simpa using h3)

/-- C8, at the test call `executeCql(p1, r1, {}, {})`: the expected library
`FHIRHelpers` has no value in the empty `libraries`; and at the same call for a
rule whose expected library is named `toString`: the empty `libraries` inherits
a value of that name, and the missing-library error is not raised. -/
theorem executeCql_library_check_witness :
    (executeCql sampleEngine samplePatient sampleRule (.object []) (.object [])
      (some (sampleCodeService true)) .null).outcome =
        .error (.error "Rule expects library \"FHIRHelpers\", but it is undefined") ∧
    (executeCql sampleEngine samplePatient inheritedNameRule (.object []) (.object [])
      (some (sampleCodeService true)) .null).outcome ≠
        .error (.error "Rule expects library \"toString\", but it is undefined") :=
  ⟨(executeCql_library_check sampleEngine samplePatient sampleRule (.object []) (.object [])
      (some (sampleCodeService true)) .null [.string "p1"]
      (.object [("name", .string "FHIRHelpers"), ("path", .string "FHIRHelpers")]) []
      rfl rfl rfl rfl).2.1 rfl []
      (.object [("name", .string "FHIRHelpers"), ("path", .string "FHIRHelpers")]) [] rfl
      (fun _ h => by cases h) rfl,
    ((executeCql_library_check sampleEngine samplePatient inheritedNameRule (.object [])
      (.object []) (some (sampleCodeService true)) .null [.string "p1"]
      (.object [("name", .string "toString"), ("path", .string "toString")]) []
      rfl rfl rfl rfl).2.2 rfl
      (fun q hq => by
        simp only [List.mem_singleton] at hq
        subst hq
        rfl)).2 "toString"⟩

/-- C9: `executeCql` fails with `Patient is undefined` whenever the patient is
null or undefined, and with `Rule is undefined` whenever the patient is present
and the rule is null or undefined, whatever the other arguments; in both cases
no call to a collaborator is made. -/
theorem executeCql_missing_patient_or_rule (engine : Engine)
    (patient rule libraries parameters : JSValue) (codeService : Option CodeService)
    (vsacApiKey : JSValue) :
    (patient.isNullish = true →
      executeCql engine patient rule libraries parameters codeService vsacApiKey =
        ⟨.error (.error "Patient is undefined"), []⟩) ∧
    (patient.isNullish = false → rule.isNullish = true →
      executeCql engine patient rule libraries parameters codeService vsacApiKey =
        ⟨.error (.error "Rule is undefined"), []⟩) := by
  constructor
  · intro hp
    simp [executeCql, hp]
  · intro hp hr
    simp [executeCql, hp, hr]

/-- C10: for a rule whose library plan and parameter plan are absent or empty,
a call raises none of the missing-library and missing-parameter errors whatever
`libraries` and `parameters` are, in particular when they are undefined or
null, and every parameter object handed to the engine is empty; when the
patient identifiers can be read and the terminology call resolves, the engine
is run with the empty parameter object. -/
theorem executeCql_empty_plans (engine : Engine)
    (patient rule libraries parameters : JSValue) (codeService : Option CodeService)
    (vsacApiKey : JSValue)
    (hlibplan : getListOfExpectedLibraries rule = .ok .undefined ∨
      getListOfExpectedLibraries rule = .ok (.array []))
    (hparplan : getListOfExpectedParameters rule = .ok .undefined ∨
      getListOfExpectedParameters rule = .ok (.array [])) :
    (executeCql engine patient rule libraries parameters codeService vsacApiKey).outcome ≠
      .error (.error "Rule expects libraries, but they are undefined") ∧
    (∀ name,
      (executeCql engine patient rule libraries parameters codeService vsacApiKey).outcome ≠
        .error (.error (missingLibraryMessage name))) ∧
    (executeCql engine patient rule libraries parameters codeService vsacApiKey).outcome ≠
      .error (.error "Rule expects parameters, but they are undefined") ∧
    (∀ name,
      (executeCql engine patient rule libraries parameters codeService vsacApiKey).outcome ≠
        .error (.error (missingParameterMessage name))) ∧
    (∀ paramObject, Call.withParameters paramObject ∈
      (executeCql engine patient rule libraries parameters codeService vsacApiKey).calls →
        paramObject = .object []) ∧
    (∀ patientIds service, patient.isNullish = false → rule.isNullish = false →
      patientIdsOf patient = .ok patientIds → codeService = some service →
      (∀ repository,
        service.ensureValueSetsInLibraryWithAPIKey rule repository vsacApiKey = true) →
      Call.withParameters (.object []) ∈
        (executeCql engine patient rule libraries parameters codeService vsacApiKey).calls ∧
      Call.exec ∈
        (executeCql engine patient rule libraries parameters codeService vsacApiKey).calls) := by
  have hlib2 : ∀ first rest,
      getListOfExpectedLibraries rule ≠ .ok (.array (first :: rest)) := by
    intro first rest h
    rcases hlibplan with h2 | h2 <;> rw [h2] at h <;> simp at h
  have hpar2 : ∀ first rest,
      getListOfExpectedParameters rule ≠ .ok (.array (first :: rest)) := by
    intro first rest h
    rcases hparplan with h2 | h2 <;> rw [h2] at h <;> simp at h
  have hcases := executeCql_error engine patient rule libraries parameters codeService
    vsacApiKey
  refine ⟨?_, ?_, ?_, ?_, ?_, ?_⟩
  · intro h
    rcases hcases _ h with h2 | h2 | h2 | h2 | h2 | h2 | h2 | h2 | h2
    · simp at h2
    · simp at h2
    · cases h2
    · obtain ⟨_, h3⟩ := h2
      cases h3
    · obtain ⟨t, h3⟩ := h2
      exact (checkMessages_ne_unrecognized t "").1 (by simpa using h3)
    · obtain ⟨_, _, first, rest, h3⟩ := h2
      exact hlib2 _ _ h3
    · obtain ⟨first, rest, _, h3, _⟩ := h2
      exact hlib2 _ _ h3
    · obtain ⟨_, _, first, rest, h3⟩ := h2
      exact hpar2 _ _ h3
    · obtain ⟨first, rest, _, h3, _⟩ := h2
      exact hpar2 _ _ h3
  · intro name h
    rcases hcases _ h with h2 | h2 | h2 | h2 | h2 | h2 | h2 | h2 | h2
    · exact (missingMessages_ne_fixed name).1 (by simpa using h2.1)
    · exact (missingMessages_ne_fixed name).2.1 (by simpa using h2.1)
    · cases h2
    · obtain ⟨_, h3⟩ := h2
      cases h3
    · obtain ⟨t, h3⟩ := h2
      exact (checkMessages_ne_unrecognized t name).2.2.1 (by simpa using h3)
    · obtain ⟨_, _, first, rest, h3⟩ := h2
      exact hlib2 _ _ h3
    · obtain ⟨first, rest, _, h3, _⟩ := h2
      exact hlib2 _ _ h3
    · obtain ⟨_, _, first, rest, h3⟩ := h2
      exact hpar2 _ _ h3
    · obtain ⟨first, rest, _, h3, _⟩ := h2
      exact hpar2 _ _ h3
  · intro h
    rcases hcases _ h with h2 | h2 | h2 | h2 | h2 | h2 | h2 | h2 | h2
    · simp at h2
    · simp at h2
    · cases h2
    · obtain ⟨_, h3⟩ := h2
      cases h3
    · obtain ⟨t, h3⟩ := h2
      exact (checkMessages_ne_unrecognized t "").2.1 (by simpa using h3)
    · obtain ⟨_, _, first, rest, h3⟩ := h2
      exact hlib2 _ _ h3
    · obtain ⟨first, rest, _, h3, _⟩ := h2
      exact hlib2 _ _ h3
    · obtain ⟨_, _, first, rest, h3⟩ := h2
      exact hpar2 _ _ h3
    · obtain ⟨first, rest, _, h3, _⟩ := h2
      exact hpar2 _ _ h3
  · intro name h
    rcases hcases _ h with h2 | h2 | h2 | h2 | h2 | h2 | h2 | h2 | h2
    · exact (missingMessages_ne_fixed name).2.2.2.2.1 (by simpa using h2.1)
    · exact (missingMessages_ne_fixed name).2.2.2.2.2.1 (by simpa using h2.1)
    · cases h2
    · obtain ⟨_, h3⟩ := h2
      cases h3
    · obtain ⟨t, h3⟩ := h2
      exact (checkMessages_ne_unrecognized t name).2.2.2 (by simpa using h3)
    · obtain ⟨_, _, first, rest, h3⟩ := h2
      exact hlib2 _ _ h3
    · obtain ⟨first, rest, _, h3, _⟩ := h2
      exact hlib2 _ _ h3
    · obtain ⟨_, _, first, rest, h3⟩ := h2
      exact hpar2 _ _ h3
    · obtain ⟨first, rest, _, h3, _⟩ := h2
      exact hpar2 _ _ h3
  · intro paramObject hmem
    unfold executeCql at hmem
    split at hmem
    · simp at hmem
    · split at hmem
      · simp at hmem
      · split at hmem
        · simp at hmem
        · split at hmem
          · simp at hmem
          · simp only at hmem
            split at hmem
            · simp at hmem
            · split at hmem
              · simp at hmem
              · split at hmem
                · rw [runWithParameters_empty_plan _ _ _ _ _ _ _ hparplan] at hmem
                  cases codeService <;> simpa using hmem
                · split at hmem <;> cases codeService <;> simp at hmem
  · intro patientIds service hpatient hrule hids hservice hresolves
    subst hservice
    obtain ⟨bundle, hbundle⟩ := createBundle_of_not_nullish patient hpatient
    rcases hlibplan with h | h <;>
      simp [executeCql, hpatient, hrule, hids, hbundle, h, checkLibraries, hresolves,
        runWithParameters_empty_plan _ _ _ _ _ _ _ hparplan]

/-- C10, at the call `executeCql(p1, rule, undefined, undefined, codeService)` for a
rule without includes and parameters: no missing-libraries error, and the
engine is run with the empty parameter object. -/
theorem executeCql_empty_plans_witness :
    (executeCql sampleEngine samplePatient plainRule .undefined .undefined
      (some (sampleCodeService true)) .null).outcome ≠
        .error (.error "Rule expects libraries, but they are undefined") ∧
    Call.withParameters (.object []) ∈
      (executeCql sampleEngine samplePatient plainRule .undefined .undefined
        (some (sampleCodeService true)) .null).calls ∧
    Call.exec ∈
      (executeCql sampleEngine samplePatient plainRule .undefined .undefined
        (some (sampleCodeService true)) .null).calls :=
  ⟨(executeCql_empty_plans sampleEngine samplePatient plainRule .undefined .undefined
      (some (sampleCodeService true)) .null (Or.inl rfl) (Or.inl rfl)).1,
    (executeCql_empty_plans sampleEngine samplePatient plainRule .undefined .undefined
      (some (sampleCodeService true)) .null (Or.inl rfl) (Or.inl rfl)).2.2.2.2.2
      [.string "p1"] (sampleCodeService true) rfl rfl rfl rfl (fun _ => rfl)⟩

/-- C11 fails as stated: the patient `p1` and the rule `{library: {}}` pass
the checks (the rule declares no library), the terminology call rejects, and
the call is rejected with a TypeError instead of returning null: the handler
reads `rule.library.identifier.id` for its log line. -/
theorem executeCql_terminology_failure_throws :
    (executeCql sampleEngine samplePatient (.object [("library", .object [])]) .null .null
      (some (sampleCodeService false)) .null).outcome = .error .typeError := rfl

/-- C11, amended: when the patient and the rule are not null, the patient
identifiers can be read, the library check passes and the identity of the rule
(`rule.library.identifier.id`) can be read, a terminology call that fails (the
service rejects, or there is no service) makes `executeCql` return null; the
calls made are the bundle load, the library construction and the terminology
call only, so no executor is created, nothing is wrapped and the engine is not
run. -/
theorem executeCql_terminology_failure (engine : Engine)
    (patient rule libraries parameters : JSValue) (codeService : Option CodeService)
    (vsacApiKey : JSValue) (patientIds : List JSValue) (expectedLibraries : JSValue)
    (libraryObject : List (String × JSValue)) (identity : JSValue × JSValue)
    (hpatient : patient.isNullish = false) (hrule : rule.isNullish = false)
    (hids : patientIdsOf patient = .ok patientIds)
    (hexpected : getListOfExpectedLibraries rule = .ok expectedLibraries)
    (hlibraries : checkLibraries expectedLibraries libraries = .ok libraryObject)
    (hidentity : ruleIdentity rule = .ok identity)
    (hfails : ∀ service repository, codeService = some service →
      service.ensureValueSetsInLibraryWithAPIKey rule repository vsacApiKey = false) :
    (executeCql engine patient rule libraries parameters codeService vsacApiKey).outcome =
      .ok .null ∧
    ∃ bundle repository,
      (executeCql engine patient rule libraries parameters codeService vsacApiKey).calls =
        [Call.loadBundles bundle, Call.newLibrary rule repository] ++
          (match codeService with
            | none => []
            | some _ => [Call.ensureValueSets vsacApiKey]) := by
  obtain ⟨bundle, hbundle⟩ := createBundle_of_not_nullish patient hpatient
  cases codeService with
  | none =>
    constructor
    · simp [executeCql, hpatient, hrule, hids, hbundle, hexpected, hlibraries, hidentity]
    · refine ⟨bundle, (match (JSValue.object libraryObject).prop "length" with
        | .number 0 => none
        | _ => some (.object libraryObject)), ?_⟩
      simp [executeCql, hpatient, hrule, hids, hbundle, hexpected, hlibraries, hidentity]
  | some service =>
    have hf := fun repository => hfails service repository rfl
    constructor
    · simp [executeCql, hpatient, hrule, hids, hbundle, hexpected, hlibraries, hidentity, hf]
    · refine ⟨bundle, (match (JSValue.object libraryObject).prop "length" with
        | .number 0 => none
        | _ => some (.object libraryObject)), ?_⟩
      simp [executeCql, hpatient, hrule, hids, hbundle, hexpected, hlibraries, hidentity, hf]

/-- C11, at the call for patient `p1` and the sample rule with its library
supplied, the terminology service rejecting: the call returns null. -/
theorem executeCql_terminology_failure_witness :
    (executeCql sampleEngine samplePatient sampleRule
      (.object [("FHIRHelpers", .object [])]) .null
      (some (sampleCodeService false)) .null).outcome = .ok .null :=
  (executeCql_terminology_failure sampleEngine samplePatient sampleRule
      (.object [("FHIRHelpers", .object [])]) .null
      (some (sampleCodeService false)) .null [.string "p1"] _ _ _ rfl rfl rfl rfl rfl rfl
      (fun _ _ h => by cases h; rfl)).1

/-! ## Lemmas: rule input planner -/

theorem optProp_eq_prop (v : JSValue) (key : String) : v.optProp key = v.prop key := by
  cases v <;> simp [JSValue.optProp, JSValue.isNullish, JSValue.prop]

theorem prop_of_nullish (v : JSValue) (key : String) (h : v.isNullish = true) :
    v.prop key = .undefined := by
  cases v <;> simp [JSValue.isNullish] at h <;> rfl

theorem expectedLibraryRecords_ok (defs : List JSValue)
    (hwell : ∀ l ∈ defs, l.isNullish = false) :
    expectedLibraryRecords defs =
      .ok (defs.map fun l =>
        .object [("name", l.prop "localIdentifier"), ("path", l.prop "path")]) := by
  induction defs with
  | nil => rfl
  | cons l rest ih =>
    have hl := hwell l (List.mem_cons_self _ _)
    have ih2 := ih fun x hx => hwell x (List.mem_cons_of_mem _ hx)
    simp [expectedLibraryRecords, JSValue.get, hl, ih2]

theorem expectedParameterType_ok (p : JSValue)
    (hp : p.isNullish = false)
    (hspecifier : (p.prop "parameterTypeSpecifier").isNullish = false)
    (hname : ((p.prop "parameterTypeSpecifier").prop "name").isNullish = false ∨
      ((p.prop "parameterTypeSpecifier").prop "elementType").isNullish = false) :
    expectedParameterType p = .ok (parameterTypeOf p) := by
  unfold expectedParameterType parameterTypeOf
  simp only [JSValue.get, hp, hspecifier, Bool.false_eq_true, if_false]
  cases hn : ((p.prop "parameterTypeSpecifier").prop "name").isNullish
  · simp
  · rcases hname with h | h
    · rw [hn] at h; cases h
    · simp [h]

theorem expectedParameterRecords_ok (defs : List JSValue)
    (hwell : ∀ p ∈ defs, p.isNullish = false ∧
      (p.prop "parameterTypeSpecifier").isNullish = false ∧
      (((p.prop "parameterTypeSpecifier").prop "name").isNullish = false ∨
        ((p.prop "parameterTypeSpecifier").prop "elementType").isNullish = false)) :
    expectedParameterRecords defs =
      .ok (defs.map fun p => .object [("name", p.prop "name"), ("type", parameterTypeOf p)]) := by
  induction defs with
  | nil => rfl
  | cons p rest ih =>
    obtain ⟨h1, h2, h3⟩ := hwell p (List.mem_cons_self _ _)
    have ih2 := ih fun x hx => hwell x (List.mem_cons_of_mem _ hx)
    simp [expectedParameterRecords, expectedParameterType_ok p h1 h2 h3, ih2]

theorem chain_not_array (rule : JSValue) (part : String)
    (h : rule.isNullish = true ∨ (rule.prop "library").isNullish = true ∨
      ((rule.prop "library").prop part).isNullish = true) (defs : List JSValue) :
    ((rule.prop "library").prop part).prop "def" ≠ .array defs := by
  intro hd
  rcases h with h | h | h
  · rw [prop_of_nullish rule _ h] at hd
    cases hd
  · rw [prop_of_nullish _ part h] at hd
    cases hd
  · rw [prop_of_nullish _ "def" h] at hd
    cases hd

theorem getListOfExpectedParameters_undefined_iff (rule : JSValue) :
    getListOfExpectedParameters rule = .ok .undefined ↔
      ∀ defs, ((rule.prop "library").prop "parameters").prop "def" ≠ .array defs := by
  unfold getListOfExpectedParameters
  simp only [optProp_eq_prop]
  constructor
  · intro h defs hd
    rw [hd] at h
    simp only at h
    cases hr : expectedParameterRecords defs <;> rw [hr] at h <;> simp at h
  · intro h
    split
    · next defs hd => exact absurd hd (h defs)
    · rfl

theorem getListOfExpectedLibraries_undefined_iff (rule : JSValue) :
    getListOfExpectedLibraries rule = .ok .undefined ↔
      ∀ defs, ((rule.prop "library").prop "includes").prop "def" ≠ .array defs := by
  unfold getListOfExpectedLibraries
  simp only [optProp_eq_prop]
  constructor
  · intro h defs hd
    rw [hd] at h
    simp only at h
    cases hr : expectedLibraryRecords defs <;> rw [hr] at h <;> simp at h
  · intro h
    split
    · next defs hd => exact absurd hd (h defs)
    · rfl

/-! ## Theorems: rule input planner -/

/-- C12: for a rule whose `library.parameters.def` is an array of declarations
that each carry a parameter type specifier with a name or an element type,
`getListOfExpectedParameters` returns as many records, in declaration order;
the i-th record holds the name of the i-th declaration and, as type, the name
of its specifier when that is not null or undefined, and otherwise the string
`type + '<' + elementType.name + '>'` of the specifier. -/
theorem getListOfExpectedParameters_records (rule : JSValue) (defs : List JSValue)
    (hdef : ((rule.prop "library").prop "parameters").prop "def" = .array defs)
    (hwell : ∀ p ∈ defs, p.isNullish = false ∧
      (p.prop "parameterTypeSpecifier").isNullish = false ∧
      (((p.prop "parameterTypeSpecifier").prop "name").isNullish = false ∨
        ((p.prop "parameterTypeSpecifier").prop "elementType").isNullish = false)) :
    ∃ records : List JSValue, getListOfExpectedParameters rule = .ok (.array records) ∧
      records.length = defs.length ∧
      ∀ (i : Nat) (p : JSValue), defs[i]? = some p →
        ∃ type : JSValue,
          records[i]? = some (.object [("name", p.prop "name"), ("type", type)]) ∧
          (((p.prop "parameterTypeSpecifier").prop "name").isNullish = false →
            type = (p.prop "parameterTypeSpecifier").prop "name") ∧
          (((p.prop "parameterTypeSpecifier").prop "name").isNullish = true →
            type = .string (((p.prop "parameterTypeSpecifier").prop "type").toStr ++ "<" ++
              (((p.prop "parameterTypeSpecifier").prop "elementType").prop "name").toStr
                ++ ">")) := by
  refine ⟨defs.map fun p => .object [("name", p.prop "name"), ("type", parameterTypeOf p)],
    ?_, by simp, ?_⟩
  · simp [getListOfExpectedParameters, optProp_eq_prop, hdef,
      expectedParameterRecords_ok defs hwell]
  · intro i p hp
    refine ⟨parameterTypeOf p, by simp [hp], ?_, ?_⟩
    · intro h
      simp [parameterTypeOf, h]
    · intro h
      simp [parameterTypeOf, h]

/-- C12, at the rule of the planner test: the records are
`{name: 'par1', type: 'Number'}` and `{name: 'par2', type: 'Array<String>'}`. -/
theorem getListOfExpectedParameters_records_witness :
    ∃ records : List JSValue,
      getListOfExpectedParameters parameterRule = .ok (.array records) ∧
      records.length = 2 ∧
      records[0]? = some (.object [("name", .string "par1"), ("type", .string "Number")]) ∧
      records[1]? =
        some (.object [("name", .string "par2"), ("type", .string "Array<String>")]) := by
  obtain ⟨records, h1, h2, h3⟩ := getListOfExpectedParameters_records parameterRule _ rfl
    (by
      intro p hp
      simp only [List.mem_cons, List.mem_singleton, List.not_mem_nil, or_false] at hp
      rcases hp with rfl | rfl
      · exact ⟨rfl, rfl, Or.inl rfl⟩
      · exact ⟨rfl, rfl, Or.inr rfl⟩)
  refine ⟨records, h1, h2, ?_, ?_⟩
  · obtain ⟨type, h4, h5, _⟩ := h3 0 _ rfl
    rw [h4, h5 rfl]
    rfl
  · obtain ⟨type, h4, _, h5⟩ := h3 1 _ rfl
    rw [h4, h5 rfl]
    rfl

/-- C13: for a rule whose `library.includes.def` is an array of include
declarations (values that are not null or undefined),
`getListOfExpectedLibraries` returns as many records, in declaration order, the
i-th being `{name: localIdentifier, path: path}` of the i-th declaration. -/
theorem getListOfExpectedLibraries_records (rule : JSValue) (defs : List JSValue)
    (hdef : ((rule.prop "library").prop "includes").prop "def" = .array defs)
    (hwell : ∀ l ∈ defs, l.isNullish = false) :
    ∃ records : List JSValue, getListOfExpectedLibraries rule = .ok (.array records) ∧
      records.length = defs.length ∧
      ∀ (i : Nat) (l : JSValue), defs[i]? = some l →
        records[i]? =
          some (.object [("name", l.prop "localIdentifier"), ("path", l.prop "path")]) := by
  refine ⟨defs.map fun l =>
    .object [("name", l.prop "localIdentifier"), ("path", l.prop "path")], ?_, by simp, ?_⟩
  · simp [getListOfExpectedLibraries, optProp_eq_prop, hdef,
      expectedLibraryRecords_ok defs hwell]
  · intro i l hl
    simp [hl]

/-- C13, at the rule of the planner test: the records are those of `lib1` and
`lib2`, in that order. -/
theorem getListOfExpectedLibraries_records_witness :
    ∃ records : List JSValue,
      getListOfExpectedLibraries includeRule = .ok (.array records) ∧
      records.length = 2 ∧
      records[0]? =
        some (.object [("name", .string "lib1"), ("path", .string "/path/to/lib1")]) ∧
      records[1]? =
        some (.object [("name", .string "lib2"), ("path", .string "/path/to/lib2")]) := by
  obtain ⟨records, h1, h2, h3⟩ := getListOfExpectedLibraries_records includeRule _ rfl
    (by
      intro l hl
      simp only [List.mem_cons, List.mem_singleton, List.not_mem_nil, or_false] at hl
      rcases hl with rfl | rfl <;> rfl)
  exact ⟨records, h1, h2, h3 0 _ rfl, h3 1 _ rfl⟩

/-- C14: each planner returns undefined exactly when the rule, its library, the
section (`parameters`, respectively `includes`) or the `def` of the section is
absent, or `def` is not an array; for an empty `def` array it returns the empty
list.  In all these cases the result is a value, not an exception. -/
theorem planners_undefined_exactly (rule : JSValue) :
    (getListOfExpectedParameters rule = .ok .undefined ↔
      (rule.isNullish = true ∨ (rule.prop "library").isNullish = true ∨
        ((rule.prop "library").prop "parameters").isNullish = true ∨
        ∀ defs, ((rule.prop "library").prop "parameters").prop "def" ≠ .array defs)) ∧
    (getListOfExpectedLibraries rule = .ok .undefined ↔
      (rule.isNullish = true ∨ (rule.prop "library").isNullish = true ∨
        ((rule.prop "library").prop "includes").isNullish = true ∨
        ∀ defs, ((rule.prop "library").prop "includes").prop "def" ≠ .array defs)) ∧
    (((rule.prop "library").prop "parameters").prop "def" = .array [] →
      getListOfExpectedParameters rule = .ok (.array [])) ∧
    (((rule.prop "library").prop "includes").prop "def" = .array [] →
      getListOfExpectedLibraries rule = .ok (.array [])) := by
  refine ⟨?_, ?_, ?_, ?_⟩
  · rw [getListOfExpectedParameters_undefined_iff]
    constructor
    · intro h
      exact Or.inr (Or.inr (Or.inr h))
    · rintro (h | h | h | h)
      · exact chain_not_array rule _ (Or.inl h)
      · exact chain_not_array rule _ (Or.inr (Or.inl h))
      · exact chain_not_array rule _ (Or.inr (Or.inr h))
      · exact h
  · rw [getListOfExpectedLibraries_undefined_iff]
    constructor
    · intro h
      exact Or.inr (Or.inr (Or.inr h))
    · rintro (h | h | h | h)
      · exact chain_not_array rule _ (Or.inl h)
      · exact chain_not_array rule _ (Or.inr (Or.inl h))
      · exact chain_not_array rule _ (Or.inr (Or.inr h))
      · exact h
  · intro h
    simp [getListOfExpectedParameters, optProp_eq_prop, h, expectedParameterRecords]
  · intro h
    simp [getListOfExpectedLibraries, optProp_eq_prop, h, expectedLibraryRecords]

/-! ## Lemmas: reference resolution -/

theorem lastIndexOfFrom_last (p : Char) (pre rest : List Char) (i : Nat) (found : Int)
    (h : p ∉ rest) :
    lastIndexOfFrom [p] (pre ++ p :: rest) i found = ((i + pre.length : Nat) : Int) := by
  induction pre generalizing i found with
  | nil =>
    simp [lastIndexOfFrom, List.isPrefixOf, lastIndexOfFrom_head_not_mem p [] rest _ _ h]
  | cons c pre ih =>
    show lastIndexOfFrom [p] (c :: (pre ++ p :: rest)) i found = _
    rw [lastIndexOfFrom, ih, List.length_cons]
    congr 1
    omega

theorem substring_from_last (pre id : String) (h : '/' ∉ id.data) :
    substring (pre ++ "/" ++ id) (lastIndexOf (pre ++ "/" ++ id) "/") = "/" ++ id := by
  have hdata : (pre ++ "/" ++ id).data = pre.data ++ '/' :: id.data := by
    simp [String.data_append]
  have hpat : "/".data = ['/'] := rfl
  unfold substring lastIndexOf
  rw [hdata, hpat, lastIndexOfFrom_last '/' pre.data id.data 0 (-1) h]
  simp
  rfl

theorem setProp_same (key : String) (value : JSValue) (props : List (String × JSValue))
    (h : findProp key props = some value) : setProp key value props = props := by
  induction props with
  | nil => simp [findProp] at h
  | cons p rest ih =>
    obtain ⟨k, v⟩ := p
    by_cases hk : k = key
    · simp only [findProp, hk, if_true, Option.some.injEq] at h
      simp [setProp, hk, h]
    · simp only [findProp, hk, if_false] at h
      simp [setProp, hk, ih h]

theorem storeResource_same (entry : JSValue) :
    storeResource entry (entry.prop "resource") = entry := by
  cases entry with
  | object props =>
    cases hf : findProp "resource" props with
    | none => simp [storeResource, hf]
    | some v => simp [storeResource, hf, JSValue.prop, setProp_same _ _ _ hf]
  | _ => rfl

theorem storeEntries_same (res : JSValue) (entries : List JSValue)
    (h : res.prop "entry" = .array entries) : storeEntries res entries = res := by
  cases res with
  | object props =>
    cases hf : findProp "entry" props with
    | none => simp [storeEntries, hf]
    | some v =>
      have hv : v = .array entries := by simpa [JSValue.prop, hf] using h
      subst hv
      simp [storeEntries, hf, setProp_same _ _ _ hf]
  | _ => rfl

theorem truthy_of_prop_array (res : JSValue) (key : String) (entries : List JSValue)
    (hkey : arrayIndex key = none) (hlength : key ≠ "length")
    (h : res.prop key = .array entries) : res.truthy = true := by
  cases res with
  | object props => rfl
  | array items => rfl
  | string s => simp [JSValue.prop, hkey, hlength] at h
  | undefined => simp [JSValue.prop] at h
  | null => simp [JSValue.prop] at h
  | bool b => simp [JSValue.prop] at h
  | number n => simp [JSValue.prop] at h

theorem not_nullish_of_prop (v : JSValue) (key : String)
    (h : (v.prop key).isNullish = false) : v.isNullish = false := by
  cases hv : v.isNullish
  · rfl
  · rw [prop_of_nullish v key hv] at h
    cases h

theorem resolveEntries_unchanged (recur : JSValue → JSValue → Option FetchRun) (host : Host)
    (mapping : JSValue) (callsOf : JSValue → List FetchCall) (entries : List JSValue)
    (h : ∀ entry ∈ entries, entry.isNullish = false ∧
      resolveKeys recur host mapping (objectKeys mapping) (entry.prop "resource") =
        some (callsOf entry, .ok (entry.prop "resource"))) :
    resolveEntries recur host mapping entries = some (entries.flatMap callsOf, .ok entries) := by
  induction entries with
  | nil => rfl
  | cons entry rest ih =>
    obtain ⟨h1, h2⟩ := h entry (List.mem_cons_self _ _)
    have ih2 := ih fun x hx => h x (List.mem_cons_of_mem _ hx)
    simp [resolveEntries, JSValue.get, h1, h2, ih2, storeResource_same]

theorem resolveEntries_cons_unchanged (recur : JSValue → JSValue → Option FetchRun)
    (host : Host) (mapping entry : JSValue) (rest : List JSValue) (cs : List FetchCall)
    (hentry : entry.isNullish = false)
    (hkeys : resolveKeys recur host mapping (objectKeys mapping) (entry.prop "resource") =
      some (cs, .ok (entry.prop "resource"))) :
    resolveEntries recur host mapping (entry :: rest) =
      match resolveEntries recur host mapping rest with
      | none => none
      | some (more, .error e) => some (cs ++ more, .error e)
      | some (more, .ok rest2) => some (cs ++ more, .ok (entry :: rest2)) := by
  simp only [resolveEntries, JSValue.get, hentry, hkeys, storeResource_same,
    Bool.false_eq_true, if_false]

theorem resolveReference_skip (recur : JSValue → JSValue → Option FetchRun) (host : Host)
    (resource : JSValue) (reference : String) (fieldMapping : JSValue)
    (hresource : resource.isNullish = false)
    (hmapping : fieldMapping.isNullish = false)
    (h : (resource.prop reference).isNullish = true ∨
      (resource.prop (fieldMapping.prop "field").toStr).isNullish = false) :
    resolveReference recur host resource reference fieldMapping = some ([], .ok resource) := by
  unfold resolveReference
  simp only [JSValue.get, hresource, hmapping, Bool.false_eq_true, if_false]
  rcases h with h | h
  · simp [h]
  · cases hs : (resource.prop reference).isNullish <;> simp [h]

theorem resolveReference_url_failure (recur : JSValue → JSValue → Option FetchRun)
    (host : Host) (resource : JSValue) (reference : String) (fieldMapping : JSValue)
    (hresource : resource.isNullish = false)
    (hmapping : fieldMapping.isNullish = false)
    (hpresent : (resource.prop reference).isNullish = false)
    (htarget : (resource.prop (fieldMapping.prop "field").toStr).isNullish = true)
    (hurl : isURL ((resource.prop reference).prop "reference") = true)
    (hfails : (∃ e, host.fetch ((resource.prop reference).prop "reference").toStr .get =
        .error e) ∨
      ∃ response e, host.fetch ((resource.prop reference).prop "reference").toStr .get =
        .ok response ∧ response.json = .error e) :
    resolveReference recur host resource reference fieldMapping =
        some ([.get ((resource.prop reference).prop "reference").toStr], .ok resource) ∨
      resolveReference recur host resource reference fieldMapping =
        some ([.get ((resource.prop reference).prop "reference").toStr, .json],
          .ok resource) := by
  unfold resolveReference
  simp only [JSValue.get, hresource, hmapping, hpresent, htarget, hurl, Bool.false_eq_true,
    if_false, Bool.not_true]
  rcases hfails with ⟨e, he⟩ | ⟨response, e, hr, he⟩
  · left
    simp [he]
  · right
    simp [hr, he]

theorem objectKeys_medicationReferenceMapping :
    objectKeys medicationReferenceMapping = ["medicationReference"] := rfl

theorem resolveKeys_single (recur : JSValue → JSValue → Option FetchRun) (host : Host)
    (mapping : JSValue) (reference : String) (resource : JSValue) (calls : List FetchCall)
    (outcome : Except JSError JSValue)
    (h : resolveReference recur host resource reference (mapping.prop reference) =
      some (calls, outcome)) :
    resolveKeys recur host mapping [reference] resource = some (calls, outcome) := by
  cases outcome <;> simp [resolveKeys, h]

theorem flatMap_nil_calls (entries : List JSValue) :
    entries.flatMap (fun _ => ([] : List FetchCall)) = [] := by
  induction entries with
  | nil => rfl
  | cons entry rest ih => simp [List.flatMap_cons, ih]

/-! ## Lemmas: resource fetcher -/

theorem route_some (resourceType : JSValue) (endpoint placeholder : String)
    (h : route resourceType = some (endpoint, placeholder)) :
    ∃ t, resourceType = .string t ∧ (t, endpoint, placeholder) ∈ routes := by
  cases resourceType with
  | string t =>
    refine ⟨t, rfl, ?_⟩
    simp only [route, Option.map_eq_some'] at h
    obtain ⟨r, hr, hr2⟩ := h
    have hmem := List.mem_of_find?_eq_some hr
    have hp := List.find?_some hr
    obtain ⟨a, b⟩ := r
    simp only at hr2
    simp only [beq_iff_eq] at hp
    subst hp hr2
    exact hmem
  | _ => simp [route] at h

theorem route_of_mem (t endpoint placeholder : String)
    (h : (t, endpoint, placeholder) ∈ routes) :
    route (.string t) = some (endpoint, placeholder) := by
  simp only [routes, List.mem_cons, Prod.mk.injEq, List.mem_singleton, List.not_mem_nil,
    or_false] at h
  rcases h with ⟨rfl, rfl, rfl⟩ | ⟨rfl, rfl, rfl⟩ | ⟨rfl, rfl, rfl⟩ | ⟨rfl, rfl, rfl⟩ |
    ⟨rfl, rfl, rfl⟩ | ⟨rfl, rfl, rfl⟩ <;> rfl

theorem fetchResource_unrouted (host : Host) (resourceId resourceType : JSValue)
    (h : route resourceType = none) :
    fetchResource host resourceId resourceType =
      ([], .error (.error (unroutableMessage resourceType))) := by
  simp [fetchResource, requestResource, h, JSValue.isNullish]

theorem getFhirResource_of_fetch_error (host : Host) (depth : Nat)
    (resourceId resourceType : JSValue) (calls : List FetchCall) (e : JSError)
    (h : fetchResource host resourceId resourceType = (calls, .error e)) :
    getFhirResource host (depth + 1) resourceId resourceType = some ⟨.error e, calls⟩ := by
  rw [getFhirResource, h]

theorem getFhirResource_of_not_mapped (host : Host) (depth : Nat)
    (resourceId resourceType : JSValue)
    (h : isFhirList resourceType = .ok false ∨
      (isFhirList resourceType = .ok true ∧
        (ReferenceMappings.prop resourceType.toStr).truthy = false)) :
    getFhirResource host (depth + 1) resourceId resourceType =
      some ⟨(fetchResource host resourceId resourceType).2,
        (fetchResource host resourceId resourceType).1⟩ := by
  rw [getFhirResource]
  cases hf : fetchResource host resourceId resourceType with
  | mk calls outcome =>
    cases outcome with
    | error e => rfl
    | ok res =>
      rcases h with h | ⟨h1, h2⟩
      · simp [h]
      · simp [h1, h2]

theorem getFhirResource_without_pass (host : Host) (depth : Nat)
    (resourceId resourceType : JSValue)
    (h : resourceType ≠ .string (ContainerTypes.LIST (.string FhirTypes.MEDICATION_REQUEST))) :
    getFhirResource host (depth + 1) resourceId resourceType =
      some ⟨(fetchResource host resourceId resourceType).2,
        (fetchResource host resourceId resourceType).1⟩ := by
  cases hr : route resourceType with
  | none =>
    rw [getFhirResource_of_fetch_error host depth resourceId resourceType _ _
      (fetchResource_unrouted host resourceId resourceType hr),
      fetchResource_unrouted host resourceId resourceType hr]
  | some r =>
    obtain ⟨endpoint, placeholder⟩ := r
    obtain ⟨t, rfl, hmem⟩ := route_some resourceType endpoint placeholder hr
    simp only [routes, List.mem_cons, Prod.mk.injEq, List.mem_singleton, List.not_mem_nil,
      or_false] at hmem
    rcases hmem with ⟨rfl, -, -⟩ | ⟨rfl, -, -⟩ | ⟨rfl, -, -⟩ | ⟨rfl, -, -⟩ |
      ⟨rfl, -, -⟩ | ⟨rfl, -, -⟩
    · exact getFhirResource_of_not_mapped host depth resourceId _ (Or.inr ⟨rfl, rfl⟩)
    · exact getFhirResource_of_not_mapped host depth resourceId _ (Or.inr ⟨rfl, rfl⟩)
    · exact absurd rfl h
    · exact getFhirResource_of_not_mapped host depth resourceId _ (Or.inr ⟨rfl, rfl⟩)
    · exact getFhirResource_of_not_mapped host depth resourceId _ (Or.inr ⟨rfl, rfl⟩)
    · exact getFhirResource_of_not_mapped host depth resourceId _ (Or.inl rfl)

theorem getFhirResource_pass (host : Host) (depth : Nat) (resourceId : JSValue)
    (calls : List FetchCall) (res : JSValue) (entries : List JSValue)
    (hfetch : fetchResource host resourceId
      (.string (ContainerTypes.LIST (.string FhirTypes.MEDICATION_REQUEST))) = (calls, .ok res))
    (hentry : res.prop "entry" = .array entries) :
    getFhirResource host (depth + 1) resourceId
        (.string (ContainerTypes.LIST (.string FhirTypes.MEDICATION_REQUEST))) =
      match resolveEntries (getFhirResource host depth) host medicationReferenceMapping
          entries with
      | none => none
      | some (more, .error e) => some ⟨.error e, calls ++ more⟩
      | some (more, .ok entries2) => some ⟨.ok (storeEntries res entries2), calls ++ more⟩ := by
  have h1 : isFhirList (.string (ContainerTypes.LIST (.string FhirTypes.MEDICATION_REQUEST))) =
      .ok true := rfl
  have h2 : ReferenceMappings.prop
      (JSValue.string (ContainerTypes.LIST (.string FhirTypes.MEDICATION_REQUEST))).toStr =
        medicationReferenceMapping := rfl
  have h3 : medicationReferenceMapping.truthy = true := rfl
  have h4 : res.truthy = true := truthy_of_prop_array res "entry" entries rfl (by decide) hentry
  have h5 : (JSValue.array entries).truthy = true := rfl
  rw [getFhirResource, hfetch]
  simp only [h1, h2, h3, h4, h5, hentry, iterate, Bool.and_self, if_true]

theorem requestResource_template (host : Host) (resourceId resourceType : JSValue)
    (endpoint placeholder url : String)
    (hroute : route resourceType = some (endpoint, placeholder))
    (haddress : host.address endpoint = .template url) :
    (requestResource host resourceId resourceType).1 =
      [.request (replaceFirst url placeholder resourceId.toStr) endpoint] := by
  simp only [requestResource, hroute, haddress]
  split <;> rfl

theorem requestResource_callable (host : Host) (resourceId resourceType : JSValue)
    (endpoint placeholder : String) (call : JSValue → Except JSError JSValue)
    (hroute : route resourceType = some (endpoint, placeholder))
    (haddress : host.address endpoint = .callable call) :
    (requestResource host resourceId resourceType).1 = [.invoke endpoint resourceId] := by
  simp only [requestResource, hroute, haddress]
  split <;> rfl

theorem fetchResource_calls (host : Host) (resourceId resourceType : JSValue) :
    ∃ more, (fetchResource host resourceId resourceType).1 =
      (requestResource host resourceId resourceType).1 ++ more := by
  unfold fetchResource
  cases requestResource host resourceId resourceType with
  | mk calls outcome =>
    cases outcome with
    | error e => exact ⟨[], by simp⟩
    | ok pair =>
      obtain ⟨response, res⟩ := pair
      simp only
      split
      · split
        · exact ⟨[], by simp⟩
        · split
          · exact ⟨[], by simp⟩
          · split
            · exact ⟨_, rfl⟩
            · exact ⟨_, rfl⟩
      · exact ⟨[], by simp⟩

theorem getFhirResource_calls (host : Host) (depth : Nat) (resourceId resourceType : JSValue)
    (run : FetchRun)
    (h : getFhirResource host (depth + 1) resourceId resourceType = some run) :
    ∃ more, run.calls = (fetchResource host resourceId resourceType).1 ++ more := by
  rw [getFhirResource] at h
  cases hf : fetchResource host resourceId resourceType with
  | mk calls outcome =>
    rw [hf] at h
    cases outcome with
    | error e =>
      simp only [Option.some.injEq] at h
      subst h
      exact ⟨[], by simp⟩
    | ok res =>
      simp only at h
      split at h
      · simp only [Option.some.injEq] at h
        subst h
        exact ⟨[], by simp⟩
      · simp only [Option.some.injEq] at h
        subst h
        exact ⟨[], by simp⟩
      · split at h
        · split at h
          · simp only [Option.some.injEq] at h
            subst h
            exact ⟨[], by simp⟩
          · split at h
            · cases h
            · simp only [Option.some.injEq] at h
              subst h
              exact ⟨_, rfl⟩
            · simp only [Option.some.injEq] at h
              subst h
              exact ⟨_, rfl⟩
        · simp only [Option.some.injEq] at h
          subst h
          exact ⟨[], by simp⟩

theorem sampleHost_configured (bundle : JSValue) (name : String) :
    (sampleHost bundle).address name ≠ .other := by
  intro h
  simp only [sampleHost] at h
  split at h <;> cases h

/-! ## Lemmas: depth of the recursion -/

theorem resolveReference_congr (recur recur2 : JSValue → JSValue → Option FetchRun)
    (host : Host) (resource : JSValue) (reference : String) (fieldMapping : JSValue)
    (h : ∀ id, recur id (fieldMapping.prop "type") = recur2 id (fieldMapping.prop "type")) :
    resolveReference recur host resource reference fieldMapping =
      resolveReference recur2 host resource reference fieldMapping := by
  unfold resolveReference
  simp only [h]

theorem resolveKeys_congr (recur recur2 : JSValue → JSValue → Option FetchRun)
    (host : Host) (mapping : JSValue) (keys : List String) (resource : JSValue)
    (h : ∀ reference ∈ keys, ∀ id,
      recur id ((mapping.prop reference).prop "type") =
        recur2 id ((mapping.prop reference).prop "type")) :
    resolveKeys recur host mapping keys resource =
      resolveKeys recur2 host mapping keys resource := by
  induction keys generalizing resource with
  | nil => rfl
  | cons reference rest ih =>
    have h1 := resolveReference_congr recur recur2 host resource reference
      (mapping.prop reference) (h reference (List.mem_cons_self _ _))
    have ih2 := fun r => ih r fun k hk => h k (List.mem_cons_of_mem _ hk)
    simp only [resolveKeys, h1, ih2]

theorem resolveEntries_congr (recur recur2 : JSValue → JSValue → Option FetchRun)
    (host : Host) (mapping : JSValue) (entries : List JSValue)
    (h : ∀ reference ∈ objectKeys mapping, ∀ id,
      recur id ((mapping.prop reference).prop "type") =
        recur2 id ((mapping.prop reference).prop "type")) :
    resolveEntries recur host mapping entries = resolveEntries recur2 host mapping entries := by
  induction entries with
  | nil => rfl
  | cons entry rest ih =>
    simp only [resolveEntries, ih, resolveKeys_congr recur recur2 host mapping _ _ h]

theorem resolveReference_isSome (recur : JSValue → JSValue → Option FetchRun)
    (host : Host) (resource : JSValue) (reference : String) (fieldMapping : JSValue)
    (h : ∀ id, (recur id (fieldMapping.prop "type")).isSome = true) :
    (resolveReference recur host resource reference fieldMapping).isSome = true := by
  have hne : ∀ id, recur id (fieldMapping.prop "type") ≠ none := by
    intro id hn
    have h2 := h id
    rw [hn] at h2
    cases h2
  unfold resolveReference
  simp only []
  repeat' split
  all_goals first
    | rfl
    | (rename_i hnone
       exact absurd hnone (hne _))

theorem resolveKeys_isSome (recur : JSValue → JSValue → Option FetchRun)
    (host : Host) (mapping : JSValue) (keys : List String) (resource : JSValue)
    (h : ∀ reference ∈ keys, ∀ id,
      (recur id ((mapping.prop reference).prop "type")).isSome = true) :
    (resolveKeys recur host mapping keys resource).isSome = true := by
  induction keys generalizing resource with
  | nil => rfl
  | cons reference rest ih =>
    have h1 := resolveReference_isSome recur host resource reference
      (mapping.prop reference) (h reference (List.mem_cons_self _ _))
    have ih2 := fun r => ih r fun k hk => h k (List.mem_cons_of_mem _ hk)
    unfold resolveKeys
    split
    · next hnone => rw [hnone] at h1; cases h1
    · rfl
    · next calls resource2 _ =>
      have h3 := ih2 resource2
      split
      · next hnone => rw [hnone] at h3; cases h3
      · rfl

theorem resolveEntries_isSome (recur : JSValue → JSValue → Option FetchRun)
    (host : Host) (mapping : JSValue) (entries : List JSValue)
    (h : ∀ reference ∈ objectKeys mapping, ∀ id,
      (recur id ((mapping.prop reference).prop "type")).isSome = true) :
    (resolveEntries recur host mapping entries).isSome = true := by
  induction entries with
  | nil => rfl
  | cons entry rest ih =>
    unfold resolveEntries
    split
    · rfl
    · next resource _ =>
      have h1 := resolveKeys_isSome recur host mapping (objectKeys mapping) resource h
      split
      · next hnone => rw [hnone] at h1; cases h1
      · rfl
      · split
        · next hnone => rw [hnone] at ih; cases ih
        · rfl
        · rfl

theorem medication_without_pass (host : Host) (depth : Nat) (id : JSValue) :
    getFhirResource host (depth + 1) id (.string FhirTypes.MEDICATION) =
      some ⟨(fetchResource host id (.string FhirTypes.MEDICATION)).2,
        (fetchResource host id (.string FhirTypes.MEDICATION)).1⟩ :=
  getFhirResource_of_not_mapped host depth id _ (Or.inl rfl)

theorem getFhirResource_depth (host : Host) (depth : Nat) (resourceId resourceType : JSValue) :
    getFhirResource host (depth + 2) resourceId resourceType =
      getFhirResource host 2 resourceId resourceType := by
  by_cases h : resourceType =
      .string (ContainerTypes.LIST (.string FhirTypes.MEDICATION_REQUEST))
  · subst h
    have hrec : ∀ entries,
        resolveEntries (getFhirResource host (depth + 1)) host medicationReferenceMapping
          entries =
        resolveEntries (getFhirResource host 1) host medicationReferenceMapping entries := by
      intro entries
      apply resolveEntries_congr
      intro reference hmem id
      rw [objectKeys_medicationReferenceMapping, List.mem_singleton] at hmem
      subst hmem
      exact (medication_without_pass host depth id).trans
        (medication_without_pass host 0 id).symm
    have h2 : ReferenceMappings.prop
        (JSValue.string (ContainerTypes.LIST (.string FhirTypes.MEDICATION_REQUEST))).toStr =
          medicationReferenceMapping := rfl
    show getFhirResource host (depth + 1 + 1) _ _ = getFhirResource host (1 + 1) _ _
    rw [getFhirResource, getFhirResource]
    simp only [h2, hrec]
  · rw [getFhirResource_without_pass host (depth + 1) resourceId resourceType h,
      getFhirResource_without_pass host 1 resourceId resourceType h]

theorem getFhirResource_isSome (host : Host) (depth : Nat)
    (resourceId resourceType : JSValue) :
    (getFhirResource host (depth + 2) resourceId resourceType).isSome = true := by
  by_cases h : resourceType =
      .string (ContainerTypes.LIST (.string FhirTypes.MEDICATION_REQUEST))
  · subst h
    have hrec : ∀ entries,
        (resolveEntries (getFhirResource host (depth + 1)) host medicationReferenceMapping
          entries).isSome = true := by
      intro entries
      apply resolveEntries_isSome
      intro reference hmem id
      rw [objectKeys_medicationReferenceMapping, List.mem_singleton] at hmem
      subst hmem
      rw [show (medicationReferenceMapping.prop "medicationReference").prop "type" =
        .string FhirTypes.MEDICATION from rfl, medication_without_pass host depth id]
      rfl
    have h2 : ReferenceMappings.prop
        (JSValue.string (ContainerTypes.LIST (.string FhirTypes.MEDICATION_REQUEST))).toStr =
          medicationReferenceMapping := rfl
    show (getFhirResource host (depth + 1 + 1) _ _).isSome = true
    rw [getFhirResource]
    simp only [h2]
    have hne : ∀ entries,
        resolveEntries (getFhirResource host (depth + 1)) host medicationReferenceMapping
          entries ≠ none := by
      intro entries hn
      have h3 := hrec entries
      rw [hn] at h3
      cases h3
    repeat' split
    all_goals first
      | rfl
      | (rename_i hnone
         exact absurd hnone (hne _))
  · rw [getFhirResource_without_pass host (depth + 1) resourceId resourceType h]
    rfl

/-! ## Theorems: resource fetcher -/

/-- C15: for a reference whose address `pre/id` (no `/` in `id`) is not a URL and
whose target field is empty, the loop body calls `getFhirResource` recursively
with the mapping's target type and with the identifier `/id`: the text from the
last `/` on, the slash included, which is not `id`. -/
theorem resolveReference_opaque_identifier (recur : JSValue → JSValue → Option FetchRun)
    (host : Host) (resource : JSValue) (reference : String) (fieldMapping source : JSValue)
    (pre id : String) (run : FetchRun)
    (hsource : resource.get reference = .ok source)
    (hpresent : source.isNullish = false)
    (hmapping : fieldMapping.isNullish = false)
    (htarget : (resource.prop (fieldMapping.prop "field").toStr).isNullish = true)
    (haddress : source.prop "reference" = .string (pre ++ "/" ++ id))
    (hid : '/' ∉ id.data)
    (hplain : isURL (.string (pre ++ "/" ++ id)) = false)
    (hrun : recur (.string ("/" ++ id)) (fieldMapping.prop "type") = some run) :
    (∃ outcome, resolveReference recur host resource reference fieldMapping =
      some (FetchCall.resolve (.string ("/" ++ id)) (fieldMapping.prop "type") :: run.calls,
        outcome)) ∧
    JSValue.string ("/" ++ id) ≠ .string id := by
  refine ⟨?_, ?_⟩
  case refine_2 =>
    intro h
    injection h with h
    have h2 := congrArg String.length h
    simp only [String.length_append] at h2
    have h3 : "/".length = 1 := rfl
    omega
  have hfield : fieldMapping.get "field" = .ok (fieldMapping.prop "field") := by
    simp [JSValue.get, hmapping]
  unfold resolveReference
  simp only [hsource, hpresent, hfield, htarget, haddress, hplain,
    substring_from_last pre id hid, hrun, Bool.false_eq_true, if_false, Bool.not_true,
    Bool.not_false, if_true]
  obtain ⟨outcome, calls⟩ := run
  cases outcome with
  | error e => exact ⟨_, rfl⟩
  | ok newResource =>
    simp only
    repeat' split
    all_goals exact ⟨_, rfl⟩

/-- C15, at the reference `Medication/123`: the recursive call gets the
identifier `/123`, and the Medication endpoint is asked for
`/medicationById//123`; so does the whole call for the list of
MedicationRequest of `p1`, which fails with the status 404 of that address. -/
theorem resolveReference_opaque_identifier_witness :
    (∃ outcome,
      resolveReference (getFhirResource (sampleHost (requestBundle "Medication/123")) 1)
        (sampleHost (requestBundle "Medication/123"))
        (.object [("medicationReference", .object [("reference", .string "Medication/123")])])
        "medicationReference" (medicationReferenceMapping.prop "medicationReference") =
      some (FetchCall.resolve (.string "/123") (.string FhirTypes.MEDICATION) ::
        [FetchCall.request "/medicationById//123" "medicationById"], outcome)) ∧
    getFhirResource (sampleHost (requestBundle "Medication/123")) 2 (.string "p1")
        (.string (ContainerTypes.LIST (.string FhirTypes.MEDICATION_REQUEST))) =
      some ⟨.error (.error "\x7bhttp://hl7.org/fhir\x7dMedication responded with HTTP 404"),
        [FetchCall.request "/medicationRequestByPatientId/p1" "medicationRequestByPatientId",
          FetchCall.json,
          FetchCall.resolve (.string "/123") (.string FhirTypes.MEDICATION),
          FetchCall.request "/medicationById//123" "medicationById"]⟩ :=
  ⟨(resolveReference_opaque_identifier
    (getFhirResource (sampleHost (requestBundle "Medication/123")) 1)
    (sampleHost (requestBundle "Medication/123"))
    (.object [("medicationReference", .object [("reference", .string "Medication/123")])])
    "medicationReference" (medicationReferenceMapping.prop "medicationReference")
    (.object [("reference", .string "Medication/123")]) "Medication" "123"
    ⟨.error (.error (statusMessage (.string FhirTypes.MEDICATION) 404)),
      [FetchCall.request "/medicationById//123" "medicationById"]⟩
    rfl rfl rfl rfl rfl (by decide) rfl rfl).1, rfl⟩

/-- C16: for a reference whose address is a URL, whose target field is empty and
whose GET and body parse succeed, the loop body stores the parsed body in the
target field and leaves the reference field in the resource with its old value,
whatever the flag `deleteOriginalReference` of the mapping is. -/
theorem resolveReference_url_keeps_reference (recur : JSValue → JSValue → Option FetchRun)
    (host : Host) (props : List (String × JSValue)) (reference : String)
    (fieldMapping source : JSValue) (response : Response) (newResource : JSValue)
    (hsource : findProp reference props = some source)
    (hpresent : source.isNullish = false)
    (hmapping : fieldMapping.isNullish = false)
    (htarget : ((JSValue.object props).prop (fieldMapping.prop "field").toStr).isNullish = true)
    (hurl : isURL (source.prop "reference") = true)
    (hfetch : host.fetch (source.prop "reference").toStr .get = .ok response)
    (hjson : response.json = .ok newResource) :
    resolveReference recur host (.object props) reference fieldMapping =
      some ([.get (source.prop "reference").toStr, .json],
        .ok (.object (setProp (fieldMapping.prop "field").toStr newResource props))) ∧
    (JSValue.object (setProp (fieldMapping.prop "field").toStr newResource props)).prop
      reference = source ∧
    (JSValue.object (setProp (fieldMapping.prop "field").toStr newResource props)).prop
      (fieldMapping.prop "field").toStr = newResource := by
  have hget : (JSValue.object props).get reference = .ok source := by
    simp [JSValue.get, JSValue.isNullish, JSValue.prop, hsource]
  have hne : ¬ reference = (fieldMapping.prop "field").toStr := by
    intro h
    rw [← h, prop_object_of_findProp props reference source hsource, hpresent] at htarget
    cases htarget
  refine ⟨?_, ?_, ?_⟩
  · have hfield : fieldMapping.get "field" = .ok (fieldMapping.prop "field") := by
      simp [JSValue.get, hmapping]
    unfold resolveReference
    simp only [hget, hpresent, hfield, htarget, hurl, hfetch, hjson,
      Bool.false_eq_true, if_false, Bool.not_true, assignStrict, assign]
  · apply prop_object_of_findProp
    rw [findProp_setProp, if_neg hne, hsource]
  · apply prop_object_of_findProp
    rw [findProp_setProp, if_pos rfl]

/-- C16, at the reference `http://fhir.example/Medication/123` under the
configured mapping of `medicationReference` (flag true): after the step the
resource still holds `medicationReference`; so does the bundle that the whole
call returns for the list of MedicationRequest of `p1`. -/
theorem resolveReference_url_keeps_reference_witness :
    resolveReference
        (getFhirResource (sampleHost (requestBundle "http://fhir.example/Medication/123")) 1)
        (sampleHost (requestBundle "http://fhir.example/Medication/123"))
        (.object [("medicationReference",
          .object [("reference", .string "http://fhir.example/Medication/123")])])
        "medicationReference" (medicationReferenceMapping.prop "medicationReference") =
      some ([.get "http://fhir.example/Medication/123", .json],
        .ok (.object [("medicationReference",
            .object [("reference", .string "http://fhir.example/Medication/123")]),
          ("medicationCodeableConcept", sampleMedication)])) ∧
    getFhirResource (sampleHost (requestBundle "http://fhir.example/Medication/123")) 2
        (.string "p1") (.string (ContainerTypes.LIST (.string FhirTypes.MEDICATION_REQUEST))) =
      some ⟨.ok (.object [("resourceType", .string "Bundle"), ("entry", .array [
          .object [("resource", .object [("resourceType", .string "MedicationRequest"),
            ("id", .string "mr1"),
            ("medicationReference",
              .object [("reference", .string "http://fhir.example/Medication/123")]),
            ("medicationCodeableConcept", sampleMedication)])]])]),
        [FetchCall.request "/medicationRequestByPatientId/p1" "medicationRequestByPatientId",
          FetchCall.json, FetchCall.get "http://fhir.example/Medication/123",
          FetchCall.json]⟩ :=
  ⟨(resolveReference_url_keeps_reference
    (getFhirResource (sampleHost (requestBundle "http://fhir.example/Medication/123")) 1)
    (sampleHost (requestBundle "http://fhir.example/Medication/123"))
    [("medicationReference",
      .object [("reference", .string "http://fhir.example/Medication/123")])]
    "medicationReference" (medicationReferenceMapping.prop "medicationReference")
    (.object [("reference", .string "http://fhir.example/Medication/123")])
    ⟨200, .ok sampleMedication⟩ sampleMedication rfl rfl rfl rfl rfl rfl rfl).1, rfl⟩

/-- C17: let the response for a list of MedicationRequest be a bundle in which
the medication reference of every entry is a URL whose GET or body parse
throws.  Then the loop over the entries leaves each such entry as it is, makes
only the GET (and the body parse) for it and goes on: in front of any further
entries its outcome is that of the remaining entries.  And `getFhirResource`
returns the bundle as it was fetched (every reference field with its old value,
no target field added); each reference was tried with a GET, and nothing else
was called after the bundle was parsed. -/
theorem getFhirResource_url_failure (host : Host) (depth : Nat) (resourceId : JSValue)
    (calls : List FetchCall) (res : JSValue) (entries : List JSValue)
    (hfetch : fetchResource host resourceId
      (.string (ContainerTypes.LIST (.string FhirTypes.MEDICATION_REQUEST))) = (calls, .ok res))
    (hentry : res.prop "entry" = .array entries)
    (hfails : ∀ entry ∈ entries,
      ((entry.prop "resource").prop "medicationReference").isNullish = false ∧
      ((entry.prop "resource").prop "medicationCodeableConcept").isNullish = true ∧
      isURL (medicationReferenceOf entry) = true ∧
      ((∃ e, host.fetch (medicationReferenceOf entry).toStr .get = .error e) ∨
        ∃ response e, host.fetch (medicationReferenceOf entry).toStr .get = .ok response ∧
          response.json = .error e)) :
    (∀ entry ∈ entries, ∀ (recur : JSValue → JSValue → Option FetchRun)
        (rest : List JSValue),
      ∃ cs, (cs = [FetchCall.get (medicationReferenceOf entry).toStr] ∨
          cs = [FetchCall.get (medicationReferenceOf entry).toStr, FetchCall.json]) ∧
        resolveEntries recur host medicationReferenceMapping (entry :: rest) =
          match resolveEntries recur host medicationReferenceMapping rest with
          | none => none
          | some (more, .error e) => some (cs ++ more, .error e)
          | some (more, .ok rest2) => some (cs ++ more, .ok (entry :: rest2))) ∧
    ∃ more,
      getFhirResource host (depth + 1) resourceId
        (.string (ContainerTypes.LIST (.string FhirTypes.MEDICATION_REQUEST))) =
          some ⟨.ok res, calls ++ more⟩ ∧
      (∀ c ∈ more, c = FetchCall.json ∨
        ∃ entry ∈ entries, c = FetchCall.get (medicationReferenceOf entry).toStr) ∧
      ∀ entry ∈ entries, FetchCall.get (medicationReferenceOf entry).toStr ∈ more := by
  have hkeys : ∀ entry ∈ entries, ∀ recur : JSValue → JSValue → Option FetchRun,
      entry.isNullish = false ∧
      ∃ cs, resolveKeys recur host medicationReferenceMapping
          (objectKeys medicationReferenceMapping) (entry.prop "resource") =
            some (cs, .ok (entry.prop "resource")) ∧
        (cs = [FetchCall.get (medicationReferenceOf entry).toStr] ∨
          cs = [FetchCall.get (medicationReferenceOf entry).toStr, FetchCall.json]) := by
    intro entry hmem recur
    obtain ⟨h1, h2, h3, h4⟩ := hfails entry hmem
    have h5 := not_nullish_of_prop _ _ h1
    have h6 := not_nullish_of_prop _ _ h5
    refine ⟨h6, ?_⟩
    rw [objectKeys_medicationReferenceMapping]
    rcases resolveReference_url_failure recur host
      (entry.prop "resource") "medicationReference"
      (medicationReferenceMapping.prop "medicationReference") h5 rfl h1 h2 h3 h4 with h | h
    · exact ⟨_, resolveKeys_single _ _ _ _ _ _ _ h, Or.inl rfl⟩
    · exact ⟨_, resolveKeys_single _ _ _ _ _ _ _ h, Or.inr rfl⟩
  obtain ⟨callsOf, hcalls⟩ : ∃ callsOf : JSValue → List FetchCall,
      ∀ entry ∈ entries,
        resolveKeys (getFhirResource host depth) host medicationReferenceMapping
          (objectKeys medicationReferenceMapping) (entry.prop "resource") =
            some (callsOf entry, .ok (entry.prop "resource")) ∧
        (callsOf entry = [FetchCall.get (medicationReferenceOf entry).toStr] ∨
          callsOf entry = [FetchCall.get (medicationReferenceOf entry).toStr, FetchCall.json]) := by
    refine ⟨fun entry =>
      match resolveKeys (getFhirResource host depth) host medicationReferenceMapping
        (objectKeys medicationReferenceMapping) (entry.prop "resource") with
      | some (cs, _) => cs
      | none => [], ?_⟩
    intro entry hmem
    obtain ⟨_, cs, h2, h3⟩ := hkeys entry hmem (getFhirResource host depth)
    simp only [h2]
    exact ⟨trivial, h3⟩
  refine ⟨?_, entries.flatMap callsOf, ?_, ?_, ?_⟩
  · intro entry hmem recur rest
    obtain ⟨h1, cs, h2, h3⟩ := hkeys entry hmem recur
    exact ⟨cs, h3, resolveEntries_cons_unchanged recur host medicationReferenceMapping entry
      rest cs h1 h2⟩
  · rw [getFhirResource_pass host depth resourceId calls res entries hfetch hentry,
      resolveEntries_unchanged (getFhirResource host depth) host medicationReferenceMapping
        callsOf entries fun entry hmem =>
          ⟨(hkeys entry hmem (getFhirResource host depth)).1, (hcalls entry hmem).1⟩]
    simp only [storeEntries_same res entries hentry]
  · intro c hc
    simp only [List.mem_flatMap] at hc
    obtain ⟨entry, hmem, hc⟩ := hc
    rcases (hcalls entry hmem).2 with h | h
    · rw [h, List.mem_singleton] at hc
      exact Or.inr ⟨entry, hmem, hc⟩
    · rw [h] at hc
      simp only [List.mem_cons, List.mem_singleton, List.not_mem_nil, or_false] at hc
      rcases hc with hc | hc
      · exact Or.inr ⟨entry, hmem, hc⟩
      · exact Or.inl hc
  · intro entry hmem
    simp only [List.mem_flatMap]
    refine ⟨entry, hmem, ?_⟩
    rcases (hcalls entry hmem).2 with h | h <;> rw [h] <;> simp

/-- C17, at a bundle whose medication reference
`http://fhir.example/Medication/9` answers with a body that does not parse: the
bundle is returned unchanged after the GET. -/
theorem getFhirResource_url_failure_witness :
    ∃ more,
      getFhirResource (sampleHost (requestBundle "http://fhir.example/Medication/9")) 1
        (.string "p1") (.string (ContainerTypes.LIST (.string FhirTypes.MEDICATION_REQUEST))) =
          some ⟨.ok (requestBundle "http://fhir.example/Medication/9"),
            [FetchCall.request "/medicationRequestByPatientId/p1" "medicationRequestByPatientId",
              FetchCall.json] ++ more⟩ ∧
      FetchCall.get "http://fhir.example/Medication/9" ∈ more := by
  obtain ⟨_, more, h1, _, h3⟩ := getFhirResource_url_failure
    (sampleHost (requestBundle "http://fhir.example/Medication/9")) 0 (.string "p1")
    [FetchCall.request "/medicationRequestByPatientId/p1" "medicationRequestByPatientId",
      FetchCall.json]
    (requestBundle "http://fhir.example/Medication/9") _ rfl rfl
    (by
      intro entry hmem
      simp only [List.mem_singleton] at hmem
      subst hmem
      exact ⟨rfl, rfl, rfl, Or.inr ⟨⟨404, .error (.external "Unexpected end of JSON input")⟩,
        _, rfl, rfl⟩⟩)
  exact ⟨more, h1, h3 _ (List.mem_singleton.mpr rfl)⟩

/-- C18: when the fetched value is a bundle in which the resource of every entry
has a value that is not null at the target field of the configured mapping
(`medicationCodeableConcept`), `getFhirResource` returns it unchanged and makes
no call beyond those of the fetch itself: reference resolution neither fetches
nor deletes. -/
theorem getFhirResource_resolved_bundle (host : Host) (depth : Nat)
    (resourceId resourceType : JSValue) (calls : List FetchCall) (res : JSValue)
    (entries : List JSValue)
    (hfetch : fetchResource host resourceId resourceType = (calls, .ok res))
    (hentry : res.prop "entry" = .array entries)
    (hresolved : ∀ entry ∈ entries,
      ((entry.prop "resource").prop "medicationCodeableConcept").isNullish = false) :
    getFhirResource host (depth + 1) resourceId resourceType = some ⟨.ok res, calls⟩ := by
  by_cases h : resourceType =
      .string (ContainerTypes.LIST (.string FhirTypes.MEDICATION_REQUEST))
  · subst h
    rw [getFhirResource_pass host depth resourceId calls res entries hfetch hentry,
      resolveEntries_unchanged (getFhirResource host depth) host medicationReferenceMapping
        (fun _ => []) entries]
    · simp [flatMap_nil_calls, storeEntries_same res entries hentry]
    · intro entry hmem
      have h1 := hresolved entry hmem
      have h2 := not_nullish_of_prop _ _ h1
      have h3 := not_nullish_of_prop _ _ h2
      refine ⟨h3, ?_⟩
      rw [objectKeys_medicationReferenceMapping]
      exact resolveKeys_single _ _ _ _ _ _ _
        (resolveReference_skip _ _ _ _ _ h2 rfl (Or.inr h1))
  · rw [getFhirResource_without_pass host depth resourceId resourceType h, hfetch]

/-- C18, at a bundle whose entry holds both `medicationReference` and
`medicationCodeableConcept`: it is returned as fetched, after the request and
the body parse only. -/
theorem getFhirResource_resolved_bundle_witness :
    getFhirResource (sampleHost resolvedBundle) 1 (.string "p1")
        (.string (ContainerTypes.LIST (.string FhirTypes.MEDICATION_REQUEST))) =
      some ⟨.ok resolvedBundle,
        [FetchCall.request "/medicationRequestByPatientId/p1" "medicationRequestByPatientId",
          FetchCall.json]⟩ :=
  getFhirResource_resolved_bundle (sampleHost resolvedBundle) 0 (.string "p1")
    (.string (ContainerTypes.LIST (.string FhirTypes.MEDICATION_REQUEST)))
    [FetchCall.request "/medicationRequestByPatientId/p1" "medicationRequestByPatientId",
      FetchCall.json]
    resolvedBundle _ rfl rfl
    (by
      intro entry hmem
      simp only [List.mem_singleton] at hmem
      subst hmem
      rfl)

/-- C19 fails as stated: on a host whose endpoints are all configured,
`patientById` included, `getFhirResource('p1', FhirTypes.PATIENT)` makes no call
and fails with the error for an unroutable type: the `switch` has no case for
Patient. -/
theorem getFhirResource_patient_unrouted :
    getFhirResource (sampleHost (requestBundle "Medication/123")) 1 (.string "p1")
        (.string FhirTypes.PATIENT) =
      some ⟨.error (.error
        "Could not find proper endpoint type for \x7bhttp://hl7.org/fhir\x7dPatient"), []⟩ :=
  rfl

/-- C19, amended: the `switch` has six cases, the five patient lists and the
single Medication, each with its own endpoint; for each of them the first call
is the request to that endpoint (an address template) or the call of its
function, and a function that yields null or undefined ends in the error
`Could not find proper endpoint type for <type>`.  With every endpoint
configured, the call fails with that error before any call is made exactly for
the resource types outside the six. -/
theorem getFhirResource_routing (host : Host) (depth : Nat)
    (resourceId resourceType : JSValue)
    (hconfigured : ∀ name, host.address name ≠ .other) :
    routes.map (fun r => (r.1, r.2.1)) =
      [(ContainerTypes.LIST (.string FhirTypes.IMMUNIZATION), "immunizationByPatientId"),
        (ContainerTypes.LIST (.string FhirTypes.OBSERVATION), "observationByPatientId"),
        (ContainerTypes.LIST (.string FhirTypes.MEDICATION_REQUEST),
          "medicationRequestByPatientId"),
        (ContainerTypes.LIST (.string FhirTypes.MEDICATION_STATEMENT),
          "medicationStatementByPatientId"),
        (ContainerTypes.LIST (.string FhirTypes.CONDITION), "conditionByPatientId"),
        (FhirTypes.MEDICATION, "medicationById")] ∧
    (∀ t endpoint placeholder, (t, endpoint, placeholder) ∈ routes →
      (∀ url, host.address endpoint = .template url →
        (requestResource host resourceId (.string t)).1 =
          [.request (replaceFirst url placeholder resourceId.toStr) endpoint]) ∧
      (∀ call, host.address endpoint = .callable call →
        (requestResource host resourceId (.string t)).1 = [.invoke endpoint resourceId]) ∧
      (∀ call res, host.address endpoint = .callable call → call resourceId = .ok res →
        res.isNullish = true →
        getFhirResource host (depth + 1) resourceId (.string t) =
          some ⟨.error (.error
            ("Could not find proper endpoint type for " ++ (JSValue.string t).toStr)),
            [.invoke endpoint resourceId]⟩)) ∧
    (getFhirResource host (depth + 1) resourceId resourceType =
        some ⟨.error (.error
          ("Could not find proper endpoint type for " ++ resourceType.toStr)), []⟩ ↔
      ∀ r ∈ routes, resourceType ≠ .string r.1) := by
  refine ⟨rfl, ?_, ?_⟩
  · intro t endpoint placeholder hmem
    have hroute := route_of_mem t endpoint placeholder hmem
    refine ⟨?_, ?_, ?_⟩
    · intro url haddress
      exact requestResource_template host resourceId _ endpoint placeholder url hroute haddress
    · intro call haddress
      exact requestResource_callable host resourceId _ endpoint placeholder call hroute haddress
    · intro call res haddress hcall hres
      apply getFhirResource_of_fetch_error
      simp [fetchResource, requestResource, hroute, haddress, hcall, hres, unroutableMessage]
  · constructor
    · intro h r hr heq
      obtain ⟨t, endpoint, placeholder⟩ := r
      simp only at heq
      have hroute := route_of_mem t endpoint placeholder hr
      rw [← heq] at hroute
      obtain ⟨more, hmore⟩ := getFhirResource_calls host depth resourceId resourceType _ h
      obtain ⟨more2, hmore2⟩ := fetchResource_calls host resourceId resourceType
      rw [hmore2] at hmore
      cases haddr : host.address endpoint with
      | template url =>
        rw [requestResource_template host resourceId _ endpoint placeholder url hroute haddr]
          at hmore
        simp at hmore
      | callable call =>
        rw [requestResource_callable host resourceId _ endpoint placeholder call hroute haddr]
          at hmore
        simp at hmore
      | other => exact hconfigured endpoint haddr
    · intro h
      have hroute : route resourceType = none := by
        cases hr : route resourceType with
        | none => rfl
        | some r =>
          obtain ⟨endpoint, placeholder⟩ := r
          obtain ⟨t, ht, hmem⟩ := route_some resourceType endpoint placeholder hr
          exact absurd ht (h _ hmem)
      exact getFhirResource_of_fetch_error host depth resourceId resourceType _ _
        (fetchResource_unrouted host resourceId resourceType hroute)

/-- C19, on the sample host: the list of Condition of `p2` is requested from
`conditionByPatientId`, and the type CodeableConcept is not routed. -/
theorem getFhirResource_routing_witness :
    (requestResource (sampleHost (requestBundle "Medication/123")) (.string "p2")
      (.string (ContainerTypes.LIST (.string FhirTypes.CONDITION)))).1 =
        [.request "/conditionByPatientId/p2" "conditionByPatientId"] ∧
    getFhirResource (sampleHost (requestBundle "Medication/123")) 1 (.string "p2")
        (.string FhirTypes.CODEABLE_CONCEPT) =
      some ⟨.error (.error ("Could not find proper endpoint type for " ++
        (JSValue.string FhirTypes.CODEABLE_CONCEPT).toStr)), []⟩ :=
  ⟨((getFhirResource_routing (sampleHost (requestBundle "Medication/123")) 0 (.string "p2")
      (.string FhirTypes.CODEABLE_CONCEPT) (sampleHost_configured (requestBundle "Medication/123"))).2.1
      (ContainerTypes.LIST (.string FhirTypes.CONDITION)) "conditionByPatientId"
      "\x7b\x7bpatientId\x7d\x7d" (by simp [routes])).1
      "/conditionByPatientId/\x7b\x7bpatientId\x7d\x7d" rfl,
    (getFhirResource_routing (sampleHost (requestBundle "Medication/123")) 0 (.string "p2")
      (.string FhirTypes.CODEABLE_CONCEPT) (sampleHost_configured (requestBundle "Medication/123"))).2.2.mpr
      (by
        intro r hr h
        have h2 : FhirTypes.CODEABLE_CONCEPT = r.1 := by injection h
        simp only [routes, List.mem_cons, List.mem_singleton, List.not_mem_nil, or_false] at hr
        rcases hr with rfl | rfl | rfl | rfl | rfl | rfl <;> exact absurd h2 (by decide))⟩

/-- C20 fails as stated: the request for the list of MedicationRequest of `p1`
is answered with status 200 and a bundle that parses, yet `getFhirResource` does
not return it: the Medication of its reference answers with status 404 and the
call fails with that error. -/
theorem getFhirResource_ok_status_not_body :
    (getFhirResource (sampleHost (requestBundle "Medication/123")) 2 (.string "p1")
        (.string (ContainerTypes.LIST (.string FhirTypes.MEDICATION_REQUEST)))).map
        FetchRun.outcome =
      some (.error (.error "\x7bhttp://hl7.org/fhir\x7dMedication responded with HTTP 404")) ∧
    (sampleHost (requestBundle "Medication/123")).fetch "/medicationRequestByPatientId/p1"
        (.endpoint "medicationRequestByPatientId") =
      .ok ⟨200, .ok (requestBundle "Medication/123")⟩ :=
  ⟨rfl, rfl⟩

/-- C20, amended: for a routed resource type whose endpoint is an address
template and whose request is answered, a status other than 200 makes the call
fail with `<type> responded with HTTP <status>` after the request alone (no
body parse, no reference resolution); with status 200 a body that does not
parse makes the call fail with the parse error, and a parsed body is returned
as it is for every type but the list of MedicationRequest, and for that list
when the body holds no entry list. -/
theorem getFhirResource_template_status (host : Host) (depth : Nat)
    (resourceId resourceType : JSValue) (endpoint placeholder url : String)
    (response : Response)
    (hroute : route resourceType = some (endpoint, placeholder))
    (haddress : host.address endpoint = .template url)
    (hfetch : host.fetch (replaceFirst url placeholder resourceId.toStr) (.endpoint endpoint) =
      .ok response) :
    (response.status ≠ 200 →
      getFhirResource host (depth + 1) resourceId resourceType =
        some ⟨.error (.error (resourceType.toStr ++ " responded with HTTP " ++
            (JSValue.number response.status).toStr)),
          [.request (replaceFirst url placeholder resourceId.toStr) endpoint]⟩) ∧
    (response.status = 200 → ∀ e, response.json = .error e →
      getFhirResource host (depth + 1) resourceId resourceType =
        some ⟨.error e,
          [.request (replaceFirst url placeholder resourceId.toStr) endpoint, .json]⟩) ∧
    (response.status = 200 → ∀ body, response.json = .ok body →
      (resourceType ≠ .string (ContainerTypes.LIST (.string FhirTypes.MEDICATION_REQUEST)) ∨
        body.truthy = false ∨ (body.prop "entry").truthy = false) →
      getFhirResource host (depth + 1) resourceId resourceType =
        some ⟨.ok body,
          [.request (replaceFirst url placeholder resourceId.toStr) endpoint, .json]⟩) := by
  have hrequest : requestResource host resourceId resourceType =
      ([.request (replaceFirst url placeholder resourceId.toStr) endpoint],
        .ok (some response, .null)) := by
    simp only [requestResource, hroute, haddress, hfetch]
  refine ⟨?_, ?_, ?_⟩
  · intro hstatus
    apply getFhirResource_of_fetch_error
    simp [fetchResource, hrequest, JSValue.isNullish, hstatus, statusMessage]
  · intro hstatus e hjson
    apply getFhirResource_of_fetch_error
    simp [fetchResource, hrequest, JSValue.isNullish, hstatus, hjson]
  · intro hstatus body hjson hcase
    have hf : fetchResource host resourceId resourceType =
        ([.request (replaceFirst url placeholder resourceId.toStr) endpoint, .json],
          .ok body) := by
      simp [fetchResource, hrequest, JSValue.isNullish, hstatus, hjson]
    by_cases hmr : resourceType =
        .string (ContainerTypes.LIST (.string FhirTypes.MEDICATION_REQUEST))
    · have hfalsy : body.truthy = false ∨ (body.prop "entry").truthy = false := by
        rcases hcase with h | h
        · exact absurd hmr h
        · exact h
      subst hmr
      have h1 : isFhirList
          (.string (ContainerTypes.LIST (.string FhirTypes.MEDICATION_REQUEST))) =
            .ok true := rfl
      rw [getFhirResource, hf]
      rcases hfalsy with h | h <;> simp [h1, h]
    · rw [getFhirResource_without_pass host depth resourceId resourceType hmr, hf]

/-- C20, on the sample host: the list of Condition of `p2` answers with
status 404. -/
theorem getFhirResource_template_status_witness :
    getFhirResource (sampleHost (requestBundle "Medication/123")) 1 (.string "p2")
        (.string (ContainerTypes.LIST (.string FhirTypes.CONDITION))) =
      some ⟨.error (.error
        "ListTypeSpecifier<\x7bhttp://hl7.org/fhir\x7dCondition> responded with HTTP 404"),
        [.request "/conditionByPatientId/p2" "conditionByPatientId"]⟩ :=
  (getFhirResource_template_status (sampleHost (requestBundle "Medication/123")) 0 (.string "p2")
    (.string (ContainerTypes.LIST (.string FhirTypes.CONDITION))) "conditionByPatientId"
    "\x7b\x7bpatientId\x7d\x7d" "/conditionByPatientId/\x7b\x7bpatientId\x7d\x7d"
    ⟨404, .error (.external "Unexpected end of JSON input")⟩ rfl rfl rfl).1 (by decide)

/-! ## Theorems: bundles and timestamps -/

/-- C21 fails as stated: null is a defined value, and `createBundle(null)` raises
a TypeError on the read of `resource.resourceType` instead of returning a
Bundle. -/
theorem createBundle_null_throws :
    createBundle .null .null = .error .typeError := rfl

/-- C21, amended: for every resource that is neither undefined nor null,
`createBundle` returns the resource itself when its `resourceType` is `'Bundle'`,
and otherwise a Bundle with exactly one entry whose resource is the given one,
with `fullUrl` equal to `url` when `url` is neither null nor undefined and
without `fullUrl` otherwise; so the result is a value whose `resourceType` is
`'Bundle'`, and `createBundle` returns it unchanged, whatever the second
argument. -/
theorem createBundle_normalises (resource url : JSValue)
    (hresource : resource.isNullish = false) :
    ((resource.prop "resourceType").isString "Bundle" = true →
      createBundle resource url = .ok resource) ∧
    ((resource.prop "resourceType").isString "Bundle" = false → url.isNullish = true →
      createBundle resource url =
        .ok (.object [("resourceType", .string "Bundle"),
          ("entry", .array [.object [("resource", resource)]])])) ∧
    ((resource.prop "resourceType").isString "Bundle" = false → url.isNullish = false →
      createBundle resource url =
        .ok (.object [("resourceType", .string "Bundle"),
          ("entry", .array [.object [("resource", resource), ("fullUrl", url)]])])) ∧
    ∃ bundle, createBundle resource url = .ok bundle ∧
      (bundle.prop "resourceType").isString "Bundle" = true ∧
      ∀ url2, createBundle bundle url2 = .ok bundle := by
  have hbundle : ∀ b : JSValue, (b.prop "resourceType").isString "Bundle" = true →
      ∀ u, createBundle b u = .ok b := by
    intro b hb u
    cases b with
    | undefined => simp [JSValue.prop, JSValue.isString] at hb
    | null => simp [JSValue.prop, JSValue.isString] at hb
    | _ => simp [createBundle, hb]
  have hplain : (resource.prop "resourceType").isString "Bundle" = false →
      createBundle resource url =
        if url.isNullish then
          .ok (.object [("resourceType", .string "Bundle"),
            ("entry", .array [.object [("resource", resource)]])])
        else
          .ok (.object [("resourceType", .string "Bundle"),
            ("entry", .array [.object [("resource", resource), ("fullUrl", url)]])]) := by
    intro h
    cases resource <;> simp [JSValue.isNullish] at hresource <;> simp [createBundle, h]
  refine ⟨fun h => hbundle resource h url, ?_, ?_, ?_⟩
  · intro h hu
    rw [hplain h, if_pos hu]
  · intro h hu
    rw [hplain h]
    simp [hu]
  · cases h : (resource.prop "resourceType").isString "Bundle"
    · rw [hplain h]
      cases hu : url.isNullish
      · exact ⟨.object [("resourceType", .string "Bundle"),
          ("entry", .array [.object [("resource", resource), ("fullUrl", url)]])],
          by simp, rfl, hbundle _ rfl⟩
      · exact ⟨.object [("resourceType", .string "Bundle"),
          ("entry", .array [.object [("resource", resource)]])],
          by simp, rfl, hbundle _ rfl⟩
    · exact ⟨resource, hbundle resource h url, h, hbundle resource h⟩

/-- C21, at the Patient `p1` without a url: the Bundle has the one entry
`{resource: p1}`. -/
theorem createBundle_normalises_witness :
    createBundle samplePatient .undefined =
      .ok (.object [("resourceType", .string "Bundle"),
        ("entry", .array [.object [("resource", samplePatient)]])]) :=
  (createBundle_normalises samplePatient .undefined rfl).2.1 rfl rfl

/-- C22: for every clock value, the first three elements of the array that
`getCurrentTimestamp` returns are undefined, not the year, month and day: a Date
object has no properties `year`, `month` and `day`.  The last three are the
hours, minutes and seconds of the local time, within their ranges. -/
theorem getCurrentTimestamp_date_fields (date : JSDate) :
    getCurrentTimestamp date =
      some (.array [.undefined, .undefined, .undefined, .number date.getHours,
        .number date.getMinutes, .number date.getSeconds]) ∧
    (0 ≤ date.getHours ∧ date.getHours < 24) ∧
    (0 ≤ date.getMinutes ∧ date.getMinutes < 60) ∧
    (0 ≤ date.getSeconds ∧ date.getSeconds < 60) := by
  refine ⟨rfl, ?_, ?_, ?_⟩
  · exact ⟨Int.emod_nonneg _ (by decide), Int.emod_lt_of_pos _ (by decide)⟩
  · exact ⟨Int.emod_nonneg _ (by decide), Int.emod_lt_of_pos _ (by decide)⟩
  · exact ⟨Int.emod_nonneg _ (by decide), Int.emod_lt_of_pos _ (by decide)⟩

/-! ## Lemmas: number of recursive calls -/

theorem resolveReference_calls (recur : JSValue → JSValue → Option FetchRun) (host : Host)
    (resource : JSValue) (reference : String) (fieldMapping : JSValue)
    (calls : List FetchCall) (outcome : Except JSError JSValue)
    (h : resolveReference recur host resource reference fieldMapping = some (calls, outcome)) :
    calls = [] ∨
    (∃ url, calls = [FetchCall.get url] ∨ calls = [FetchCall.get url, FetchCall.json]) ∨
    ∃ id run, recur id (fieldMapping.prop "type") = some run ∧
      calls = FetchCall.resolve id (fieldMapping.prop "type") :: run.calls := by
  unfold resolveReference at h
  simp only [] at h
  repeat' split at h
  all_goals
    try simp only [Option.some.injEq, Prod.mk.injEq] at h
  all_goals first
    | (obtain ⟨rfl, rfl⟩ := h
       first
        | exact Or.inl rfl
        | exact Or.inr (Or.inl ⟨_, Or.inl rfl⟩)
        | exact Or.inr (Or.inl ⟨_, Or.inr rfl⟩)
        | exact Or.inr (Or.inr ⟨_, ⟨_, _⟩, ‹_›, rfl⟩))
    | cases h

theorem resolveReference_count (recur : JSValue → JSValue → Option FetchRun) (host : Host)
    (resource : JSValue) (reference : String) (fieldMapping : JSValue)
    (calls : List FetchCall) (outcome : Except JSError JSValue)
    (hrec : ∀ id run, recur id (fieldMapping.prop "type") = some run →
      run.calls.countP FetchCall.isResolve = 0)
    (h : resolveReference recur host resource reference fieldMapping = some (calls, outcome)) :
    calls.countP FetchCall.isResolve ≤ 1 := by
  rcases resolveReference_calls recur host resource reference fieldMapping calls outcome h with
    rfl | ⟨url, rfl | rfl⟩ | ⟨id, run, hrun, rfl⟩
  · simp
  · simp [List.countP_cons, FetchCall.isResolve]
  · simp [List.countP_cons, FetchCall.isResolve]
  · simp [List.countP_cons, FetchCall.isResolve, hrec id run hrun]

theorem resolveKeys_count (recur : JSValue → JSValue → Option FetchRun) (host : Host)
    (mapping : JSValue) (keys : List String) (resource : JSValue)
    (calls : List FetchCall) (outcome : Except JSError JSValue)
    (hrec : ∀ reference ∈ keys, ∀ id run,
      recur id ((mapping.prop reference).prop "type") = some run →
        run.calls.countP FetchCall.isResolve = 0)
    (h : resolveKeys recur host mapping keys resource = some (calls, outcome)) :
    calls.countP FetchCall.isResolve ≤ keys.length := by
  induction keys generalizing resource calls outcome with
  | nil =>
    simp only [resolveKeys, Option.some.injEq, Prod.mk.injEq] at h
    simp [← h.1]
  | cons reference rest ih =>
    have h1 := resolveReference_count recur host resource reference (mapping.prop reference)
    have ih2 := fun r c o => ih r c o fun k hk => hrec k (List.mem_cons_of_mem _ hk)
    unfold resolveKeys at h
    split at h
    · cases h
    · next cs e hr =>
      simp only [Option.some.injEq, Prod.mk.injEq] at h
      have := h1 cs _ (hrec reference (List.mem_cons_self _ _)) hr
      rw [← h.1, List.length_cons]
      omega
    · next cs resource2 hr =>
      have h2 := h1 cs _ (hrec reference (List.mem_cons_self _ _)) hr
      split at h
      · cases h
      · next more r hmore =>
        simp only [Option.some.injEq, Prod.mk.injEq] at h
        have h3 := ih2 resource2 more r hmore
        rw [← h.1, List.countP_append, List.length_cons]
        omega

theorem resolveEntries_count (recur : JSValue → JSValue → Option FetchRun) (host : Host)
    (mapping : JSValue) (entries : List JSValue)
    (calls : List FetchCall) (outcome : Except JSError (List JSValue))
    (hrec : ∀ reference ∈ objectKeys mapping, ∀ id run,
      recur id ((mapping.prop reference).prop "type") = some run →
        run.calls.countP FetchCall.isResolve = 0)
    (h : resolveEntries recur host mapping entries = some (calls, outcome)) :
    calls.countP FetchCall.isResolve ≤ entries.length * (objectKeys mapping).length := by
  induction entries generalizing calls outcome with
  | nil =>
    simp only [resolveEntries, Option.some.injEq, Prod.mk.injEq] at h
    simp [← h.1]
  | cons entry rest ih =>
    unfold resolveEntries at h
    split at h
    · simp only [Option.some.injEq, Prod.mk.injEq] at h
      simp [← h.1]
    · next resource _ =>
      split at h
      · cases h
      · next cs e hk =>
        simp only [Option.some.injEq, Prod.mk.injEq] at h
        have h2 := resolveKeys_count recur host mapping _ resource cs _ hrec hk
        rw [← h.1, List.length_cons, Nat.succ_mul]
        omega
      · next cs resource2 hk =>
        have h2 := resolveKeys_count recur host mapping _ resource cs _ hrec hk
        split at h
        · cases h
        · next more e hmore =>
          simp only [Option.some.injEq, Prod.mk.injEq] at h
          have h3 := ih more _ hmore
          rw [← h.1, List.countP_append, List.length_cons, Nat.succ_mul]
          omega
        · next more rest2 hmore =>
          simp only [Option.some.injEq, Prod.mk.injEq] at h
          have h3 := ih more _ hmore
          rw [← h.1, List.countP_append, List.length_cons, Nat.succ_mul]
          omega

theorem requestResource_count (host : Host) (resourceId resourceType : JSValue) :
    (requestResource host resourceId resourceType).1.countP FetchCall.isResolve = 0 := by
  unfold requestResource
  simp only []
  repeat' split
  all_goals rfl

theorem fetchResource_count (host : Host) (resourceId resourceType : JSValue) :
    (fetchResource host resourceId resourceType).1.countP FetchCall.isResolve = 0 := by
  have h := requestResource_count host resourceId resourceType
  unfold fetchResource
  cases hr : requestResource host resourceId resourceType with
  | mk calls outcome =>
    rw [hr] at h
    simp only at h
    cases outcome with
    | error e => exact h
    | ok pair =>
      obtain ⟨response, res⟩ := pair
      simp only
      repeat' split
      all_goals simp [List.countP_append, h, FetchCall.isResolve]

theorem medication_run_count (host : Host) (depth : Nat) (id : JSValue) (run : FetchRun)
    (h : getFhirResource host (depth + 1) id (.string FhirTypes.MEDICATION) = some run) :
    run.calls.countP FetchCall.isResolve = 0 := by
  rw [medication_without_pass host depth id, Option.some.injEq] at h
  rw [← h]
  exact fetchResource_count host id _

theorem getFhirResource_count (host : Host) (depth : Nat) (resourceId : JSValue)
    (run : FetchRun)
    (h : getFhirResource host (depth + 2) resourceId
      (.string (ContainerTypes.LIST (.string FhirTypes.MEDICATION_REQUEST))) = some run) :
    run.calls.countP FetchCall.isResolve ≤
      entryCount host resourceId
        (.string (ContainerTypes.LIST (.string FhirTypes.MEDICATION_REQUEST))) *
      referenceKeyCount
        (.string (ContainerTypes.LIST (.string FhirTypes.MEDICATION_REQUEST))) := by
  have h1 : isFhirList (.string (ContainerTypes.LIST (.string FhirTypes.MEDICATION_REQUEST))) =
      .ok true := rfl
  have h2 : ReferenceMappings.prop
      (JSValue.string (ContainerTypes.LIST (.string FhirTypes.MEDICATION_REQUEST))).toStr =
        medicationReferenceMapping := rfl
  have hrec : ∀ reference ∈ objectKeys medicationReferenceMapping, ∀ id run,
      getFhirResource host (depth + 1) id
        ((medicationReferenceMapping.prop reference).prop "type") = some run →
        run.calls.countP FetchCall.isResolve = 0 := by
    intro reference hmem id run hrun
    rw [objectKeys_medicationReferenceMapping, List.mem_singleton] at hmem
    subst hmem
    exact medication_run_count host depth id run hrun
  have hcount := fetchResource_count host resourceId
    (.string (ContainerTypes.LIST (.string FhirTypes.MEDICATION_REQUEST)))
  unfold entryCount referenceKeyCount
  rw [h2]
  rw [show depth + 2 = depth + 1 + 1 from rfl, getFhirResource] at h
  cases hf : fetchResource host resourceId
      (.string (ContainerTypes.LIST (.string FhirTypes.MEDICATION_REQUEST))) with
  | mk calls outcome =>
    rw [hf] at h hcount
    simp only at hcount
    cases outcome with
    | error e =>
      simp only [Option.some.injEq] at h
      simp [← h, hcount]
    | ok res =>
      simp only [h1, h2] at h
      split at h
      · split at h
        · simp only [Option.some.injEq] at h
          simp [← h, hcount]
        · next entries hentries =>
          split at h
          · cases h
          · next more e hmore =>
            simp only [Option.some.injEq] at h
            have h3 := resolveEntries_count _ host medicationReferenceMapping entries more _
              hrec hmore
            simp only [← h, List.countP_append, hcount, visitedEntries, hentries]
            omega
          · next more entries2 hmore =>
            simp only [Option.some.injEq] at h
            have h3 := resolveEntries_count _ host medicationReferenceMapping entries more _
              hrec hmore
            simp only [← h, List.countP_append, hcount, visitedEntries, hentries]
            omega
      · simp only [Option.some.injEq] at h
        simp [← h, hcount]

/-- A depth bound of 1 is used up by the recursive call for an opaque reference. -/
theorem getFhirResource_depth_needed :
    getFhirResource (sampleHost (requestBundle "Medication/123")) 1 (.string "p1")
      (.string (ContainerTypes.LIST (.string FhirTypes.MEDICATION_REQUEST))) = none := rfl

/-! ## Theorems: depth of the recursion -/

/-- C23: every target type that `ReferenceMappings` configures is not a list
type, so the call of `getFhirResource` for it is the fetch alone, whatever the
depth bound, and makes no recursive call.  Hence every call of
`getFhirResource` returns with one level of recursive calls (the run with a
larger depth bound is the run with depth bound 2), and the number of its
recursive calls is at most the number of entries of the fetched bundle times
the number of reference keys configured for the resource type. -/
theorem getFhirResource_terminates (host : Host) (depth : Nat)
    (resourceId resourceType : JSValue) :
    (∀ key ∈ objectKeys ReferenceMappings,
      ∀ reference ∈ objectKeys (ReferenceMappings.prop key),
        isFhirList (((ReferenceMappings.prop key).prop reference).prop "type") = .ok false ∧
        ∀ id d,
          getFhirResource host (d + 1) id
              (((ReferenceMappings.prop key).prop reference).prop "type") =
            some ⟨(fetchResource host id
                (((ReferenceMappings.prop key).prop reference).prop "type")).2,
              (fetchResource host id
                (((ReferenceMappings.prop key).prop reference).prop "type")).1⟩ ∧
          (fetchResource host id
            (((ReferenceMappings.prop key).prop reference).prop "type")).1.countP
              FetchCall.isResolve = 0) ∧
    ∃ run, getFhirResource host (depth + 2) resourceId resourceType = some run ∧
      getFhirResource host 2 resourceId resourceType = some run ∧
      run.calls.countP FetchCall.isResolve ≤
        entryCount host resourceId resourceType * referenceKeyCount resourceType := by
  constructor
  · intro key hkey reference href
    have hkeys : objectKeys ReferenceMappings =
        [FhirTypes.MEDICATION_REQUEST,
          ContainerTypes.LIST (.string FhirTypes.MEDICATION_REQUEST)] := rfl
    rw [hkeys] at hkey
    simp only [List.mem_cons, List.mem_singleton, List.not_mem_nil, or_false] at hkey
    have hmap : ReferenceMappings.prop key = medicationReferenceMapping := by
      rcases hkey with rfl | rfl <;> rfl
    rw [hmap, objectKeys_medicationReferenceMapping, List.mem_singleton] at href
    subst href
    rw [hmap]
    refine ⟨rfl, fun id d => ⟨?_, ?_⟩⟩
    · exact medication_without_pass host d id
    · exact fetchResource_count host id _
  · have hsome := getFhirResource_isSome host depth resourceId resourceType
    obtain ⟨run, hrun⟩ := Option.isSome_iff_exists.mp hsome
    refine ⟨run, hrun, ?_, ?_⟩
    · rw [← getFhirResource_depth host depth resourceId resourceType, hrun]
    · by_cases h : resourceType =
          .string (ContainerTypes.LIST (.string FhirTypes.MEDICATION_REQUEST))
      · subst h
        exact getFhirResource_count host depth resourceId run hrun
      · rw [getFhirResource_without_pass host (depth + 1) resourceId resourceType h,
          Option.some.injEq] at hrun
        rw [← hrun]
        simp [fetchResource_count]

/-! ## Lemmas: the pattern of `isURL` -/

theorem mem_suffixesWhile_self (p : Char → Bool) (l : List Char) : l ∈ suffixesWhile p l := by
  cases l <;> simp [suffixesWhile]

theorem mem_ends_text (s : String) (input x : List Char) :
    x ∈ (Regex.text s).ends input ↔ input = s.data ++ x := by
  simp only [Regex.ends]
  constructor
  · intro h
    split at h
    · next hp =>
      rw [List.isPrefixOf_iff_prefix] at hp
      obtain ⟨t, ht⟩ := hp
      simp only [List.mem_singleton] at h
      rw [h, ← ht, List.drop_left]
    · simp at h
  · intro h
    have hp : s.data.isPrefixOf input = true := by
      rw [List.isPrefixOf_iff_prefix, h]
      exact List.prefix_append _ _
    rw [if_pos hp, h, List.drop_left]
    simp

theorem mem_ends_opt_self (r : Regex) (input : List Char) : input ∈ (Regex.opt r).ends input := by
  simp [Regex.ends]

theorem mem_ends_seq (r s : Regex) (input x : List Char) :
    x ∈ (Regex.seq r s).ends input ↔ ∃ m ∈ r.ends input, x ∈ s.ends m := by
  simp [Regex.ends, List.mem_flatMap]

theorem head_of_mem_ends_plus (p : Char → Bool) (input x : List Char)
    (h : x ∈ (Regex.plus p).ends input) : ∃ c rest, input = c :: rest ∧ p c = true := by
  cases input with
  | nil => simp [Regex.ends] at h
  | cons c rest =>
    by_cases hc : p c = true
    · exact ⟨c, rest, rfl, hc⟩
    · simp [Regex.ends, hc] at h

theorem mem_ends_plus_tail (p : Char → Bool) (c : Char) (rest : List Char) (h : p c = true) :
    rest ∈ (Regex.plus p).ends (c :: rest) := by
  simp [Regex.ends, h, mem_suffixesWhile_self]

theorem nonSpace_of_word (c : Char) (h : isWordChar c = true) : isNonSpaceChar c = true := by
  simp only [isWordChar, isDecimalDigit, Bool.or_eq_true, Bool.and_eq_true, decide_eq_true_eq,
    beq_iff_eq] at h
  simp only [isNonSpaceChar, isStrWhiteSpaceChar, Bool.not_eq_true', Bool.or_eq_false_iff,
    beq_eq_false_iff_ne, ne_eq, Bool.and_eq_false_iff, decide_eq_false_iff_not]
  omega

theorem urlRest_matches (input : List Char) :
    (∃ x, x ∈ urlRest.ends input) ↔
      ∃ c rest, input = c :: rest ∧ isNonSpaceChar c = true := by
  constructor
  · rintro ⟨x, hx⟩
    rw [urlRest, mem_ends_seq] at hx
    obtain ⟨m, hm, hx⟩ := hx
    simp only [Regex.ends, List.mem_append, List.mem_singleton] at hm
    rcases hm with hm | rfl
    · rw [List.mem_flatMap] at hm
      obtain ⟨m2, hm2, _⟩ := hm
      obtain ⟨c, rest, hin, hc⟩ := head_of_mem_ends_plus isWordChar input m2 hm2
      exact ⟨c, rest, hin, nonSpace_of_word c hc⟩
    · rw [mem_ends_seq] at hx
      obtain ⟨m2, hm2, _⟩ := hx
      exact head_of_mem_ends_plus isNonSpaceChar _ m2 hm2
  · rintro ⟨c, rest, rfl, hc⟩
    refine ⟨rest, ?_⟩
    rw [urlRest, mem_ends_seq]
    refine ⟨c :: rest, mem_ends_opt_self _ _, ?_⟩
    rw [mem_ends_seq]
    refine ⟨rest, mem_ends_plus_tail _ c rest hc, ?_⟩
    rw [mem_ends_seq]
    exact ⟨rest, mem_ends_opt_self _ _, mem_ends_opt_self _ _⟩

theorem urlPattern_matches (input : List Char) :
    (∃ x, x ∈ urlPattern.ends input) ↔
      ∃ c rest, isNonSpaceChar c = true ∧
        (input = "http://".data ++ c :: rest ∨ input = "https://".data ++ c :: rest) := by
  have hpat : urlPattern =
      .seq (.text "http") (.seq (.opt (.text "s")) (.seq (.text "://") urlRest)) := rfl
  constructor
  · rintro ⟨x, hx⟩
    rw [hpat, mem_ends_seq] at hx
    obtain ⟨m1, h1, hx⟩ := hx
    rw [mem_ends_text] at h1
    rw [mem_ends_seq] at hx
    obtain ⟨m2, h2, hx⟩ := hx
    rw [mem_ends_seq] at hx
    obtain ⟨m3, h3, hx⟩ := hx
    rw [mem_ends_text] at h3
    obtain ⟨c, rest, hm3, hc⟩ := (urlRest_matches m3).mp ⟨x, hx⟩
    refine ⟨c, rest, hc, ?_⟩
    simp only [Regex.ends, List.mem_append, List.mem_singleton] at h2
    rcases h2 with h2 | rfl
    · have h2b : m2 ∈ (Regex.text "s").ends m1 := by simpa [Regex.ends] using h2
      rw [mem_ends_text] at h2b
      right
      rw [h1, h2b, h3, hm3]
      rfl
    · left
      rw [h1, h3, hm3]
      rfl
  · rintro ⟨c, rest, hc, h | h⟩
    · obtain ⟨x, hx⟩ := (urlRest_matches (c :: rest)).mpr ⟨c, rest, rfl, hc⟩
      refine ⟨x, ?_⟩
      rw [hpat, mem_ends_seq]
      refine ⟨"://".data ++ c :: rest, (mem_ends_text _ _ _).mpr (by rw [h]; rfl), ?_⟩
      rw [mem_ends_seq]
      refine ⟨"://".data ++ c :: rest, mem_ends_opt_self _ _, ?_⟩
      rw [mem_ends_seq]
      exact ⟨c :: rest, (mem_ends_text _ _ _).mpr rfl, hx⟩
    · obtain ⟨x, hx⟩ := (urlRest_matches (c :: rest)).mpr ⟨c, rest, rfl, hc⟩
      refine ⟨x, ?_⟩
      rw [hpat, mem_ends_seq]
      refine ⟨"s://".data ++ c :: rest, (mem_ends_text _ _ _).mpr (by rw [h]; rfl), ?_⟩
      rw [mem_ends_seq]
      refine ⟨"://".data ++ c :: rest, ?_, ?_⟩
      · simp only [Regex.ends, List.mem_append, List.mem_singleton]
        left
        simp [Regex.ends]
      · rw [mem_ends_seq]
        exact ⟨c :: rest, (mem_ends_text _ _ _).mpr rfl, hx⟩

theorem isURL_string_iff (s : String) :
    isURL (.string s) = true ↔
      ∃ before c rest, isNonSpaceChar c = true ∧
        (s.data = before ++ "http://".data ++ c :: rest ∨
          s.data = before ++ "https://".data ++ c :: rest) := by
  have hstr : (JSValue.string s).toStr = s := by simp [JSValue.toStr]
  simp only [isURL, hstr, List.any_eq_true, List.mem_tails, Bool.not_eq_true',
    List.isEmpty_eq_false]
  constructor
  · rintro ⟨t, ⟨before, hb⟩, ht⟩
    obtain ⟨x, hx⟩ := List.exists_mem_of_ne_nil _ ht
    obtain ⟨c, rest, hc, h⟩ := (urlPattern_matches t).mp ⟨x, hx⟩
    refine ⟨before, c, rest, hc, ?_⟩
    rcases h with h | h
    · left
      rw [← hb, h, List.append_assoc]
    · right
      rw [← hb, h, List.append_assoc]
  · rintro ⟨before, c, rest, hc, h | h⟩
    · obtain ⟨x, hx⟩ := (urlPattern_matches ("http://".data ++ c :: rest)).mpr
        ⟨c, rest, hc, Or.inl rfl⟩
      refine ⟨"http://".data ++ c :: rest, ⟨before, by rw [h, List.append_assoc]⟩,
        List.ne_nil_of_mem hx⟩
    · obtain ⟨x, hx⟩ := (urlPattern_matches ("https://".data ++ c :: rest)).mpr
        ⟨c, rest, hc, Or.inr rfl⟩
      refine ⟨"https://".data ++ c :: rest, ⟨before, by rw [h, List.append_assoc]⟩,
        List.ne_nil_of_mem hx⟩

theorem resolveReference_url (recur : JSValue → JSValue → Option FetchRun) (host : Host)
    (resource : JSValue) (reference : String) (fieldMapping : JSValue)
    (hresource : resource.isNullish = false)
    (hmapping : fieldMapping.isNullish = false)
    (hpresent : (resource.prop reference).isNullish = false)
    (htarget : (resource.prop (fieldMapping.prop "field").toStr).isNullish = true)
    (hurl : isURL ((resource.prop reference).prop "reference") = true) :
    resolveReference recur host resource reference fieldMapping =
      match host.fetch ((resource.prop reference).prop "reference").toStr .get with
      | .error _ =>
        some ([.get ((resource.prop reference).prop "reference").toStr], .ok resource)
      | .ok response =>
        match response.json with
        | .error _ =>
          some ([.get ((resource.prop reference).prop "reference").toStr, .json],
            .ok resource)
        | .ok newResource =>
          match assignStrict resource (fieldMapping.prop "field").toStr newResource with
          | .error _ =>
            some ([.get ((resource.prop reference).prop "reference").toStr, .json],
              .ok resource)
          | .ok resource2 =>
            some ([.get ((resource.prop reference).prop "reference").toStr, .json],
              .ok resource2) := by
  unfold resolveReference
  simp only [JSValue.get, hresource, hmapping, hpresent, htarget, hurl, Bool.false_eq_true,
    if_false, Bool.not_true]

theorem resolveReference_plain (recur : JSValue → JSValue → Option FetchRun) (host : Host)
    (resource : JSValue) (reference : String) (fieldMapping : JSValue) (s : String)
    (run : FetchRun)
    (hresource : resource.isNullish = false)
    (hmapping : fieldMapping.isNullish = false)
    (hpresent : (resource.prop reference).isNullish = false)
    (htarget : (resource.prop (fieldMapping.prop "field").toStr).isNullish = true)
    (haddress : (resource.prop reference).prop "reference" = .string s)
    (hplain : isURL (.string s) = false)
    (hrun : recur (.string (substring s (lastIndexOf s "/"))) (fieldMapping.prop "type") =
      some run) :
    ∃ outcome, resolveReference recur host resource reference fieldMapping =
      some (FetchCall.resolve (.string (substring s (lastIndexOf s "/")))
        (fieldMapping.prop "type") :: run.calls, outcome) := by
  unfold resolveReference
  simp only [JSValue.get, hresource, hmapping, hpresent, htarget, haddress, hplain, hrun,
    Bool.false_eq_true, if_false, Bool.not_false, Bool.not_true, if_true]
  obtain ⟨outcome, calls⟩ := run
  cases outcome with
  | error e => exact ⟨_, rfl⟩
  | ok newResource =>
    simp only
    repeat' split
    all_goals exact ⟨_, rfl⟩

/-! ## Theorems: the pattern of `isURL` -/

/-- C24: `isURL(s)` is true exactly when `s` holds, at any position, `http://` or
`https://` with a character right after it that is neither white space nor a
line terminator; so `Medication/http://x` is a URL and `http://` is not.  A
reference whose address is a URL is fetched with a GET of the whole address and,
when the body parses, the whole body is stored in the target field; an address
that is not a URL goes to the recursive call with the text from its last `/`
on. -/
theorem isURL_unanchored (s : String) :
    (isURL (.string s) = true ↔
      ∃ before c rest, isStrWhiteSpaceChar c = false ∧
        (s.data = before ++ "http://".data ++ c :: rest ∨
          s.data = before ++ "https://".data ++ c :: rest)) ∧
    isURL (.string "Medication/http://x") = true ∧
    isURL (.string "http://") = false ∧
    (∀ (recur : JSValue → JSValue → Option FetchRun) (host : Host)
        (props : List (String × JSValue)) (reference : String) (fieldMapping : JSValue),
      fieldMapping.isNullish = false →
      ((JSValue.object props).prop reference).isNullish = false →
      ((JSValue.object props).prop (fieldMapping.prop "field").toStr).isNullish = true →
      ((JSValue.object props).prop reference).prop "reference" = .string s →
      (isURL (.string s) = true →
        ∃ calls outcome,
          resolveReference recur host (.object props) reference fieldMapping =
            some (FetchCall.get s :: calls, outcome) ∧
          (calls = [] ∨ calls = [FetchCall.json]) ∧
          ∀ response body, host.fetch s .get = .ok response → response.json = .ok body →
            outcome = .ok (.object (setProp (fieldMapping.prop "field").toStr body props))) ∧
      (isURL (.string s) = false →
        ∀ run, recur (.string (substring s (lastIndexOf s "/"))) (fieldMapping.prop "type") =
            some run →
          ∃ outcome, resolveReference recur host (.object props) reference fieldMapping =
            some (FetchCall.resolve (.string (substring s (lastIndexOf s "/")))
              (fieldMapping.prop "type") :: run.calls, outcome))) := by
  refine ⟨?_, by decide, by decide, ?_⟩
  · rw [isURL_string_iff]
    simp only [isNonSpaceChar, Bool.not_eq_true']
  · intro recur host props reference fieldMapping hmapping hpresent htarget haddress
    constructor
    · intro hurl
      have h := resolveReference_url recur host (.object props) reference fieldMapping rfl
        hmapping hpresent htarget (by rw [haddress]; exact hurl)
      have hstr : (JSValue.string s).toStr = s := by simp [JSValue.toStr]
      rw [haddress, hstr] at h
      rw [h]
      cases hf : host.fetch s .get with
      | error e => exact ⟨[], _, rfl, Or.inl rfl, fun response body hr => by cases hr⟩
      | ok response =>
        cases hj : response.json with
        | error e =>
          simp only [hj]
          refine ⟨[FetchCall.json], _, rfl, Or.inr rfl, fun response2 body hr hb => ?_⟩
          cases hr
          rw [hj] at hb
          cases hb
        | ok body =>
          simp only [hj, assignStrict, assign]
          refine ⟨[FetchCall.json], _, rfl, Or.inr rfl, fun response2 body2 hr hb => ?_⟩
          cases hr
          rw [hj] at hb
          cases hb
          rfl
    · intro hplain run hrun
      exact resolveReference_plain recur host (.object props) reference fieldMapping s run rfl
        hmapping hpresent htarget haddress hplain hrun

end CDSS
